import Mathlib

/-!
# Semaphore: schedules, jobs, runners, the websocket hub and the exporter

A shallow embedding of `services/schedules/SchedulePool.go`,
`api/sockets/pool.go`, the argument builders and the run of
`services/tasks/local_job_*.go`, the runner of
`services/tasks/task_runner_*.go`, `db_lib/TerraformApp.go`,
`db_lib/LocalApp.go`, `util/shell.go` and `services/export/Exporter.go`,
followed by theorems about them.

Conventions of the embedding:

* a `time.Time` is the instant it denotes, an integer offset from Go's zero
  time (`time.Time{}`), so `Before`/`After` are `<`/`>` and `In(loc)` keeps
  the instant;
* a method with a pointer receiver returns the updated receiver next to its
  result;
* calls that leave the package (store, git client, task pool, deduplicator,
  logger) are recorded, in order, in a list of `Call`s, and their results are
  read from an environment of oracles;
* the order in which a `range` loop visits a map is a parameter;
* a loop that waits and a recursion of unknown depth take a bound on their
  steps, and the theorems show that a large enough bound gives a result.
-/

namespace Semaphore

/-! ## Time -/

/-- A `time.Time`, as the instant it denotes (offset from the zero time). -/
abbrev Time := Int

/-- The zero time, `time.Time{}`. -/
def zeroTime : Time := 0

/-- Go's `t.Before(u)`. -/
def Time.Before (t u : Time) : Bool := decide (t < u)

/-- Go's `t.After(u)`. -/
def Time.After (t u : Time) : Bool := decide (u < t)

/-! ## `oneTimeSchedule` (SchedulePool.go, lines 26-42) -/

/-- The struct `oneTimeSchedule`. -/
structure oneTimeSchedule where
  runAt : Time
  ran : Bool
  deriving DecidableEq, Repr

/-- The method `(*oneTimeSchedule).Next`: the returned time and the receiver
after the call. -/
def oneTimeSchedule.Next (s : oneTimeSchedule) (t : Time) : Time × oneTimeSchedule :=
  if s.ran then
    (zeroTime, s)
  else if !(t.Before s.runAt) then
    (zeroTime, { s with ran := true })
  else
    (s.runAt, s)

/-- A sequence of `Next` calls on one `oneTimeSchedule`: the returned times,
in call order, and the receiver after the last call. -/
def oneTimeSchedule.NextSeq (s : oneTimeSchedule) : List Time → List Time × oneTimeSchedule
  | [] => ([], s)
  | t :: ts =>
    let r := s.Next t
    let rest := oneTimeSchedule.NextSeq r.2 ts
    (r.1 :: rest.1, rest.2)

/-! ## `db.Schedule` (db/Schedule.go) -/

/-- The constant `db.ScheduleTypeCron`. -/
def ScheduleTypeCron : String := ""

/-- The constant `db.ScheduleTypeRunAt`. -/
def ScheduleTypeRunAt : String := "run_at"

/-- Modelled from the spec: `db.TaskParams`, the optional task-params override
of a schedule, is declared outside the given sources; only its identity is
kept. -/
structure TaskParams where
  ID : Int
  deriving DecidableEq, Repr

/-- Modelled from the spec: `db.Task` is declared outside the given sources;
the fields that `ScheduleRunner.Run` reads or writes are kept, together with
the params the task was created from, and the argument text that the jobs
read. -/
structure Task where
  ProjectID : Int
  TemplateID : Int
  ScheduleID : Option Int
  Params : Option TaskParams
  Arguments : Option String := none
  deriving DecidableEq, Repr

/-- The struct `db.Schedule`. The field `Type` is written `Type_`. -/
structure Schedule where
  ID : Int
  ProjectID : Int
  TemplateID : Int
  CronFormat : String
  Name : String
  Active : Bool
  Type_ : String
  DeleteAfterRun : Bool
  LastCommitHash : Option String
  RepositoryID : Option Int
  RunAt : Option Time
  TaskParamsID : Option Int
  TaskParams : Option TaskParams
  deriving DecidableEq, Repr

/-! ## Calls leaving the package -/

/-- A call made by the schedule pool to one of its collaborators, with the
arguments that matter. `Refresh` is a call of `SchedulePool.Refresh` made by a
`ScheduleRunner`; what that call does in turn is `SchedulePool.Refresh`
below. -/
inductive Call where
  | Connect (token : String)
  | Close (token : String)
  | GetSchedule (projectID scheduleID : Int)
  | GetRepository (projectID repositoryID : Int)
  | DeserializeSecret (repositoryID : Int)
  | GetLastRemoteCommitHash (templateID : Int)
  | SetScheduleCommitHash (projectID scheduleID : Int) (hash : String)
  | GetTemplate (projectID templateID : Int)
  | TryLockExecution (scheduleID : Int)
  | AddTask (task : Task) (projectID : Int) (needAlias : Bool)
  | Refresh
  | GetSchedules
  | DeleteSchedule (projectID scheduleID : Int)
  | SetScheduleActive (projectID scheduleID : Int) (active : Bool)
  | Log (level msg : String)
  deriving DecidableEq, Repr

/-- Is the call an `AddTask`? -/
def Call.isAddTask : Call → Bool
  | .AddTask _ _ _ => true
  | _ => false

/-- Is the call a write to the store made by the schedule pool? -/
def Call.isStoreWrite : Call → Bool
  | .SetScheduleCommitHash _ _ _ => true
  | .DeleteSchedule _ _ => true
  | .SetScheduleActive _ _ _ => true
  | _ => false

/-- Is the call a `TryLockExecution`? -/
def Call.isTryLock : Call → Bool
  | .TryLockExecution _ => true
  | _ => false

/-! ## `ScheduleRunner` (SchedulePool.go, lines 18-192) -/

/-- The struct `ScheduleRunner`; its `pool`, `encryptionService` and
`keyInstaller` are references to collaborators, read from `RunEnv`. -/
structure ScheduleRunner where
  projectID : Int
  scheduleID : Int
  deriving DecidableEq, Repr

/-- The function `CreateScheduleRunner`. -/
def CreateScheduleRunner (projectID scheduleID : Int) : ScheduleRunner :=
  { projectID := projectID, scheduleID := scheduleID }

/-- What the collaborators of one `ScheduleRunner.Run` answer. `Repo` and
`Tpl` are the repository and template records, which `Run` only passes on.
An error is its message. -/
structure RunEnv (Repo Tpl : Type) where
  PermanentConnection : Bool
  GetSchedule : Int → Int → Except String Schedule
  GetRepository : Int → Int → Except String Repo
  DeserializeSecret : Repo → Except String Repo
  GetLastRemoteCommitHash : Int → Repo → Except String String
  SetScheduleCommitHash : Int → Int → String → Option String
  GetTemplate : Int → Int → Except String Tpl
  NeedTaskAlias : Tpl → Bool
  dedup : Option (Int → Bool)
  CreateTask : TaskParams → Int → Task
  AddTask : Task → Int → Bool → Option String

/-- The method `ScheduleRunner.tryUpdateScheduleCommitHash`, called with the
value of `*schedule.RepositoryID`: the calls made, `updated`, and `err`. -/
def ScheduleRunner.tryUpdateScheduleCommitHash {Repo Tpl : Type} (env : RunEnv Repo Tpl)
    (schedule : Schedule) (repositoryID : Int) : List Call × Bool × Option String :=
  match env.GetRepository schedule.ProjectID repositoryID with
  | .error e => ([.GetRepository schedule.ProjectID repositoryID], false, some e)
  | .ok repo =>
    match env.DeserializeSecret repo with
    | .error e =>
      ([.GetRepository schedule.ProjectID repositoryID, .DeserializeSecret repositoryID],
        false, some e)
    | .ok repo =>
      match env.GetLastRemoteCommitHash schedule.TemplateID repo with
      | .error e =>
        ([.GetRepository schedule.ProjectID repositoryID, .DeserializeSecret repositoryID,
          .GetLastRemoteCommitHash schedule.TemplateID], false, some e)
      | .ok remoteHash =>
        if schedule.LastCommitHash = some remoteHash then
          ([.GetRepository schedule.ProjectID repositoryID, .DeserializeSecret repositoryID,
            .GetLastRemoteCommitHash schedule.TemplateID], false, none)
        else
          match env.SetScheduleCommitHash schedule.ProjectID schedule.ID remoteHash with
          | some e =>
            ([.GetRepository schedule.ProjectID repositoryID, .DeserializeSecret repositoryID,
              .GetLastRemoteCommitHash schedule.TemplateID,
              .SetScheduleCommitHash schedule.ProjectID schedule.ID remoteHash], false, some e)
          | none =>
            ([.GetRepository schedule.ProjectID repositoryID, .DeserializeSecret repositoryID,
              .GetLastRemoteCommitHash schedule.TemplateID,
              .SetScheduleCommitHash schedule.ProjectID schedule.ID remoteHash], true, none)

/-- Lines 158-167 of `ScheduleRunner.Run`: the task of a firing, built from the
task params of the schedule when it has them, with `ScheduleID` set. -/
def ScheduleRunner.newTask {Repo Tpl : Type} (env : RunEnv Repo Tpl) (schedule : Schedule) :
    Task :=
  let task : Task :=
    match schedule.TaskParams with
    | some params => env.CreateTask params schedule.TemplateID
    | none =>
      { ProjectID := schedule.ProjectID, TemplateID := schedule.TemplateID,
        ScheduleID := none, Params := none }
  { task with ScheduleID := some schedule.ID }

/-- Lines 158-191 of `ScheduleRunner.Run`: build the task, submit it, and
refresh the pool for a `run_at` schedule. -/
def ScheduleRunner.submit {Repo Tpl : Type} (env : RunEnv Repo Tpl) (schedule : Schedule)
    (scheduleType : String) (tpl : Tpl) : List Call :=
  let task := ScheduleRunner.newTask env schedule
  [Call.AddTask task schedule.ProjectID (env.NeedTaskAlias tpl)] ++
  (match env.AddTask task schedule.ProjectID (env.NeedTaskAlias tpl) with
    | some _ => [Call.Log "error" "failed to add task"]
    | none => []) ++
  (if scheduleType = ScheduleTypeRunAt then [Call.Refresh] else [])

/-- Lines 132-156 of `ScheduleRunner.Run`: fetch the template and ask the
deduplicator, then go on to `submit`. -/
def ScheduleRunner.runFromTemplate {Repo Tpl : Type} (r : ScheduleRunner) (env : RunEnv Repo Tpl)
    (schedule : Schedule) (scheduleType : String) : List Call :=
  match env.GetTemplate schedule.ProjectID schedule.TemplateID with
  | .error _ =>
    [.GetTemplate schedule.ProjectID schedule.TemplateID, .Log "error" "failed to get template"]
  | .ok tpl =>
    [Call.GetTemplate schedule.ProjectID schedule.TemplateID] ++
    match env.dedup with
    | some TryLockExecution =>
      if !(TryLockExecution r.scheduleID) then
        [Call.TryLockExecution r.scheduleID,
          Call.Log "debug" "schedule already executed by another node"] ++
        (if scheduleType = ScheduleTypeRunAt then [Call.Refresh] else [])
      else
        [Call.TryLockExecution r.scheduleID] ++
        ScheduleRunner.submit env schedule scheduleType tpl
    | none => ScheduleRunner.submit env schedule scheduleType tpl

/-- Lines 101-191 of `ScheduleRunner.Run`: everything between opening the
store connection and the deferred `Close`. -/
def ScheduleRunner.runBody {Repo Tpl : Type} (r : ScheduleRunner) (env : RunEnv Repo Tpl) :
    List Call :=
  match env.GetSchedule r.projectID r.scheduleID with
  | .error _ =>
    [.GetSchedule r.projectID r.scheduleID, .Log "error" "failed to get schedule"]
  | .ok schedule =>
    let scheduleType := if schedule.Type_ = "" then ScheduleTypeCron else schedule.Type_
    [Call.GetSchedule r.projectID r.scheduleID] ++
    match schedule.RepositoryID with
    | some repositoryID =>
      let res := ScheduleRunner.tryUpdateScheduleCommitHash env schedule repositoryID
      match res.2.2 with
      | some _ => res.1 ++ [Call.Log "error" "failed to update schedule commit hash"]
      | none =>
        if !res.2.1 then res.1
        else res.1 ++ r.runFromTemplate env schedule scheduleType
    | none => r.runFromTemplate env schedule scheduleType

/-- The method `ScheduleRunner.Run`: the calls it makes, in order. -/
def ScheduleRunner.Run {Repo Tpl : Type} (r : ScheduleRunner) (env : RunEnv Repo Tpl) :
    List Call :=
  if !env.PermanentConnection then
    [Call.Connect ("schedule " ++ toString r.scheduleID)] ++ r.runBody env ++
      [Call.Close ("schedule " ++ toString r.scheduleID)]
  else
    r.runBody env

/-! ## `SchedulePool` (SchedulePool.go, lines 239-392) -/

/-- What a cron entry is scheduled by: a parsed cron format, or a
`oneTimeSchedule`. -/
inductive CronSchedule where
  | spec (cronFormat : String)
  | oneTime (s : oneTimeSchedule)
  deriving DecidableEq, Repr

/-- An entry of the pool's cron engine (`cron.Entry`): schedule and job. -/
structure Entry where
  Schedule : CronSchedule
  Job : ScheduleRunner
  deriving DecidableEq, Repr

/-- The state a `SchedulePool` works on: the entries of `p.cron`, the schedule
table of `p.store`, and the calls made so far. -/
structure PoolState where
  entries : List Entry
  store : List Schedule
  calls : List Call
  deriving DecidableEq, Repr

/-- What the collaborators of one `SchedulePool.Refresh` answer: whether
`GetSchedules` fails, the clock, the parser of the cron engine (`none` when
the format parses, else the error), and whether a store write fails. -/
structure RefreshEnv where
  GetSchedulesErr : Option String
  now : Time
  Parse : String → Option String
  DeleteScheduleErr : Int → Int → Option String
  SetScheduleActiveErr : Int → Int → Bool → Option String

/-- Modelled from the spec: `Store.DeleteSchedule`, whose implementations are
outside the given sources, removes the schedule with this project and id from
the schedule table. -/
def Store.DeleteSchedule (table : List Schedule) (projectID scheduleID : Int) : List Schedule :=
  table.filter (fun s => !(decide (s.ProjectID = projectID) && decide (s.ID = scheduleID)))

/-- Modelled from the spec: `Store.SetScheduleActive`, whose implementations
are outside the given sources, sets the active flag of the schedule with this
project and id. -/
def Store.SetScheduleActive (table : List Schedule) (projectID scheduleID : Int)
    (active : Bool) : List Schedule :=
  table.map (fun s =>
    if s.ProjectID = projectID ∧ s.ID = scheduleID then { s with Active := active } else s)

/-- The method `SchedulePool.clear`: remove every entry of the cron engine. -/
def SchedulePool.clear (p : PoolState) : PoolState :=
  { p with entries := [] }

/-- The method `SchedulePool.addRunner` (`cron.AddJob`): parse the format and
add an entry when it parses; the new state and `err`. -/
def SchedulePool.addRunner (env : RefreshEnv) (p : PoolState) (runner : ScheduleRunner)
    (cronFormat : String) : PoolState × Option String :=
  match env.Parse cronFormat with
  | some e => (p, some e)
  | none => ({ p with entries := p.entries ++ [⟨.spec cronFormat, runner⟩] }, none)

/-- The method `SchedulePool.addOneTimeRunner` (`cron.Schedule`): add an entry
driven by a fresh `oneTimeSchedule`; the new state and `err`. -/
def SchedulePool.addOneTimeRunner (p : PoolState) (runner : ScheduleRunner) (runAt : Time) :
    PoolState × Option String :=
  ({ p with entries := p.entries ++ [⟨.oneTime { runAt := runAt, ran := false }, runner⟩] }, none)

/-- Lines 349-355 of `SchedulePool.Refresh`: log a failed add. -/
def SchedulePool.logAddError (res : PoolState × Option String) : PoolState :=
  match res.2 with
  | some _ => { res.1 with calls := res.1.calls ++ [.Log "error" "failed to add schedule"] }
  | none => res.1

/-- Lines 281-355 of `SchedulePool.Refresh`: the body of the loop, for one
schedule of the loaded list. -/
def SchedulePool.refreshSchedule (env : RefreshEnv) (p : PoolState) (schedule : Schedule) :
    PoolState :=
  let scheduleType := if schedule.Type_ = "" then ScheduleTypeCron else schedule.Type_
  if schedule.RepositoryID = none ∧ schedule.Active = false then
    p
  else
    let runner := CreateScheduleRunner schedule.ProjectID schedule.ID
    if scheduleType = ScheduleTypeRunAt then
      match schedule.RunAt with
      | none => { p with calls := p.calls ++ [.Log "warn" "run_at schedule has no run_at value"] }
      | some runAt =>
        if !(runAt.After env.now) then
          if schedule.DeleteAfterRun then
            match env.DeleteScheduleErr schedule.ProjectID schedule.ID with
            | some _ =>
              { p with calls := p.calls ++ [.DeleteSchedule schedule.ProjectID schedule.ID,
                  .Log "warn" "failed to delete past run_at schedule"] }
            | none =>
              { p with
                store := Store.DeleteSchedule p.store schedule.ProjectID schedule.ID
                calls := p.calls ++ [.DeleteSchedule schedule.ProjectID schedule.ID] }
          else if schedule.Active then
            match env.SetScheduleActiveErr schedule.ProjectID schedule.ID false with
            | some _ =>
              { p with calls := p.calls ++
                  [.SetScheduleActive schedule.ProjectID schedule.ID false,
                    .Log "warn" "failed to deactivate past run_at schedule"] }
            | none =>
              { p with
                store := Store.SetScheduleActive p.store schedule.ProjectID schedule.ID false
                calls := p.calls ++ [.SetScheduleActive schedule.ProjectID schedule.ID false] }
          else
            p
        else
          SchedulePool.logAddError (SchedulePool.addOneTimeRunner p runner runAt)
    else if scheduleType = ScheduleTypeCron then
      if schedule.CronFormat = "" then
        p
      else
        SchedulePool.logAddError (SchedulePool.addRunner env p runner schedule.CronFormat)
    else
      { p with calls := p.calls ++ [.Log "warn" "schedule has unsupported type"] }

/-- The method `SchedulePool.Refresh`: load the schedules, drop every cron
entry, and walk the loaded list. -/
def SchedulePool.Refresh (env : RefreshEnv) (p : PoolState) : PoolState :=
  match env.GetSchedulesErr with
  | some _ =>
    { p with calls := p.calls ++ [.GetSchedules, .Log "error" "failed to get schedules"] }
  | none =>
    let schedules := p.store
    let p := { p with calls := p.calls ++ [.GetSchedules] }
    let p := SchedulePool.clear p
    schedules.foldl (SchedulePool.refreshSchedule env) p

/-! ## Channels -/

/-- A message body, `[]byte`. -/
abbrev Payload := List UInt8

/-- A Go channel of payloads: the buffered values, the capacity of the buffer,
the number of receivers blocked on the channel, and whether it is closed.
`placed` records every value a send has placed on the channel, in order. -/
structure Chan where
  buf : List Payload
  cap : Nat
  recvq : Nat
  closed : Bool
  placed : List Payload
  deriving DecidableEq, Repr

/-- Outcome of `select { case ch <- v: ... default: ... }`. -/
inductive SendResult where
  | sent (ch : Chan)
  | wouldBlock
  | sendOnClosed
  deriving DecidableEq, Repr

/-- A send to the channel proceeds at once: a receiver is blocked on it or the
buffer has room. -/
def Chan.canAccept (ch : Chan) : Bool :=
  decide (0 < ch.recvq) || decide (ch.buf.length < ch.cap)

/-- The non-blocking send `select { case ch <- v: default: }`: a send on a
closed channel panics, a blocked receiver takes the value directly, else the
value goes to the buffer when there is room, else the send would block. -/
def Chan.trySend (ch : Chan) (v : Payload) : SendResult :=
  if ch.closed then
    .sendOnClosed
  else if 0 < ch.recvq then
    .sent { ch with recvq := ch.recvq - 1, placed := ch.placed ++ [v] }
  else if ch.buf.length < ch.cap then
    .sent { ch with buf := ch.buf ++ [v], placed := ch.placed ++ [v] }
  else
    .wouldBlock

/-- The builtin `close(ch)`: closing a closed channel panics (`none`); closing
releases the blocked receivers. -/
def Chan.close (ch : Chan) : Option Chan :=
  if ch.closed then none else some { ch with closed := true, recvq := 0 }

/-- A receive `<-ch` by the goroutine that drains the channel: it takes the
oldest buffered value, returns at once on a closed and drained channel, and
blocks otherwise. -/
def Chan.recv (ch : Chan) : Chan :=
  match ch.buf with
  | _ :: rest => { ch with buf := rest }
  | [] => if ch.closed then ch else { ch with recvq := ch.recvq + 1 }

/-! ## The hub (api/sockets/pool.go, lines 27-87) -/

/-- The struct `connection`, declared outside the given sources: the user id,
the outbound channel `send`, and whether `ws.Close()` has been called. -/
structure connection where
  userID : Int
  send : Chan
  wsClosed : Bool
  deriving DecidableEq, Repr

/-- The struct `sendRequest`. -/
structure sendRequest where
  userID : Int
  msg : Payload
  deriving DecidableEq, Repr

/-- The struct `hub` with the memory its pointers refer to. A `*connection` is
a natural number, `conns` gives the connection it points to, `connections`
lists the keys of the map `h.connections`, and `log` holds the user ids of the
logged evictions. The three channels of the hub appear as `HubEvent`s. -/
structure hub where
  connections : List Nat
  conns : Nat → connection
  log : List Int

/-- What the hub's `select` receives: a value from `register`, `unregister` or
`broadcast`. -/
inductive HubEvent where
  | register (c : Nat)
  | unregister (c : Nat)
  | broadcast (m : sendRequest)
  deriving DecidableEq, Repr

/-- Lines 67-83 of `hub.run`: the body of the loop over the connections, for
the connection `conn`. `.error` is a panic, with the state it happened in. -/
def hub.deliver (m : sendRequest) (h : hub) (conn : Nat) : Except hub hub :=
  if m.userID > 0 ∧ m.userID ≠ (h.conns conn).userID then
    .ok h
  else
    match (h.conns conn).send.trySend m.msg with
    | .sent ch =>
      .ok { h with conns := Function.update h.conns conn { h.conns conn with send := ch } }
    | .sendOnClosed => .error h
    | .wouldBlock =>
      match (h.conns conn).send.close with
      | none => .error { h with log := h.log ++ [(h.conns conn).userID] }
      | some ch =>
        .ok { connections := h.connections.filter (fun c => decide (c ≠ conn))
              conns := Function.update h.conns conn
                { h.conns conn with send := ch, wsClosed := true }
              log := h.log ++ [(h.conns conn).userID] }

/-- The loop of lines 66-84 over the keys `keys` of the map. -/
def hub.deliverAll (m : sendRequest) (h : hub) : List Nat → Except hub hub
  | [] => .ok h
  | conn :: keys =>
    match hub.deliver m h conn with
    | .ok h1 => hub.deliverAll m h1 keys
    | .error h1 => .error h1

/-- One iteration of the loop of `hub.run`: handle what `select` received.
A map holds each key once, so the range loop visits every registered
connection once. `.error` is a panic, with the state it happened in. -/
def hub.handle (h : hub) : HubEvent → Except hub hub
  | .register c => .ok { h with connections := h.connections.insert c }
  | .unregister c =>
    if c ∈ h.connections then
      let h1 : hub := { h with connections := h.connections.filter (fun k => decide (k ≠ c)) }
      match (h1.conns c).send.close with
      | none => .error h1
      | some ch => .ok { h1 with conns := Function.update h1.conns c { h1.conns c with send := ch } }
    else
      .ok h
  | .broadcast m => hub.deliverAll m h h.connections.dedup

/-- What happens around the hub: the hub handles an event, or the goroutine
that drains the `send` channel of a connection receives from it. -/
inductive WorldEvent where
  | hub (e : HubEvent)
  | receive (c : Nat)
  deriving DecidableEq, Repr

/-- The goroutine that drains the `send` channel of the connection `c`
receives from it. -/
def hub.receive (h : hub) (c : Nat) : hub :=
  { h with conns := Function.update h.conns c { h.conns c with send := (h.conns c).send.recv } }

/-- The state after a sequence of events; a panic of the hub ends the run in
the state it happened in. -/
def hub.runEvents (h : hub) : List WorldEvent → hub
  | [] => h
  | .hub e :: rest =>
    match h.handle e with
    | .ok h1 => hub.runEvents h1 rest
    | .error h1 => h1
  | .receive c :: rest => hub.runEvents (h.receive c) rest

/-- The payloads of the broadcasts among the events that are addressed to the
user `userID` or to all users, in the order of the events. -/
def addressedTo (userID : Int) : List WorldEvent → List Payload
  | [] => []
  | .hub (.broadcast m) :: rest =>
    if m.userID ≤ 0 ∨ m.userID = userID then m.msg :: addressedTo userID rest
    else addressedTo userID rest
  | _ :: rest => addressedTo userID rest

/-! ## Sample schedules and environments -/

/-- A schedule with id 123 in project 1 for template 7, with a repository
ref, of the given type and stored commit hash. -/
def sampleSchedule (ty : String) (lastHash : Option String) : Schedule :=
  { ID := 123, ProjectID := 1, TemplateID := 7, CronFormat := "* * 1 * *", Name := "nightly",
    Active := true, Type_ := ty, DeleteAfterRun := false, LastCommitHash := lastHash,
    RepositoryID := some 5, RunAt := some 100, TaskParamsID := none, TaskParams := none }

/-- Collaborators that all succeed: the store returns the given schedule, the
remote head is at hash `b`, and the deduplicator is the given one. -/
def sampleEnv (schedule : Schedule) (dedup : Option (Int → Bool)) : RunEnv Unit Unit :=
  { PermanentConnection := false
    GetSchedule := fun _ _ => .ok schedule
    GetRepository := fun _ _ => .ok ()
    DeserializeSecret := fun repo => .ok repo
    GetLastRemoteCommitHash := fun _ _ => .ok "b"
    SetScheduleCommitHash := fun _ _ _ => none
    GetTemplate := fun _ _ => .ok ()
    NeedTaskAlias := fun _ => false
    dedup := dedup
    CreateTask := fun params templateID =>
      { ProjectID := 1, TemplateID := templateID, ScheduleID := none, Params := some params }
    AddTask := fun _ _ _ => none }

/-- A schedule of project 1 for template 7 without repository ref. -/
def sampleRow (id : Int) (ty cronFormat : String) (active deleteAfterRun : Bool)
    (runAt : Option Time) : Schedule :=
  { ID := id, ProjectID := 1, TemplateID := 7, CronFormat := cronFormat, Name := "row",
    Active := active, Type_ := ty, DeleteAfterRun := deleteAfterRun, LastCommitHash := none,
    RepositoryID := none, RunAt := runAt, TaskParamsID := none, TaskParams := none }

/-- A schedule table: an active cron schedule (1), an active `run_at` schedule
due at 100 (2), active `run_at` schedules due at 10 that are kept (3) and
deleted (4) after the run, and an inactive cron schedule (5). -/
def sampleTable : List Schedule :=
  [sampleRow 1 "" "* * 1 * *" true false none,
    sampleRow 2 "run_at" "" true false (some 100),
    sampleRow 3 "run_at" "" true false (some 10),
    sampleRow 4 "run_at" "" true true (some 10),
    sampleRow 5 "" "* * 1 * *" false false none]

/-- A pool over `sampleTable` with one stale cron entry. -/
def samplePool : PoolState :=
  { entries := [⟨.spec "* * * * *", ⟨1, 3⟩⟩], store := sampleTable, calls := [] }

/-- Collaborators of `Refresh` at time 50: the store answers, and the parser
accepts the format `* * 1 * *` only. -/
def sampleRefreshEnv : RefreshEnv :=
  { GetSchedulesErr := none
    now := 50
    Parse := fun cronFormat => if cronFormat = "* * 1 * *" then none else some "bad format"
    DeleteScheduleErr := fun _ _ => none
    SetScheduleActiveErr := fun _ _ _ => none }

/-- The state a step of the hub ends in, whether it returned or panicked. -/
def hub.after : Except hub hub → hub
  | .ok h => h
  | .error h => h

/-- An open connection of the given user with the given buffered payloads and
buffer capacity. -/
def sampleConn (userID : Int) (buf : List Payload) (cap : Nat) : connection :=
  { userID := userID
    send := { buf := buf, cap := cap, recvq := 0, closed := false, placed := buf }
    wsClosed := false }

/-- A hub with three registered connections: 0 of user 7 with room, 1 of user
8 with room, and 2 of user 7 with a full buffer. -/
def sampleHub : hub :=
  { connections := [0, 1, 2]
    conns := fun c =>
      if c = 0 then sampleConn 7 [] 1
      else if c = 1 then sampleConn 8 [] 1
      else sampleConn 7 [[1]] 1
    log := [] }

/-! ## JSON values and Go maps -/

/-- A JSON value as `encoding/json` sees it. A number carries the text Go
prints for the decoded `float64` with the verb `%v` (3 for the JSON text 3 or
3.0). -/
inductive JsonValue where
  | null
  | bool (b : Bool)
  | number (text : String)
  | string (s : String)
  | array (items : List JsonValue)
  | object (members : List (String × JsonValue))

/-- A Go map with string keys, as the list of its entries; `set` keeps the
keys distinct. A nil map reads as the empty map; the one assignment to a map
that may be nil, in `getEnvironmentExtraVars`, is handled there. -/
structure GoMap (V : Type) where
  entries : List (String × V)
  deriving DecidableEq, Repr

/-- The empty map, `make(map[string]V)`. -/
def GoMap.empty {V : Type} : GoMap V := ⟨[]⟩

/-- The first value stored under a key in a list of entries. -/
def GoMap.find {V : Type} (k : String) : List (String × V) → Option V
  | [] => none
  | e :: rest => if e.1 = k then some e.2 else GoMap.find k rest

/-- The lookup `v, ok := m[k]`. -/
def GoMap.get? {V : Type} (m : GoMap V) (k : String) : Option V :=
  GoMap.find k m.entries

/-- The assignment `m[k] = v`. -/
def GoMap.set {V : Type} (m : GoMap V) (k : String) (v : V) : GoMap V :=
  ⟨(k, v) :: m.entries.filter (fun e => !decide (e.1 = k))⟩

/-- The length `len(m)`. -/
def GoMap.len {V : Type} (m : GoMap V) : Nat := m.entries.length

/-- The order in which a `range` loop visits the entries of a map, which Go
leaves unspecified: one choice for maps of JSON values and one for maps of
argument lists. -/
structure RangeOrder where
  vars : List (String × JsonValue) → List (String × JsonValue)
  stages : List (String × List String) → List (String × List String)

/-- A `range` loop visits every entry of the map once. -/
def RangeOrder.Valid (order : RangeOrder) : Prop :=
  (∀ l, (order.vars l).Perm l) ∧ (∀ l, (order.stages l).Perm l)

/-! ## `json.Unmarshal` into the types the jobs use -/

/-- The first error of a decoding, the one `json.Unmarshal` returns. -/
def firstError : List (Option String) → Option String
  | [] => none
  | some e :: _ => some e
  | none :: rest => firstError rest

/-- The word by which `encoding/json` names the kind of a JSON value in the
text of an `UnmarshalTypeError`. -/
def JsonValue.kind : JsonValue → String
  | .null => "null"
  | .bool _ => "bool"
  | .number _ => "number"
  | .string _ => "string"
  | .array _ => "array"
  | .object _ => "object"

/-- Decoding a JSON value into a Go `string`: a JSON string gives its text,
`null` leaves the zero value, anything else is a type error and leaves the
zero value. -/
def decodeString : JsonValue → String × Option String
  | .string s => (s, none)
  | .null => ("", none)
  | v => ("", some ("json: cannot unmarshal " ++ v.kind ++ " into Go value of type string"))

/-- Decoding a JSON value into a `[]string` that holds `old`: `null` gives the
nil slice, an array is decoded element by element, anything else is a type
error and leaves the slice as it was. -/
def decodeStringSlice (old : List String) : JsonValue → List String × Option String
  | .null => ([], none)
  | .array items =>
    ((items.map decodeString).map Prod.fst, firstError ((items.map decodeString).map Prod.snd))
  | v => (old, some ("json: cannot unmarshal " ++ v.kind ++ " into Go value of type []string"))

/-- Decoding a JSON value into a `map[string][]string` that holds `old`:
`null` gives the nil map, the members of an object are stored one by one, each
decoded into a fresh slice, anything else is a type error and leaves the map
as it was. -/
def decodeStageMap (old : GoMap (List String)) :
    JsonValue → GoMap (List String) × Option String
  | .null => (GoMap.empty, none)
  | .object members =>
    (members.foldl (fun m kv => m.set kv.1 (decodeStringSlice [] kv.2).1) old,
      firstError (members.map (fun kv => (decodeStringSlice [] kv.2).2)))
  | v =>
    (old, some ("json: cannot unmarshal " ++ v.kind ++
      " into Go value of type map[string][]string"))

/-- The call `json.Unmarshal([]byte(text), &slice)`; `parse` is the syntax
check and scanner of `encoding/json`. -/
def unmarshalStringSlice (parse : String → Except String JsonValue) (text : String)
    (old : List String) : List String × Option String :=
  match parse text with
  | .error e => (old, some e)
  | .ok v => decodeStringSlice old v

/-- The call `json.Unmarshal([]byte(text), &m)` for a `map[string][]string`. -/
def unmarshalStageMap (parse : String → Except String JsonValue) (text : String)
    (old : GoMap (List String)) : GoMap (List String) × Option String :=
  match parse text with
  | .error e => (old, some e)
  | .ok v => decodeStageMap old v

/-! ## `LocalJob` (services/tasks/local_job_*.go) -/

/-- Modelled from the spec: the constant `db.EnvironmentSecretVar`, declared
outside the given sources, the type of an environment secret that is passed
as a variable. -/
def EnvironmentSecretVar : String := "var"

/-- Modelled from the spec: `db.EnvironmentSecret`, declared outside the given
sources; the fields the jobs read. The field `Type` is written `Type_`. -/
structure EnvironmentSecret where
  Name : String
  Secret : String
  Type_ : String
  deriving DecidableEq, Repr

/-- Modelled from the spec: `db.Environment`, declared outside the given
sources; the fields the argument builders read. -/
structure Environment where
  JSON : String
  Secrets : List EnvironmentSecret
  deriving DecidableEq, Repr

/-- Modelled from the spec: `db.Template`, declared outside the given sources;
the fields the argument builders read. -/
structure Template where
  Playbook : String
  Arguments : Option String
  deriving DecidableEq, Repr

/-- Modelled from the spec: `db.TerraformTaskParams`, declared outside the
given sources. -/
structure TerraformTaskParams where
  Plan : Bool
  Destroy : Bool
  AutoApprove : Bool
  Upgrade : Bool
  Reconfigure : Bool
  deriving DecidableEq, Repr

/-- The struct `LocalJob`, with the fields the argument builders read. -/
structure LocalJob where
  Task : Task
  Template : Template
  Environment : Environment
  deriving DecidableEq, Repr

/-- What the collaborators of the argument builders answer: the JSON scanner,
the order of the `range` loops, the value `getEnvironmentExtraVars` stores
under `semaphore_vars` (the task details), the result of
`Task.ExtractParams`, and the text `fmt` prints for an array or an object
under `%s`. -/
structure JobEnv where
  parse : String → Except String JsonValue
  order : RangeOrder
  semaphoreVars : JsonValue
  ExtractParams : Except String TerraformTaskParams
  formatComposite : JsonValue → String

/-- The method `LocalJob.getCLIArgs`: template arguments, task arguments and
`err`. -/
def LocalJob.getCLIArgs (t : LocalJob) (env : JobEnv) :
    List String × List String × Option String :=
  let tpl : List String × Option String :=
    match t.Template.Arguments with
    | some text => unmarshalStringSlice env.parse text []
    | none => ([], none)
  match tpl.2 with
  | some e => (tpl.1, [], some e)
  | none =>
    let task : List String × Option String :=
      match t.Task.Arguments with
      | some text => unmarshalStringSlice env.parse text []
      | none => ([], none)
    (tpl.1, task.1, task.2)

/-- Lines 37-49 and 51-63 of `LocalJob.getCLIArgsMap`, the same code for the
template and for the task: read an argument text as a stage map, or else as a
list of strings for the stage `default`. -/
def LocalJob.argsMapOf (parse : String → Except String JsonValue) (arguments : Option String) :
    GoMap (List String) × Option String :=
  match arguments with
  | none => (GoMap.empty, none)
  | some text =>
    let asMap := unmarshalStageMap parse text GoMap.empty
    match asMap.2 with
    | none => (asMap.1, none)
    | some _ =>
      let asList := unmarshalStringSlice parse text []
      match asList.2 with
      | none => (asMap.1.set "default" asList.1, none)
      | some e => (asMap.1, some e)

/-- The method `LocalJob.getCLIArgsMap`: template stage map, task stage map
and `err`. -/
def LocalJob.getCLIArgsMap (t : LocalJob) (env : JobEnv) :
    GoMap (List String) × GoMap (List String) × Option String :=
  let tpl := LocalJob.argsMapOf env.parse t.Template.Arguments
  match tpl.2 with
  | some e => (tpl.1, GoMap.empty, some e)
  | none =>
    let task := LocalJob.argsMapOf env.parse t.Task.Arguments
    (tpl.1, task.1, task.2)

/-- How a Go function that can fail ended: it returned a value, it returned a
non-nil `err` after logging the given lines, or it panicked. -/
inductive Result (α : Type) where
  | ok (value : α)
  | err (e : String) (logged : List String)
  | panic (msg : String)

/-- The method `LocalJob.getEnvironmentExtraVars`: the variables of the
environment JSON, with the task details stored under `semaphore_vars`.
The JSON text `null` turns `extraVars` into a nil map, and the assignment of
line 61 to a nil map panics. -/
def LocalJob.getEnvironmentExtraVars (t : LocalJob) (env : JobEnv) : Result (GoMap JsonValue) :=
  let decoded : Option (GoMap JsonValue) × Option String :=
    if t.Environment.JSON ≠ "" then
      match env.parse t.Environment.JSON with
      | .error e => (some GoMap.empty, some e)
      | .ok .null => (none, none)
      | .ok (.object members) =>
        (some (members.foldl (fun m kv => m.set kv.1 kv.2) GoMap.empty), none)
      | .ok _ =>
        (some GoMap.empty,
          some "json: cannot unmarshal into Go value of type map[string]interface {}")
    else
      (some GoMap.empty, none)
  match decoded.2 with
  | some e => .err e []
  | none =>
    match decoded.1 with
    | none => .panic "assignment to entry in nil map"
    | some extraVars => .ok (extraVars.set "semaphore_vars" env.semaphoreVars)

/-- The text `fmt.Sprintf` prints for a value of type `any` under the verb
`%s`: a string as it is; a number, a boolean and nil with the marker of a
wrong verb, `%!s(type=value)`; an array or an object as `formatComposite`
says. -/
def sprintS (formatComposite : JsonValue → String) : JsonValue → String
  | .string s => s
  | .number text => "%!s(float64=" ++ text ++ ")"
  | .bool b => "%!s(bool=" ++ (if b then "true" else "false") ++ ")"
  | .null => "%!s(<nil>)"
  | .array items => formatComposite (.array items)
  | .object members => formatComposite (.object members)

/-- The method `LocalJob.getShellArgs`. -/
def LocalJob.getShellArgs (t : LocalJob) (env : JobEnv) : Result (List String) :=
  match t.getEnvironmentExtraVars env with
  | .panic msg => .panic msg
  | .err e _ => .err e [e, "Error getting environment extra vars"]
  | .ok extraVars =>
    let cli := t.getCLIArgs env
    match cli.2.2 with
    | some e => .err e [e]
    | none =>
      .ok ([t.Template.Playbook]
        ++ (t.Environment.Secrets.filter
              (fun secret => decide (secret.Type_ = EnvironmentSecretVar))).map
            (fun secret => secret.Name ++ "=" ++ secret.Secret)
        ++ cli.1
        ++ ((env.order.vars extraVars.entries).filter
              (fun e => decide (e.1 ≠ "semaphore_vars"))).map
            (fun e => e.1 ++ "=" ++ sprintS env.formatComposite e.2)
        ++ cli.2.1)

/-- Lines 100-119 of `LocalJob.getTerraformArgs`: copy the template stages,
append the task stages, and fall back to an empty `default` stage. -/
def LocalJob.mergeStageArgs (order : RangeOrder)
    (templateArgsMap taskArgsMap : GoMap (List String)) : GoMap (List String) :=
  let argsMap : GoMap (List String) :=
    (order.stages templateArgsMap.entries).foldl (fun m e => m.set e.1 ([] ++ e.2)) GoMap.empty
  let argsMap : GoMap (List String) :=
    (order.stages taskArgsMap.entries).foldl
      (fun m e =>
        match m.get? e.1 with
        | some existing => m.set e.1 (existing ++ e.2)
        | none => m.set e.1 ([] ++ e.2))
      argsMap
  if argsMap.len = 0 then argsMap.set "default" [] else argsMap

/-- Lines 121-132 of `LocalJob.getTerraformArgs`: wrap every stage except
`init` in the common arguments. -/
def LocalJob.addCommonArgs (order : RangeOrder) (destroyArgs varArgs secretArgs : List String)
    (argsMap : GoMap (List String)) : GoMap (List String) :=
  (order.stages argsMap.entries).foldl
    (fun m e =>
      if e.1 = "init" then m
      else m.set e.1 ([] ++ destroyArgs ++ (m.get? e.1).getD [] ++ varArgs ++ secretArgs))
    argsMap

/-- The method `LocalJob.getTerraformArgs`. -/
def LocalJob.getTerraformArgs (t : LocalJob) (env : JobEnv) : Result (GoMap (List String)) :=
  match t.getEnvironmentExtraVars env with
  | .panic msg => .panic msg
  | .err e _ =>
    .err e [e, "Could not remove command environment, if existent it will be passed to --extra-vars. This is not fatal but be aware of side effects"]
  | .ok extraVars =>
    match env.ExtractParams with
    | .error e => .err e []
    | .ok params =>
      let destroyArgs : List String := if params.Destroy then [] ++ ["-destroy"] else []
      let varArgs : List String :=
        ((env.order.vars extraVars.entries).filter
            (fun e => !decide (e.1 = "semaphore_vars"))).flatMap
          (fun e => ["-var", e.1 ++ "=" ++ sprintS env.formatComposite e.2])
      let cli := t.getCLIArgsMap env
      match cli.2.2 with
      | some e => .err e [e]
      | none =>
        let secretArgs : List String :=
          (t.Environment.Secrets.filter
              (fun secret => !decide (secret.Type_ ≠ EnvironmentSecretVar))).flatMap
            (fun secret => ["-var", secret.Name ++ "=" ++ secret.Secret])
        .ok (LocalJob.addCommonArgs env.order destroyArgs varArgs secretArgs
          (LocalJob.mergeStageArgs env.order cli.1 cli.2.1))

/-! ## `TerraformApp` (db_lib/TerraformApp.go) -/

/-- Modelled from the spec: `task_logger.TaskStatus`, declared outside the
given sources, with the statuses of the task state machine. -/
inductive TaskStatus where
  | TaskWaitingStatus
  | TaskStartingStatus
  | TaskWaitingConfirmation
  | TaskConfirmed
  | TaskRejected
  | TaskRunningStatus
  | TaskStoppingStatus
  | TaskStoppedStatus
  | TaskSuccessStatus
  | TaskFailStatus
  deriving DecidableEq, Repr

/-- Modelled from the spec: `TaskStatus.IsFinished`, declared outside the
given sources: the terminal statuses are success, fail and stopped. -/
def TaskStatus.IsFinished : TaskStatus → Bool
  | .TaskStoppedStatus => true
  | .TaskSuccessStatus => true
  | .TaskFailStatus => true
  | _ => false

/-- Modelled from the spec: `db.TerraformTemplateParams`, declared outside the
given sources; the fields `TerraformApp.Run` reads. -/
structure TerraformTemplateParams where
  AutoApprove : Bool
  AllowAutoApprove : Bool
  deriving DecidableEq, Repr

/-- The struct `terraformReader`; its `logger` is a collaborator. -/
structure terraformReader where
  EOF : Bool
  status : TaskStatus
  deriving DecidableEq, Repr

/-- The struct `TerraformApp`, with the fields `Run` reads. -/
structure TerraformApp where
  reader : terraformReader
  PlanHasNoChanges : Bool
  deriving DecidableEq, Repr

/-- The struct `LocalAppRunningArgs` (db_lib/LocalApp.go), with the task and
template params already asserted to their Terraform types. -/
structure LocalAppRunningArgs where
  CliArgs : GoMap (List String)
  EnvironmentVars : List String
  TaskParams : TerraformTaskParams
  TemplateParams : TerraformTemplateParams

/-- A call made by `TerraformApp.Run` or `terraformReader.Read`. -/
inductive AppCall where
  | Plan (args : List String)
  | Apply (args : List String)
  | SetStatus (status : TaskStatus)
  deriving DecidableEq, Repr

/-- Is the call an `Apply`? -/
def AppCall.isApply : AppCall → Bool
  | .Apply _ => true
  | _ => false

/-- What happens around one `TerraformApp.Run`: the error of `Plan`, whether
a log line with `No changes.` reached the listener of `Plan`, the error of
`Apply`, and the status `reader.status` holds when it is read after the k-th
sleep (other goroutines set it through the status listener). -/
structure AppWorld where
  planErr : Option String
  noChangesLogged : Bool
  applyErr : Option String
  observed : Nat → TaskStatus

/-- Lines 335-351 of `TerraformApp.Run`: the arguments of the plan stage and
of the apply stage. -/
def TerraformApp.stageArgs (CliArgs : GoMap (List String)) : List String × List String :=
  let first : List String × List String :=
    match CliArgs.get? "plan" with
    | some pArgs => (pArgs, [])
    | none =>
      match CliArgs.get? "apply" with
      | some aArgs => ([], aArgs)
      | none =>
        match CliArgs.get? "default" with
        | some defaultArgs => (defaultArgs, [])
        | none => ([], [])
  let applyArgs : List String :=
    match CliArgs.get? "apply" with
    | some aArgs => aArgs
    | none =>
      match CliArgs.get? "default" with
      | some defaultArgs => defaultArgs
      | none => first.2
  (first.1, applyArgs)

/-- The exit condition of the waiting loops (lines 48-50 and 375-377). -/
def TaskStatus.decided (s : TaskStatus) : Bool :=
  s.IsFinished || decide (s = .TaskConfirmed) || decide (s = .TaskRejected)

/-- The waiting loops of lines 46-53 and 373-380: sleep, read the status, and
leave with it once it is decided. The loop starts at its `k`-th pass and makes
at most `fuel` passes; `none` means it is still waiting after them. -/
def awaitDecision (observed : Nat → TaskStatus) : Nat → Nat → Option TaskStatus
  | 0, _ => none
  | fuel + 1, k =>
    if (observed k).decided then some (observed k)
    else awaitDecision observed fuel (k + 1)

/-- The method `TerraformApp.Run`: the calls it makes and the error it
returns, or `none` while it is still waiting for a decision. -/
def TerraformApp.Run (t : TerraformApp) (w : AppWorld) (args : LocalAppRunningArgs)
    (fuel : Nat) : Option (List AppCall × Option String) :=
  let planArgs := (TerraformApp.stageArgs args.CliArgs).1
  let applyArgs := (TerraformApp.stageArgs args.CliArgs).2
  match w.planErr with
  | some e => some ([.Plan planArgs], some e)
  | none =>
    let params := args.TaskParams
    let tplParams := args.TemplateParams
    if (t.PlanHasNoChanges || w.noChangesLogged) || params.Plan then
      some ([.Plan planArgs, .SetStatus .TaskSuccessStatus], none)
    else if tplParams.AutoApprove || tplParams.AllowAutoApprove && params.AutoApprove then
      some ([.Plan planArgs, .SetStatus .TaskRunningStatus, .Apply applyArgs], w.applyErr)
    else
      match awaitDecision w.observed fuel 0 with
      | none => none
      | some .TaskRejected =>
        some ([.Plan planArgs, .SetStatus .TaskWaitingConfirmation,
          .SetStatus .TaskFailStatus], none)
      | some .TaskConfirmed =>
        some ([.Plan planArgs, .SetStatus .TaskWaitingConfirmation,
          .SetStatus .TaskRunningStatus, .Apply applyArgs], w.applyErr)
      | some _ => some ([.Plan planArgs, .SetStatus .TaskWaitingConfirmation], none)

/-- The builtin `copy(dst, src)`: the bytes of `src` that fit replace the
first bytes of `dst`. -/
def copyBytes (dst src : List UInt8) : List UInt8 :=
  src.take dst.length ++ dst.drop src.length

/-- The bytes of the string `yes\n`. -/
def yesLine : List UInt8 := [121, 101, 115, 10]

/-- The bytes of the string `no\n`. -/
def noLine : List UInt8 := [110, 111, 10]

/-- The bytes of the string `\n`. -/
def emptyLine : List UInt8 := [10]

/-- What one `terraformReader.Read` returns and leaves behind: `n`, `err`
(`EOF` for `io.EOF`), the buffer, the reader, and the `SetStatus` calls. -/
structure ReadResult where
  n : Nat
  err : Option String
  p : List UInt8
  reader : terraformReader
  calls : List AppCall
  deriving DecidableEq, Repr

/-- The method `terraformReader.Read`, or `none` while it is still waiting for
a decision. The reader's `status` field is written by the status listener;
`observed k` is what the loop reads from it after its k-th sleep. -/
def terraformReader.Read (r : terraformReader) (observed : Nat → TaskStatus) (p : List UInt8)
    (fuel : Nat) : Option ReadResult :=
  if r.EOF then
    some { n := 0, err := some "EOF", p := p, reader := r, calls := [] }
  else if r.status ≠ .TaskWaitingConfirmation then
    some { n := 0, err := none, p := p, reader := r, calls := [] }
  else
    match awaitDecision observed fuel 0 with
    | none => none
    | some .TaskConfirmed =>
      some { n := 4, err := none, p := copyBytes p yesLine,
             reader := { EOF := true, status := .TaskConfirmed },
             calls := [.SetStatus .TaskRunningStatus] }
    | some .TaskRejected =>
      some { n := 3, err := none, p := copyBytes p noLine,
             reader := { EOF := true, status := .TaskRejected },
             calls := [.SetStatus .TaskRunningStatus] }
    | some status =>
      some { n := 1, err := none, p := copyBytes p emptyLine,
             reader := { EOF := true, status := status }, calls := [] }

/-! ## Sample inputs for `TerraformApp` -/

/-- A world in which the plan and the apply succeed, nothing is logged about
no changes, and the status is waiting_confirmation for two reads and then the
given one. -/
def sampleWorld (decision : TaskStatus) : AppWorld :=
  { planErr := none
    noChangesLogged := false
    applyErr := none
    observed := fun k => if k < 2 then .TaskWaitingConfirmation else decision }

/-- Running args with the single stage `default: [-d]`, a task that asks for
nothing and a template that approves nothing by itself. -/
def sampleRunningArgs : LocalAppRunningArgs :=
  { CliArgs := ⟨[("default", ["-d"])]⟩
    EnvironmentVars := []
    TaskParams := ⟨false, false, false, false, false⟩
    TemplateParams := ⟨false, false⟩ }

/-! ## Sample inputs for the argument builders -/

/-- A JSON scanner that knows a few texts: `null`, the array `["-x","foo"]`,
the stage object `{"init":["-upgrade"],"plan":["-p"]}`, the array `["-t"]`,
the array `["-k"]`, and the environment `{"K":3,"B":true,"S":"v"}`. -/
def sampleParse (text : String) : Except String JsonValue :=
  if text = "null" then .ok .null
  else if text = "[\"-x\",\"foo\"]" then .ok (.array [.string "-x", .string "foo"])
  else if text = "\x7b\"init\":[\"-upgrade\"],\"plan\":[\"-p\"]\x7d" then
    .ok (.object [("init", .array [.string "-upgrade"]), ("plan", .array [.string "-p"])])
  else if text = "[\"-t\"]" then .ok (.array [.string "-t"])
  else if text = "[\"-k\"]" then .ok (.array [.string "-k"])
  else if text = "\x7b\"K\":3,\"B\":true,\"S\":\"v\"\x7d" then
    .ok (.object [("K", .number "3"), ("B", .bool true), ("S", .string "v")])
  else .error "invalid character"

/-- Collaborators of the argument builders: `sampleParse`, `range` loops that
visit a map in the reverse of its stored order, empty task details, and task
params that request destroy or not. -/
def sampleJobEnv (destroy : Bool) : JobEnv :=
  { parse := sampleParse
    order := ⟨List.reverse, List.reverse⟩
    semaphoreVars := .object []
    ExtractParams := .ok ⟨false, destroy, false, false, false⟩
    formatComposite := fun _ => "composite" }

/-- A Terraform job: the template passes `-upgrade` to `init` and `-p` to
`plan`, the task passes `-x foo` to the default stage, the environment has
the variables `K: 3`, `B: true`, `S: "v"`, a secret `TOKEN` of type var and a
secret `HOME_DIR` of type env. -/
def sampleTerraformJob : LocalJob :=
  { Task := ⟨1, 7, none, none, some "[\"-x\",\"foo\"]"⟩
    Template := ⟨"main.tf", some "\x7b\"init\":[\"-upgrade\"],\"plan\":[\"-p\"]\x7d"⟩
    Environment :=
      ⟨"\x7b\"K\":3,\"B\":true,\"S\":\"v\"\x7d",
        [⟨"TOKEN", "s3cr3t", "var"⟩, ⟨"HOME_DIR", "/h", "env"⟩]⟩ }

/-- A shell job: the script `run.sh`, the template argument `-t`, the task
argument `-k`, and the environment of `sampleTerraformJob`. -/
def sampleShellJob : LocalJob :=
  { Task := ⟨1, 7, none, none, some "[\"-k\"]"⟩
    Template := ⟨"run.sh", some "[\"-t\"]"⟩
    Environment :=
      ⟨"\x7b\"K\":3,\"B\":true,\"S\":\"v\"\x7d",
        [⟨"TOKEN", "s3cr3t", "var"⟩, ⟨"HOME_DIR", "/h", "env"⟩]⟩ }

/-! ## Integration dispatcher: environment merge -/

/-- Modelled from the spec: the environment merge of `GetTaskDefinition`
(api/integration.go, outside the given sources; its loop is repeated in
api/integration_test.go, lines 409-413): task definition entries win, and an
extracted entry fills only a key that is not already present. The extracted
entries come in the order the `range` loop visits them. -/
def mergeExtractedEnv (env : GoMap JsonValue) (extracted : List (String × String)) :
    GoMap JsonValue :=
  extracted.foldl
    (fun m kv =>
      match m.get? kv.1 with
      | some _ => m
      | none => m.set kv.1 (.string kv.2))
    env

/-! ## Task state store and queue loop -/

/-- Modelled from the spec: a `TaskRunner` as the task state store (outside
the given sources) sees it: the id and the project of its task, and its
alias. -/
structure TaskRunner where
  ID : Int
  ProjectID : Int
  Alias : String
  deriving DecidableEq, Repr

/-- Modelled from the spec: the task state store (`MemoryTaskStateStore`,
outside the given sources): the FIFO queue of waiting runners, the set of
running runners, the active runners of each project, the mapping from alias
to runner, and the number of `TryClaim` calls, which the spy store of
TaskPool_test.go counts. -/
structure TaskStateStore where
  queue : List TaskRunner
  running : List TaskRunner
  active : List (Int × TaskRunner)
  aliases : GoMap TaskRunner
  tryClaimCalls : Nat
  deriving DecidableEq, Repr

/-- Modelled from the spec: `NewMemoryTaskStateStore`, the empty store. -/
def TaskStateStore.new : TaskStateStore :=
  { queue := [], running := [], active := [], aliases := GoMap.empty, tryClaimCalls := 0 }

/-- Modelled from the spec: `Enqueue(r)` appends to the queue tail. -/
def TaskStateStore.Enqueue (s : TaskStateStore) (r : TaskRunner) : TaskStateStore :=
  { s with queue := s.queue ++ [r] }

/-- Modelled from the spec: `QueueLen()`. -/
def TaskStateStore.QueueLen (s : TaskStateStore) : Nat := s.queue.length

/-- Modelled from the spec: `SetRunning(r)` adds the runner to the running
set. -/
def TaskStateStore.SetRunning (s : TaskStateStore) (r : TaskRunner) : TaskStateStore :=
  { s with running := if r ∈ s.running then s.running else s.running ++ [r] }

/-- Modelled from the spec: `ClearRunning(r)` removes the runner from the
running set. -/
def TaskStateStore.ClearRunning (s : TaskStateStore) (r : TaskRunner) : TaskStateStore :=
  { s with running := s.running.filter (fun x => !decide (x = r)) }

/-- Modelled from the spec: `RunningCount()`. -/
def TaskStateStore.RunningCount (s : TaskStateStore) : Nat := s.running.length

/-- Modelled from the spec: `AddActive(project, r)` adds the runner to the
active set of the project. -/
def TaskStateStore.AddActive (s : TaskStateStore) (project : Int) (r : TaskRunner) :
    TaskStateStore :=
  { s with active := if (project, r) ∈ s.active then s.active else s.active ++ [(project, r)] }

/-- Modelled from the spec: `RemoveActive(project, r)` removes the runner from
the active set of the project. -/
def TaskStateStore.RemoveActive (s : TaskStateStore) (project : Int) (r : TaskRunner) :
    TaskStateStore :=
  { s with active := s.active.filter (fun x => !decide (x = (project, r))) }

/-- Modelled from the spec: `ActiveCount(project)`. -/
def TaskStateStore.ActiveCount (s : TaskStateStore) (project : Int) : Nat :=
  (s.active.filter (fun x => decide (x.1 = project))).length

/-- Modelled from the spec: `SetAlias(a, r)`. -/
def TaskStateStore.SetAlias (s : TaskStateStore) (a : String) (r : TaskRunner) : TaskStateStore :=
  { s with aliases := s.aliases.set a r }

/-- Modelled from the spec: `ClearAlias(a)` removes the mapping of the
alias. -/
def TaskStateStore.ClearAlias (s : TaskStateStore) (a : String) : TaskStateStore :=
  { s with aliases := ⟨s.aliases.entries.filter (fun e => !decide (e.1 = a))⟩ }

/-- Modelled from the spec: `GetByAlias(a)`. -/
def TaskStateStore.GetByAlias (s : TaskStateStore) (a : String) : Option TaskRunner :=
  s.aliases.get? a

/-- Modelled from the spec: `TryClaim(id)` as the spy store of the test
implements it: count the call and refuse. -/
def TaskStateStore.TryClaim (s : TaskStateStore) (_id : Int) : TaskStateStore × Bool :=
  ({ s with tryClaimCalls := s.tryClaimCalls + 1 }, false)

/-- Modelled from the spec: the `Requeued` case of the queue loop
`TaskPool.handleQueue` (services/tasks/TaskPool.go, outside the given
sources): remove the runner from the running, active and alias sets and push
it back to the queue tail, without an immediate retry, that is without a
`TryClaim` in the same pass. -/
def TaskPool.handleRequeued (s : TaskStateStore) (r : TaskRunner) : TaskStateStore :=
  let s := s.ClearRunning r
  let s := s.RemoveActive r.ProjectID r
  let s := s.ClearAlias r.Alias
  { s with queue := s.queue.filter (fun x => !decide (x = r)) ++ [r] }

/-- The runner of TaskPool_test.go: task 42 of project 1 under the alias
`alias-42`. -/
def sampleRunner : TaskRunner := { ID := 42, ProjectID := 1, Alias := "alias-42" }

/-- The store of TaskPool_test.go before the event: the runner is running,
active, aliased and enqueued. -/
def sampleStore : TaskStateStore :=
  (((TaskStateStore.new.SetRunning sampleRunner).AddActive 1 sampleRunner).SetAlias "alias-42"
    sampleRunner).Enqueue sampleRunner

/-! ## `ValueMap` (services/export/Exporter.go, lines 208-307) -/

/-- The struct `EntityObject`: a loaded value and the scope it was loaded
under. -/
structure EntityObject (T : Type) where
  value : T
  scope : String
  deriving DecidableEq, Repr

/-- The struct `ValueMap`. `values` is `none` for the nil slice; the map
`keyScopeMap` is created together with `values` and dropped together with
it, and holds no entry while it is nil. -/
structure ValueMap (T : Type) where
  values : Option (List (EntityObject T))
  keyScopeMap : GoMap Bool
  errs : List String
  deriving DecidableEq, Repr

/-- The zero value of `ValueMap`, also what `clear` leaves. -/
def ValueMap.zero {T : Type} : ValueMap T :=
  { values := none, keyScopeMap := GoMap.empty, errs := [] }

/-- The loop of lines 270-279 of `appendValuesAndCheck`: the error it returns
and the map it leaves. `GetDbKey` is the method of the entity type. -/
def ValueMap.appendLoop {T : Type} (GetDbKey : T → String) (scope : String)
    (checkDuplicates : Bool) : List T → ValueMap T → Option String × ValueMap T
  | [], t => (none, t)
  | v :: rest, t =>
    if checkDuplicates && (t.keyScopeMap.get? (scope ++ GetDbKey v)).isSome then
      (some ("duplicate key " ++ GetDbKey v), t)
    else
      let t1 : ValueMap T :=
        if checkDuplicates then
          { t with keyScopeMap := t.keyScopeMap.set (scope ++ GetDbKey v) true }
        else t
      ValueMap.appendLoop GetDbKey scope checkDuplicates rest
        { t1 with values := some (t1.values.getD [] ++ [{ value := v, scope := scope }]) }

/-- The method `ValueMap.appendValuesAndCheck`. -/
def ValueMap.appendValuesAndCheck {T : Type} (GetDbKey : T → String) (t : ValueMap T)
    (values : List T) (scope : String) (checkDuplicates : Bool) : Option String × ValueMap T :=
  let t0 : ValueMap T :=
    match t.values with
    | none => { t with keyScopeMap := GoMap.empty, values := some [] }
    | some _ => t
  ValueMap.appendLoop GetDbKey scope checkDuplicates values t0

/-- The method `ValueMap.appendValues`. -/
def ValueMap.appendValues {T : Type} (GetDbKey : T → String) (t : ValueMap T)
    (values : List T) (scope : String) : Option String × ValueMap T :=
  ValueMap.appendValuesAndCheck GetDbKey t values scope true

/-! ## `getEnvironmentVars` (db_lib/LocalApp.go, lines 26-43) -/

/-- Modelled from the spec: `util.ConfigType`, declared outside the given
sources, with the two options `getEnvironmentVars` reads: the allow-list
`forwarded_env_vars` and the static map `env_vars`. -/
structure ConfigType where
  ForwardedEnvVars : List String
  EnvVars : GoMap String
  deriving DecidableEq, Repr

/-- The function `getEnvironmentVars`. `Getenv` is `os.Getenv` (the empty
string for an unset variable), `Config` is `util.Config`, and `order` is the
order in which the `range` loop visits the entries of `env_vars`. -/
def getEnvironmentVars (Getenv : String → String) (Config : ConfigType)
    (order : List (String × String) → List (String × String)) : List String :=
  let res : List String := ["PATH=" ++ Getenv "PATH"]
  let res : List String :=
    Config.ForwardedEnvVars.foldl
      (fun res e =>
        let v := Getenv e
        if v ≠ "" then res ++ [e ++ "=" ++ v] else res)
      res
  (order Config.EnvVars.entries).foldl (fun res kv => res ++ [kv.1 ++ "=" ++ kv.2]) res

/-- The process environment of LocalApp_test.go: `SEMAPHORE_TEST`,
`SEMAPHORE_TEST2` and `PASSWORD` are set, `PATH` is not. -/
def sampleGetenv (name : String) : String :=
  if name = "SEMAPHORE_TEST" then "test123"
  else if name = "SEMAPHORE_TEST2" then "test222"
  else if name = "PASSWORD" then "test222"
  else ""

/-- The configuration of LocalApp_test.go. -/
def sampleConfig : ConfigType :=
  { ForwardedEnvVars := ["SEMAPHORE_TEST"]
    EnvVars := ⟨[("ANSIBLE_FORCE_COLOR", "False")]⟩ }

/-! ## The hub over a run of events -/

/-- The loop of `hub.run` over a sequence of events, interleaved with the
receives of the draining goroutines; `.error` when a step panics (a `close`
of a closed channel or a send on one), with the state it happened in. -/
def hub.handleAll (h : hub) : List WorldEvent → Except hub hub
  | [] => .ok h
  | .hub e :: rest =>
    match h.handle e with
    | .ok h1 => hub.handleAll h1 rest
    | .error h1 => .error h1
  | .receive c :: rest => hub.handleAll (h.receive c) rest

/-- The connections that the events register, in the order of the events. -/
def registered : List WorldEvent → List Nat
  | [] => []
  | .hub (.register c) :: rest => c :: registered rest
  | _ :: rest => registered rest

/-- A hub without connections, in which every connection is open, has a
buffer of one payload and belongs to user 7. -/
def emptyHub : hub :=
  { connections := [], conns := fun _ => sampleConn 7 [] 1, log := [] }

/-- Two connections register, two broadcasts fill and overflow their buffers
so that both are evicted, and then both unregister. -/
def sampleEvents : List WorldEvent :=
  [.hub (.register 0), .hub (.register 1), .hub (.broadcast ⟨0, [1]⟩), .hub (.broadcast ⟨7, [2]⟩),
    .hub (.unregister 0), .hub (.unregister 1), .hub (.unregister 5)]

/-! ## `ShellQuote` (util/shell.go) -/

/-- The single quote. -/
def singleQuote : Char := Char.ofNat 39

/-- The double quote. -/
def doubleQuote : Char := Char.ofNat 34

/-- The characters a line is split at: space, tab and newline. -/
def shellBlank (c : Char) : Bool :=
  decide (c = ' ') || decide (c = Char.ofNat 9) || decide (c = Char.ofNat 10)

/-- The class that `shellQuotePattern` negates: `\w`, which in Go's regexp
syntax is the ASCII class `[0-9A-Za-z_]`, and the characters `@`, `%`, `+`,
`=`, `:`, `,`, `.`, `/` and `-`. -/
def shellSafeChar (c : Char) : Bool :=
  c.isAlphanum || decide (c = '_') || decide (c = '@') || decide (c = '%') || decide (c = '+') ||
    decide (c = '=') || decide (c = ':') || decide (c = ',') || decide (c = '.') ||
    decide (c = '/') || decide (c = '-')

/-- The call `shellQuotePattern.MatchString(s)`: some character of `s` is
outside the class. -/
def shellQuotePattern.MatchString (s : String) : Bool :=
  s.data.any (fun c => !shellSafeChar c)

/-- The call `strings.ReplaceAll(s, "'", "'\"'\"'")` on the characters of
`s`. -/
def replaceQuotes : List Char → List Char
  | [] => []
  | c :: rest =>
    if c = singleQuote then
      [singleQuote, doubleQuote, singleQuote, doubleQuote, singleQuote] ++ replaceQuotes rest
    else c :: replaceQuotes rest

/-- The function `ShellQuote`. -/
def ShellQuote (s : String) : String :=
  if s.length = 0 then
    "''"
  else if shellQuotePattern.MatchString s then
    String.mk ([singleQuote] ++ replaceQuotes s.data ++ [singleQuote])
  else
    s

/-- The characters that are special to a POSIX shell outside quotes, blanks
and quotes apart: the operators, the characters that start an expansion, a
pattern or a comment, the backslash, and the characters of reserved words. -/
def shellSpecialChars : List Char :=
  ['|', '&', ';', '<', '>', '(', ')', '$', Char.ofNat 96, Char.ofNat 92, '*', '?', '[', '#',
    '~', '!', Char.ofNat 123, Char.ofNat 125]

/-- Where the reader of the shell is: outside quotes, inside single quotes or
inside double quotes. -/
inductive ShellMode where
  | plain
  | single
  | double
  deriving DecidableEq, Repr

/-- How a POSIX shell reads a line as a list of words (quoting and token
recognition), for lines without operators and expansions: outside quotes a
blank ends the word, a quote opens a quoted part of the word and every other
character that is not special stands for itself; inside single quotes every
character up to the closing quote stands for itself; inside double quotes
every character up to the closing quote stands for itself, the dollar sign,
the backquote and the backslash apart. `cur` is the word being read, if any;
`none` is returned for an open quote at the end of the line and for a line
that needs more of the shell than this. -/
def shellWords : ShellMode → Option (List Char) → List Char → Option (List (List Char))
  | .plain, cur, [] => some cur.toList
  | .plain, cur, c :: rest =>
    if c = singleQuote then shellWords .single (some (cur.getD [])) rest
    else if c = doubleQuote then shellWords .double (some (cur.getD [])) rest
    else if shellBlank c then
      match shellWords .plain none rest with
      | none => none
      | some ws => some (cur.toList ++ ws)
    else if c ∈ shellSpecialChars then none
    else shellWords .plain (some (cur.getD [] ++ [c])) rest
  | .single, _, [] => none
  | .single, cur, c :: rest =>
    if c = singleQuote then shellWords .plain cur rest
    else shellWords .single (some (cur.getD [] ++ [c])) rest
  | .double, _, [] => none
  | .double, cur, c :: rest =>
    if c = doubleQuote then shellWords .plain cur rest
    else if c = '$' ∨ c = Char.ofNat 96 ∨ c = Char.ofNat 92 then none
    else shellWords .double (some (cur.getD [] ++ [c])) rest

/-! ## Running a job (services/tasks/local_job_types.go, local_job_ssh.go,
local_job_vault.go, local_job_repository.go, local_job_run.go) -/

/-- Modelled from the spec: `ssh.AccessKeyInstallation`, declared outside the
given sources: the SSH agent the installation started, by its id, and the
password it carries. -/
structure AccessKeyInstallation where
  SSHAgent : Option Nat
  Password : String
  deriving DecidableEq, Repr

/-- The type `db.AccessKeyRole` with its four constants (db/AccessKey.go,
lines 126-133). -/
inductive AccessKeyRole where
  | AccessKeyRoleAnsibleUser
  | AccessKeyRoleAnsibleBecomeUser
  | AccessKeyRoleAnsiblePasswordVault
  | AccessKeyRoleGit
  deriving DecidableEq, Repr

/-- Modelled from the spec: an element of `Inventory.Vaults`, declared
outside the given sources: the name of the vault and its key. -/
structure InventoryVault where
  Name : String
  VaultKeyID : Option Int
  deriving DecidableEq, Repr

/-- Modelled from the spec: `db.Inventory`, declared outside the given
sources; the fields the key installers read. -/
structure Inventory where
  SSHKeyID : Option Int
  BecomeKeyID : Option Int
  Vaults : List InventoryVault
  deriving DecidableEq, Repr

/-- The fields of the struct `LocalJob` that `Run`, `Kill` and the key
installers read or write (the fields the argument builders read are in
`LocalJob`): the inventory, `Task.CommitHash`, `killed`, the process by its
pid, and the three installation fields. The map `vaultFileInstallations` is
nil, and holds nothing, until `installVaultKeyFiles` makes it. -/
structure LocalJobState where
  Inventory : Inventory
  CommitHash : Option String
  killed : Bool
  Process : Option Nat
  sshKeyInstallation : AccessKeyInstallation
  becomeKeyInstallation : AccessKeyInstallation
  vaultFileInstallations : GoMap AccessKeyInstallation
  deriving DecidableEq, Repr

/-- A call on the interface `task_logger.Logger`; a listener is given by its
id. -/
inductive LoggerCall where
  | Log (msg : String)
  | SetStatus (status : TaskStatus)
  | AddLogListener (l : Nat)
  | AddStatusListener (l : Nat)
  deriving DecidableEq, Repr

/-- What a job does to the world around it, in order: a call on its logger,
or a call on the key installer, an SSH agent, the file system, the git
client, the app or the process. -/
inductive JobEvent where
  | logger (call : LoggerCall)
  | GetKey (id : Int)
  | Install (id : Int) (role : AccessKeyRole)
  | Close (agent : Nat)
  | WriteFile (file : String)
  | Remove (file : String)
  | CloneOrPull
  | Checkout (hash : String)
  | AppInstall
  | AppRun
  | Kill (pid : Nat)
  deriving DecidableEq, Repr

/-- Where a key is installed from: the SSH key of the inventory, its become
key, or the key of the vault at the given position of `Inventory.Vaults`. -/
inductive KeySite where
  | ssh
  | become
  | vault (i : Nat)
  deriving DecidableEq, Repr

/-- What the collaborators of a job answer: the error of `GetKey` and the
result of `Install` at each site, `Task.GetTmpDir()`, `path.Join`, the error
of `os.WriteFile` for each file, the errors of `CloneOrPull`, `Checkout`,
`App.Install` and `App.Run`, and the order in which a `range` loop visits the
vault installations. The key installer, the git client and the app are handed
the logger of the job, so each of their calls comes with the logger calls it
makes (the install of an app, for one, logs and sets statuses). -/
structure JobWorld where
  GetKey : KeySite → Int → Option String
  Install : KeySite → Int → List LoggerCall × Except String AccessKeyInstallation
  tmpDir : String
  Join : String → String → String
  WriteFile : String → Option String
  CloneOrPull : List LoggerCall × Option String
  Checkout : String → List LoggerCall × Option String
  AppInstall : List LoggerCall × Option String
  AppRun : List LoggerCall × Option String
  order : List (String × AccessKeyInstallation) → List (String × AccessKeyInstallation)

/-- How a method of the job ended: the error it returned, the job it left,
and what it did. -/
structure JobResult where
  err : Option String
  job : LocalJobState
  events : List JobEvent
  deriving DecidableEq, Repr

/-- The method `LocalJob.Kill`; `killErr` is the error of `Process.Kill()`. -/
def LocalJob.Kill (t : LocalJobState) (killErr : Option String) : JobResult :=
  let t1 : LocalJobState := { t with killed := true }
  match t1.Process with
  | none => { err := none, job := t1, events := [] }
  | some pid =>
    match killErr with
    | some e => { err := none, job := t1, events := [.Kill pid, .logger (.Log e)] }
    | none => { err := none, job := t1, events := [.Kill pid] }

/-- Lines 11-19 and 24-32 of `installSSHKeys`: get the key and install it.
`old` is what the installation field holds; it is kept when `GetKey` fails,
and the installation that `Install` returns next to an error is the zero
value. -/
def LocalJob.installKey (w : JobWorld) (site : KeySite) (role : AccessKeyRole) (id : Int)
    (old : AccessKeyInstallation) : Option String × AccessKeyInstallation × List JobEvent :=
  match w.GetKey site id with
  | some err => (some err, old, [.GetKey id])
  | none =>
    match (w.Install site id).2 with
    | .error err =>
      (some err, ⟨none, ""⟩,
        [.GetKey id, .Install id role] ++ (w.Install site id).1.map .logger)
    | .ok installation =>
      (none, installation, [.GetKey id, .Install id role] ++ (w.Install site id).1.map .logger)

/-- The method `LocalJob.installSSHKeys`. -/
def LocalJob.installSSHKeys (t : LocalJobState) (w : JobWorld) : JobResult :=
  let first : JobResult :=
    match t.Inventory.SSHKeyID with
    | none => { err := none, job := t, events := [] }
    | some id =>
      let res := LocalJob.installKey w .ssh .AccessKeyRoleGit id t.sshKeyInstallation
      { err := res.1, job := { t with sshKeyInstallation := res.2.1 }, events := res.2.2 }
  match first.err with
  | some err => { err := some err, job := first.job, events := first.events }
  | none =>
    match t.Inventory.BecomeKeyID with
    | none => first
    | some id =>
      let res := LocalJob.installKey w .become .AccessKeyRoleAnsibleBecomeUser id
        first.job.becomeKeyInstallation
      { err := res.1
        job := { first.job with becomeKeyInstallation := res.2.1 }
        events := first.events ++ res.2.2 }

/-- The events of `SSHAgent.Close()` when the installation has an agent. -/
def AccessKeyInstallation.closeAgent (installation : AccessKeyInstallation) : List JobEvent :=
  match installation.SSHAgent with
  | some agent => [.Close agent]
  | none => []

/-- The method `LocalJob.clearSSHKeys`. -/
def LocalJob.clearSSHKeys (t : LocalJobState) (w : JobWorld) : List JobEvent :=
  t.sshKeyInstallation.closeAgent ++ t.becomeKeyInstallation.closeAgent ++
    (w.order t.vaultFileInstallations.entries).flatMap (fun e => e.2.closeAgent)

/-- The name of the password file of a vault (lines 36-37 and 53-54 of
local_job_vault.go). -/
def LocalJob.vaultPasswordFile (w : JobWorld) (name : String) : String :=
  w.Join w.tmpDir ("vault_" ++ name ++ "_password")

/-- The loop of lines 17-44 of `installVaultKeyFiles`, from the vault at
position `i` on. -/
def LocalJob.installVaultLoop (w : JobWorld) :
    Nat → List InventoryVault → LocalJobState → JobResult
  | _, [], t => { err := none, job := t, events := [] }
  | i, vault :: rest, t =>
    match vault.VaultKeyID with
    | none => LocalJob.installVaultLoop w (i + 1) rest t
    | some id =>
      match w.GetKey (.vault i) id with
      | some err => { err := some err, job := t, events := [.GetKey id] }
      | none =>
        match (w.Install (.vault i) id).2 with
        | .error err =>
          { err := some err, job := t
            events := [.GetKey id, .Install id .AccessKeyRoleAnsiblePasswordVault] ++
              (w.Install (.vault i) id).1.map .logger }
        | .ok installation =>
          let t1 : LocalJobState :=
            { t with vaultFileInstallations := t.vaultFileInstallations.set vault.Name installation }
          let written : Option String × List JobEvent :=
            if installation.Password ≠ "" then
              (w.WriteFile (LocalJob.vaultPasswordFile w vault.Name),
                [.WriteFile (LocalJob.vaultPasswordFile w vault.Name)])
            else (none, [])
          match written.1 with
          | some err =>
            { err := some err, job := t1
              events := [.GetKey id, .Install id .AccessKeyRoleAnsiblePasswordVault] ++
                (w.Install (.vault i) id).1.map .logger ++ written.2 }
          | none =>
            let res := LocalJob.installVaultLoop w (i + 1) rest t1
            { res with
              events := [.GetKey id, .Install id .AccessKeyRoleAnsiblePasswordVault] ++
                (w.Install (.vault i) id).1.map .logger ++ written.2 ++ res.events }

/-- The method `LocalJob.installVaultKeyFiles`. -/
def LocalJob.installVaultKeyFiles (t : LocalJobState) (w : JobWorld) : JobResult :=
  LocalJob.installVaultLoop w 0 t.Inventory.Vaults { t with vaultFileInstallations := GoMap.empty }

/-- The method `LocalJob.clearVaultKeyFiles`. -/
def LocalJob.clearVaultKeyFiles (t : LocalJobState) (w : JobWorld) : List JobEvent :=
  (w.order t.vaultFileInstallations.entries).flatMap
    (fun e => if e.2.Password ≠ "" then [.Remove (LocalJob.vaultPasswordFile w e.1)] else [])

/-- The method `LocalJob.updateRepository`: its error and its events, those
of the git client included. -/
def LocalJob.updateRepository (w : JobWorld) : Option String × List JobEvent :=
  (w.CloneOrPull.2, [.CloneOrPull] ++ w.CloneOrPull.1.map .logger)

/-- The method `LocalJob.checkoutRepository`. -/
def LocalJob.checkoutRepository (t : LocalJobState) (w : JobWorld) :
    Option String × List JobEvent :=
  match t.CommitHash with
  | some hash => ((w.Checkout hash).2, [.Checkout hash] ++ (w.Checkout hash).1.map .logger)
  | none => (none, [])

/-- The method `LocalJob.prepareRun`: it creates the app of the template type
with the logger of the job and installs it; the install logs and sets
statuses through that logger (`TerraformApp.init`, the galaxy install of
`AnsibleApp`). -/
def LocalJob.prepareRun (w : JobWorld) : Option String × List JobEvent :=
  (w.AppInstall.2, [.AppInstall] ++ w.AppInstall.1.map .logger)

/-- Lines 29-65 of `LocalJob.Run`, after the two installations: update and
check out the repository, prepare and run the app, report success. -/
def LocalJob.runPhases (t : LocalJobState) (w : JobWorld) : Option String × List JobEvent :=
  match (LocalJob.updateRepository w).1 with
  | some err =>
    (some err, (LocalJob.updateRepository w).2 ++
      [.logger (.Log ("Failed to update repository: " ++ err))])
  | none =>
    match (LocalJob.checkoutRepository t w).1 with
    | some err =>
      (some err, (LocalJob.updateRepository w).2 ++ (LocalJob.checkoutRepository t w).2 ++
        [.logger (.Log ("Failed to checkout repository: " ++ err))])
    | none =>
      match (LocalJob.prepareRun w).1 with
      | some err =>
        (some err, (LocalJob.updateRepository w).2 ++ (LocalJob.checkoutRepository t w).2 ++
          (LocalJob.prepareRun w).2 ++ [.logger (.Log ("Failed to prepare run: " ++ err))])
      | none =>
        match w.AppRun.2 with
        | some err =>
          (some err, (LocalJob.updateRepository w).2 ++ (LocalJob.checkoutRepository t w).2 ++
            (LocalJob.prepareRun w).2 ++ [.AppRun] ++ w.AppRun.1.map .logger ++
            [.logger (.Log ("Failed to run app: " ++ err))])
        | none =>
          (none, (LocalJob.updateRepository w).2 ++ (LocalJob.checkoutRepository t w).2 ++
            (LocalJob.prepareRun w).2 ++ [.AppRun] ++ w.AppRun.1.map .logger ++
            [.logger (.SetStatus .TaskSuccessStatus),
              .logger (.Log "Job completed successfully")])

/-- The method `LocalJob.Run`. A deferred call runs when `Run` returns, the
last deferred first; `defer` is reached only after the installation before it
returned without an error. -/
def LocalJob.Run (t : LocalJobState) (w : JobWorld) : JobResult :=
  let start : List JobEvent :=
    [.logger (.SetStatus .TaskStartingStatus), .logger (.Log "Starting job...")]
  let ssh := LocalJob.installSSHKeys t w
  match ssh.err with
  | some err =>
    { err := some err, job := ssh.job
      events := start ++ ssh.events ++ [.logger (.Log ("Failed to install SSH keys: " ++ err))] }
  | none =>
    let vault := LocalJob.installVaultKeyFiles ssh.job w
    match vault.err with
    | some err =>
      { err := some err, job := vault.job
        events := start ++ ssh.events ++ vault.events ++
          [.logger (.Log ("Failed to install Vault keys: " ++ err))] ++
          LocalJob.clearSSHKeys vault.job w }
    | none =>
      { err := (LocalJob.runPhases vault.job w).1, job := vault.job
        events := start ++ ssh.events ++ vault.events ++ (LocalJob.runPhases vault.job w).2 ++
          LocalJob.clearVaultKeyFiles vault.job w ++ LocalJob.clearSSHKeys vault.job w }

/-! ## The task runner (services/tasks/task_runner_types.go,
task_runner_logging.go, task_runner_details.go, task_runner_lifecycle.go) -/

/-- The fields of the struct `TaskRunner` that `run` and the logger methods
read or write: `Task.Status`, the ids and the commit hash of the task, the
inventory, the users to notify, the status and log listeners by their ids,
and the job. -/
structure TaskRunnerState where
  Status : TaskStatus
  InventoryID : Option Int
  RepositoryID : Option Int
  EnvironmentID : Option Int
  CommitHash : Option String
  Inventory : Inventory
  users : List Int
  statusListeners : List Nat
  logListeners : List Nat
  job : Option LocalJobState
  deriving DecidableEq, Repr

/-- What a runner does to the world around it, in order: `CreateTaskOutput`
on the store, a call of a log listener, the write of `Task.Status`, a
`sockets.Message` to a user, a call of a status listener, an event of its
job that is not a logger call, and `CreateEvent` on the store with the status
its description names. -/
inductive RunnerEvent where
  | CreateTaskOutput (msg : String)
  | logListener (l : Nat) (msg : String)
  | StatusSet (status : TaskStatus)
  | Message (user : Int) (status : TaskStatus)
  | statusListener (l : Nat) (status : TaskStatus)
  | job (e : JobEvent)
  | CreateEvent (status : TaskStatus)
  deriving DecidableEq, Repr

/-- What the collaborators of a runner answer: the errors of the store calls
of `populateDetails` and `populateTaskEnvironment` with the inventory and the
users they load, whether `TaskRunner.kill` is called by another goroutine
once the job exists and before its `Run` starts, and the collaborators of the
job. -/
structure RunnerWorld where
  GetTemplate : Option String
  GetInventory : Except String Inventory
  GetRepository : Option String
  GetEnvironment : Option String
  GetTemplateUsers : Except String (List Int)
  GetTaskAlertChat : Option String
  killRequested : Bool
  job : JobWorld

/-- The method `TaskRunner.Log`: the store write and the calls of the log
listeners. -/
def TaskRunner.Log (t : TaskRunnerState) (msg : String) : List RunnerEvent :=
  .CreateTaskOutput msg :: t.logListeners.map (fun l => .logListener l msg)

/-- The method `TaskRunner.saveStatus`. -/
def TaskRunner.saveStatus (t : TaskRunnerState) : List RunnerEvent :=
  t.users.map (fun user => .Message user t.Status) ++
    t.statusListeners.map (fun l => .statusListener l t.Status)

/-- The method `TaskRunner.SetStatus`. -/
def TaskRunner.SetStatus (t : TaskRunnerState) (status : TaskStatus) :
    TaskRunnerState × List RunnerEvent :=
  ({ t with Status := status },
    .StatusSet status :: TaskRunner.saveStatus { t with Status := status })

/-- The runner as the `Logger` of its job and app: what a logger call does. -/
def TaskRunner.logger (t : TaskRunnerState) : LoggerCall → TaskRunnerState × List RunnerEvent
  | .Log msg => (t, TaskRunner.Log t msg)
  | .SetStatus status => TaskRunner.SetStatus t status
  | .AddLogListener l => ({ t with logListeners := t.logListeners ++ [l] }, [])
  | .AddStatusListener l => ({ t with statusListeners := t.statusListeners ++ [l] }, [])

/-- The logger call of a job event, if it is one. -/
def JobEvent.loggerCall? : JobEvent → Option LoggerCall
  | .logger call => some call
  | _ => none

/-- The events of a job as the runner sees them: a logger call runs the
method of the runner, any other event is passed on. -/
def TaskRunner.forward (t : TaskRunnerState) : List JobEvent → TaskRunnerState × List RunnerEvent
  | [] => (t, [])
  | e :: rest =>
    match e.loggerCall? with
    | some call =>
      ((TaskRunner.forward (TaskRunner.logger t call).1 rest).1,
        (TaskRunner.logger t call).2 ++ (TaskRunner.forward (TaskRunner.logger t call).1 rest).2)
    | none => ((TaskRunner.forward t rest).1, .job e :: (TaskRunner.forward t rest).2)

/-- The method `TaskRunner.populateDetails`: its error and the runner it
leaves. -/
def TaskRunner.populateDetails (t : TaskRunnerState) (w : RunnerWorld) :
    Option String × TaskRunnerState :=
  match w.GetTemplate with
  | some err => (some err, t)
  | none =>
    let inv : Option String × TaskRunnerState :=
      match t.InventoryID with
      | none => (none, t)
      | some _ =>
        match w.GetInventory with
        | .error err => (some err, { t with Inventory := ⟨none, none, []⟩ })
        | .ok inventory => (none, { t with Inventory := inventory })
    match inv.1 with
    | some err => (some err, inv.2)
    | none =>
      match (if t.RepositoryID.isSome then w.GetRepository else none) with
      | some err => (some err, inv.2)
      | none =>
        match (if t.EnvironmentID.isSome then w.GetEnvironment else none) with
        | some err => (some err, inv.2)
        | none => (none, inv.2)

/-- The method `TaskRunner.populateTaskEnvironment`; the store returns no
users next to an error. -/
def TaskRunner.populateTaskEnvironment (t : TaskRunnerState) (w : RunnerWorld) :
    Option String × TaskRunnerState :=
  match w.GetTemplateUsers with
  | .error err => (some err, { t with users := [] })
  | .ok users =>
    match w.GetTaskAlertChat with
    | some err => (some err, { t with users := users })
    | none => (none, { t with users := users })

/-- How `TaskRunner.run` ended: the runner it left, what it did, and the
error of the phase that ended it, if one did. -/
structure RunResult where
  runner : TaskRunnerState
  events : List RunnerEvent
  err : Option String
  deriving DecidableEq, Repr

/-- The job that line 28 of task_runner_lifecycle.go creates, after the kill
of another goroutine if one is requested: the process does not exist yet, so
`Kill` only sets `killed`. -/
def TaskRunner.newJob (t : TaskRunnerState) (w : RunnerWorld) : LocalJobState :=
  let job : LocalJobState :=
    { Inventory := t.Inventory, CommitHash := t.CommitHash, killed := false, Process := none
      sshKeyInstallation := ⟨none, ""⟩, becomeKeyInstallation := ⟨none, ""⟩
      vaultFileInstallations := GoMap.empty }
  if w.killRequested then (LocalJob.Kill job none).job else job

/-- Lines 27-48 of `TaskRunner.run`: create the job, run it with the runner as
its logger, log how it ended, and create the task event. -/
def TaskRunner.runJob (t : TaskRunnerState) (w : RunnerWorld) : RunResult :=
  let res := LocalJob.Run (TaskRunner.newJob t w) w.job
  let fwd := TaskRunner.forward { t with job := some res.job } res.events
  let last : String :=
    match res.err with
    | some err => "Task failed: " ++ err
    | none => "Task completed successfully"
  { runner := fwd.1
    events := fwd.2 ++ TaskRunner.Log fwd.1 last ++ [.CreateEvent fwd.1.Status]
    err := res.err }

/-- The method `TaskRunner.run`. -/
def TaskRunner.run (t : TaskRunnerState) (w : RunnerWorld) : RunResult :=
  let started := TaskRunner.Log t "Task started"
  match (TaskRunner.populateDetails t w).1 with
  | some err =>
    { runner := (TaskRunner.populateDetails t w).2
      events := started ++
        TaskRunner.Log (TaskRunner.populateDetails t w).2 ("Failed to populate details: " ++ err)
      err := some err }
  | none =>
    let t1 := (TaskRunner.populateDetails t w).2
    match (TaskRunner.populateTaskEnvironment t1 w).1 with
    | some err =>
      { runner := (TaskRunner.populateTaskEnvironment t1 w).2
        events := started ++ TaskRunner.Log (TaskRunner.populateTaskEnvironment t1 w).2
          ("Failed to populate environment: " ++ err)
        err := some err }
    | none =>
      let res := TaskRunner.runJob (TaskRunner.populateTaskEnvironment t1 w).2 w
      { runner := res.runner, events := started ++ res.events, err := res.err }

/-- Is the event a call of a log listener? -/
def RunnerEvent.isLogListener : RunnerEvent → Bool
  | .logListener _ _ => true
  | _ => false

/-- Is a log listener called after a terminal status has been written? -/
def forwardedAfterTerminal : List RunnerEvent → Bool
  | [] => false
  | .StatusSet status :: rest =>
    (status.IsFinished && rest.any RunnerEvent.isLogListener) || forwardedAfterTerminal rest
  | _ :: rest => forwardedAfterTerminal rest

/-! ## Sample inputs for the runner and its job -/

/-- Collaborators of a job for which every call succeeds: an installation at
the site ssh starts agent 1, at the site become agent 2, and the vault at
position `i` gets agent `10 + i` and the password `pw`; the app logs one line
when it runs, and no other collaborator calls the logger. -/
def sampleJobWorld : JobWorld :=
  { GetKey := fun _ _ => none
    Install := fun site _ =>
      match site with
      | .ssh => ([], .ok ⟨some 1, ""⟩)
      | .become => ([], .ok ⟨some 2, ""⟩)
      | .vault i => ([], .ok ⟨some (10 + i), "pw"⟩)
    tmpDir := "/tmp/task_1"
    Join := fun dir file => dir ++ "/" ++ file
    WriteFile := fun _ => none
    CloneOrPull := ([], none)
    Checkout := fun _ => ([], none)
    AppInstall := ([], none)
    AppRun := ([.Log "PLAY [all]"], none)
    order := id }

/-- As `sampleJobWorld`, but the become key `2` is not found. -/
def sampleJobWorldNoBecomeKey : JobWorld :=
  { sampleJobWorld with
    GetKey := fun site _ => if site = .become then some "key not found" else none }

/-- As `sampleJobWorld`, but the key of the second vault is not found. -/
def sampleJobWorldNoVaultKey : JobWorld :=
  { sampleJobWorld with
    GetKey := fun site _ => if site = .vault 1 then some "key not found" else none }

/-- A job that has not run: the inventory has the SSH key 1, the become key
2, and the vaults `a` and `b` with the keys 3 and 4. -/
def sampleJobState : LocalJobState :=
  { Inventory := ⟨some 1, some 2, [⟨"a", some 3⟩, ⟨"b", some 4⟩]⟩
    CommitHash := none, killed := false, Process := none
    sshKeyInstallation := ⟨none, ""⟩, becomeKeyInstallation := ⟨none, ""⟩
    vaultFileInstallations := GoMap.empty }

/-- A waiting runner with one log listener and one user to notify, whose
task names an inventory. -/
def sampleRunnerState : TaskRunnerState :=
  { Status := .TaskWaitingStatus
    InventoryID := some 1, RepositoryID := none, EnvironmentID := none, CommitHash := none
    Inventory := ⟨none, none, []⟩, users := [], statusListeners := [], logListeners := [0]
    job := none }

/-- Collaborators of a runner: the store answers every call and loads the
inventory of `sampleJobState` and the user 7; whether a kill is requested and
what the job meets are given. -/
def sampleRunnerWorld (killRequested : Bool) (job : JobWorld) : RunnerWorld :=
  { GetTemplate := none
    GetInventory := .ok sampleJobState.Inventory
    GetRepository := none
    GetEnvironment := none
    GetTemplateUsers := .ok [7]
    GetTaskAlertChat := none
    killRequested := killRequested
    job := job }

/-! ## `getSortedKeys` (services/export/Exporter.go, lines 350-392) -/

/-- The variables that the closure `visit` of `getSortedKeys` captures: the
slice `sorted`, and the names that the maps `visited` and `visiting` hold as
true. -/
structure SortState where
  sorted : List String
  visited : List String
  visiting : List String
  deriving DecidableEq, Repr

/-- A loop that calls `visit` on the names for which `guard` holds and
returns at the first error: the loop of lines 367-373 over the dependencies
of an exporter, guarded by their presence in the map, and the loop of lines
382-386 over all names. `none` means that a call of `visit` did not return. -/
def visitEach (guard : String → Bool)
    (visit : String → SortState → Option (Except String SortState)) :
    List String → SortState → Option (Except String SortState)
  | [], st => some (.ok st)
  | name :: rest, st =>
    if guard name then
      match visit name st with
      | none => none
      | some (.error e) => some (.error e)
      | some (.ok st1) => visitEach guard visit rest st1
    else visitEach guard visit rest st

/-- The closure `visit` of `getSortedKeys` (lines 355-380), with the state it
captures passed along. The depth of the recursion is bounded by `fuel`, and
`none` is returned when the bound is reached. -/
def visit {E : Type} (exporters : GoMap E) (dependsOn : E → List String) :
    Nat → String → SortState → Option (Except String SortState)
  | 0, _, _ => none
  | fuel + 1, name, st =>
    if name ∈ st.visiting then
      some (.error ("cyclic dependency detected involving " ++ name))
    else if name ∈ st.visited then
      some (.ok st)
    else
      let st1 : SortState := { st with visiting := name :: st.visiting }
      let after : Option (Except String SortState) :=
        match exporters.get? name with
        | some exporter =>
          visitEach (fun dep => (exporters.get? dep).isSome) (visit exporters dependsOn fuel)
            (dependsOn exporter) st1
        | none => some (.ok st1)
      match after with
      | none => none
      | some (.error e) => some (.error e)
      | some (.ok st2) =>
        some (.ok
          { sorted := st2.sorted ++ [name]
            visited := name :: st2.visited
            visiting := st2.visiting.filter (fun x => !decide (x = name)) })

/-- The function `getSortedKeys`: `order` is the order in which the `range`
loop visits the names of the exporters, and `fuel` bounds the depth of the
recursion of `visit`; `none` means that the bound was reached. -/
def getSortedKeys {E : Type} (exporters : GoMap E) (dependsOn : E → List String)
    (order : List String) (fuel : Nat) : Option (Except String (List String)) :=
  match visitEach (fun _ => true) (visit exporters dependsOn fuel) order ⟨[], [], []⟩ with
  | none => none
  | some (.error e) => some (.error e)
  | some (.ok st) => some (.ok st.sorted)

/-- The dependency relation restricted to the exporters present: `a` is
present, names `b` among its dependencies, and `b` is present. -/
def DependsOn {E : Type} (exporters : GoMap E) (dependsOn : E → List String)
    (a b : String) : Prop :=
  ∃ exporter, exporters.get? a = some exporter ∧ b ∈ dependsOn exporter ∧
    (exporters.get? b).isSome = true

/-- The invariant of the closure `visit`: the names being visited are
distinct, present and not yet visited, and each of them is a dependency of
the one visited before it; `sorted` lists the visited names once each, the
visited names are present, and every dependency of a visited name is listed
before it. -/
def SortState.Inv {E : Type} (exporters : GoMap E) (dependsOn : E → List String)
    (st : SortState) : Prop :=
  st.visiting.Nodup ∧
  (∀ x ∈ st.visiting, (exporters.get? x).isSome = true) ∧
  (∀ x ∈ st.visiting, x ∉ st.visited) ∧
  List.Chain' (fun x y => DependsOn exporters dependsOn y x) st.visiting ∧
  st.sorted.Nodup ∧
  (∀ x, x ∈ st.sorted ↔ x ∈ st.visited) ∧
  (∀ x ∈ st.visited, (exporters.get? x).isSome = true) ∧
  (∀ a ∈ st.visited, ∀ b, DependsOn exporters dependsOn a b → [b, a].Sublist st.sorted)

/-- What a loop of calls of `visit` from the state `st` returns when the
invariant holds: a state that keeps the invariant, with the same names being
visited and with `names` visited in addition, or an error, and then the
dependency relation has a cycle. -/
def SortState.Step {E : Type} (exporters : GoMap E) (dependsOn : E → List String)
    (names : List String) (st : SortState) (res : Option (Except String SortState)) : Prop :=
  (∃ st1, res = some (.ok st1) ∧ SortState.Inv exporters dependsOn st1 ∧
    st1.visiting = st.visiting ∧ (∀ x ∈ names, x ∈ st1.visited) ∧
    ∀ x ∈ st.visited, x ∈ st1.visited) ∨
  (∃ e, res = some (.error e) ∧
    ∃ a, Relation.TransGen (DependsOn exporters dependsOn) a a)

/-- Three exporters: `Template` depends on `Project`, `Inventory` and the
absent `View`, `Inventory` depends on `Project`, and `Project` on nothing.
An exporter is given by the names it depends on. -/
def sampleExporters : GoMap (List String) :=
  ⟨[("Template", ["Project", "Inventory", "View"]), ("Inventory", ["Project"]), ("Project", [])]⟩

/-- Two exporters that depend on each other. -/
def sampleCyclicExporters : GoMap (List String) :=
  ⟨[("Template", ["Inventory"]), ("Inventory", ["Template"])]⟩

/-! # Theorems -/

/-! ## `oneTimeSchedule.Next` -/

/-- A schedule that has run answers every sequence of calls with zero times
and stays as it is. -/
theorem oneTimeSchedule.NextSeq_ran (r : Time) (ts : List Time) :
    oneTimeSchedule.NextSeq ⟨r, true⟩ ts = (List.replicate ts.length zeroTime, ⟨r, true⟩) := by
  induction ts with
  | nil => rfl
  | cons t ts ih => simp [oneTimeSchedule.NextSeq, oneTimeSchedule.Next, ih, List.replicate_succ]

/-- While every argument is before run-at, every call returns run-at and the
schedule stays as it is. -/
theorem oneTimeSchedule.NextSeq_before (r : Time) (ts : List Time) (h : ∀ u ∈ ts, u < r) :
    oneTimeSchedule.NextSeq ⟨r, false⟩ ts = (List.replicate ts.length r, ⟨r, false⟩) := by
  induction ts with
  | nil => rfl
  | cons t ts ih =>
    have ht : t < r := h t (List.mem_cons_self _ _)
    have hts : ∀ u ∈ ts, u < r := fun u hu => h u (List.mem_cons_of_mem _ hu)
    simp [oneTimeSchedule.NextSeq, oneTimeSchedule.Next, Time.Before, ht, ih hts,
      List.replicate_succ]

/-- The returned times of a sequence of calls split at any point. -/
theorem oneTimeSchedule.NextSeq_append (s : oneTimeSchedule) (ts us : List Time) :
    oneTimeSchedule.NextSeq s (ts ++ us) =
      ((oneTimeSchedule.NextSeq s ts).1 ++
          (oneTimeSchedule.NextSeq (oneTimeSchedule.NextSeq s ts).2 us).1,
        (oneTimeSchedule.NextSeq (oneTimeSchedule.NextSeq s ts).2 us).2) := by
  induction ts generalizing s with
  | nil => simp [oneTimeSchedule.NextSeq]
  | cons t ts ih => simp [oneTimeSchedule.NextSeq, ih]

/-- C5: for a `oneTimeSchedule` with run-at `r` that has not run, `Next(t)`
returns `r` and leaves the schedule unchanged when `t` is strictly before `r`,
and returns the zero time and marks the schedule as run when `t` is not before
`r`; once the schedule is marked as run, `Next` returns the zero time for
every argument (and the schedule stays marked). -/
theorem oneTimeSchedule.Next_contract (r t : Time) :
    (t < r → oneTimeSchedule.Next ⟨r, false⟩ t = (r, ⟨r, false⟩)) ∧
    (¬ t < r → oneTimeSchedule.Next ⟨r, false⟩ t = (zeroTime, ⟨r, true⟩)) ∧
    oneTimeSchedule.Next ⟨r, true⟩ t = (zeroTime, ⟨r, true⟩) := by
  refine ⟨fun h => ?_, fun h => ?_, ?_⟩
  · simp [oneTimeSchedule.Next, Time.Before, h]
  · simp [oneTimeSchedule.Next, Time.Before, h]
  · simp [oneTimeSchedule.Next]

/-- C5 at run-at 10: a call at 3 returns 10 and changes nothing, a call at 10
returns the zero time and marks the schedule, a marked schedule returns the
zero time at 3. -/
theorem oneTimeSchedule.Next_contract_witness :
    oneTimeSchedule.Next ⟨10, false⟩ 3 = (10, ⟨10, false⟩) ∧
    oneTimeSchedule.Next ⟨10, false⟩ 10 = (zeroTime, ⟨10, true⟩) ∧
    oneTimeSchedule.Next ⟨10, true⟩ 3 = (zeroTime, ⟨10, true⟩) :=
  ⟨(oneTimeSchedule.Next_contract 10 3).1 (by decide),
    (oneTimeSchedule.Next_contract 10 10).2.1 (by decide),
    (oneTimeSchedule.Next_contract 10 3).2.2⟩

/-- C6 as stated fails: on a schedule with run-at 10, the calls `Next(0)` and
`Next(1)` both return run-at, so run-at is returned by two calls of the
sequence and the call after the first one does not return the zero time. -/
theorem oneTimeSchedule.Next_returns_runAt_twice :
    (oneTimeSchedule.NextSeq ⟨10, false⟩ [0, 1]).1 = [10, 10] ∧
    ¬ List.count (10 : Time) (oneTimeSchedule.NextSeq ⟨10, false⟩ [0, 1]).1 ≤ 1 := by
  decide

/-- C6, amended: across a sequence of `Next` calls on a `oneTimeSchedule` with
run-at `r` that has not run, every call made before the first call whose
argument is not before `r` returns `r` (these may be several calls), and that
call and every call after it return the zero time. -/
theorem oneTimeSchedule.NextSeq_runAt_then_zero (r t : Time) (pre post : List Time)
    (hpre : ∀ u ∈ pre, u < r) (ht : ¬ t < r) :
    (oneTimeSchedule.NextSeq ⟨r, false⟩ (pre ++ t :: post)).1 =
      List.replicate pre.length r ++ List.replicate (post.length + 1) zeroTime := by
  rw [oneTimeSchedule.NextSeq_append, oneTimeSchedule.NextSeq_before r pre hpre]
  simp [oneTimeSchedule.NextSeq, oneTimeSchedule.Next, Time.Before, ht,
    oneTimeSchedule.NextSeq_ran, List.replicate_succ]

/-- C6, amended, at run-at 10 with the calls 0, 1, 10, 2, 11. -/
theorem oneTimeSchedule.NextSeq_runAt_then_zero_witness :
    (oneTimeSchedule.NextSeq ⟨10, false⟩ [0, 1, 10, 2, 11]).1 = [10, 10, 0, 0, 0] :=
  oneTimeSchedule.NextSeq_runAt_then_zero 10 10 [0, 1] [2, 11] (by decide) (by decide)

/-! ## `ScheduleRunner.Run` -/

/-- The normalised schedule type is the stored one: the cron type is the
empty string. -/
theorem scheduleType_eq (ty : String) :
    (if ty = "" then ScheduleTypeCron else ty) = ty := by
  by_cases h : ty = ""
  · simp [h, ScheduleTypeCron]
  · simp [h]

/-- The calls of `tryUpdateScheduleCommitHash` are reads of the store and of
the remote, and at most one write of the commit hash. -/
theorem ScheduleRunner.tryUpdateScheduleCommitHash_calls {Repo Tpl : Type}
    (env : RunEnv Repo Tpl) (schedule : Schedule) (repositoryID : Int) (c : Call)
    (hc : c ∈ (ScheduleRunner.tryUpdateScheduleCommitHash env schedule repositoryID).1) :
    c.isAddTask = false ∧ c.isTryLock = false ∧ c ≠ Call.Refresh ∧
      (c.isStoreWrite = true →
        (ScheduleRunner.tryUpdateScheduleCommitHash env schedule repositoryID).2.1 = true ∨
        (ScheduleRunner.tryUpdateScheduleCommitHash env schedule repositoryID).2.2 ≠ none) := by
  unfold ScheduleRunner.tryUpdateScheduleCommitHash at hc ⊢
  split at hc
  · simp at hc; subst hc; simp [*, Call.isAddTask, Call.isTryLock, Call.isStoreWrite]
  · split at hc
    · simp at hc
      rcases hc with hc | hc <;> subst hc <;>
        simp [*, Call.isAddTask, Call.isTryLock, Call.isStoreWrite]
    · split at hc
      · simp at hc
        rcases hc with hc | hc | hc <;> subst hc <;>
          simp [*, Call.isAddTask, Call.isTryLock, Call.isStoreWrite]
      · split at hc
        · simp at hc
          rcases hc with hc | hc | hc <;> subst hc <;>
            simp [*, Call.isAddTask, Call.isTryLock, Call.isStoreWrite]
        · split at hc
          · simp at hc
            rcases hc with hc | hc | hc | hc <;> subst hc <;>
              simp [*, Call.isAddTask, Call.isTryLock, Call.isStoreWrite]
          · simp at hc
            rcases hc with hc | hc | hc | hc <;> subst hc <;>
              simp [*, Call.isAddTask, Call.isTryLock, Call.isStoreWrite]

/-- When `tryUpdateScheduleCommitHash` reports `updated`, it reports no
error. -/
theorem ScheduleRunner.tryUpdateScheduleCommitHash_updated {Repo Tpl : Type}
    (env : RunEnv Repo Tpl) (schedule : Schedule) (repositoryID : Int)
    (h : (ScheduleRunner.tryUpdateScheduleCommitHash env schedule repositoryID).2.1 = true) :
    (ScheduleRunner.tryUpdateScheduleCommitHash env schedule repositoryID).2.2 = none := by
  unfold ScheduleRunner.tryUpdateScheduleCommitHash at h ⊢
  repeat' split
  all_goals simp_all

/-- When `tryUpdateScheduleCommitHash` reports `updated`, the repository was
read, its secret deserialized, the remote hash fetched and found different
from the stored one, and the new hash written, in this order. -/
theorem ScheduleRunner.tryUpdateScheduleCommitHash_of_updated {Repo Tpl : Type}
    (env : RunEnv Repo Tpl) (schedule : Schedule) (repositoryID : Int)
    (h : (ScheduleRunner.tryUpdateScheduleCommitHash env schedule repositoryID).2.1 = true) :
    ∃ repo repo1 remoteHash,
      env.GetRepository schedule.ProjectID repositoryID = .ok repo ∧
      env.DeserializeSecret repo = .ok repo1 ∧
      env.GetLastRemoteCommitHash schedule.TemplateID repo1 = .ok remoteHash ∧
      schedule.LastCommitHash ≠ some remoteHash ∧
      env.SetScheduleCommitHash schedule.ProjectID schedule.ID remoteHash = none ∧
      (ScheduleRunner.tryUpdateScheduleCommitHash env schedule repositoryID).1 =
        [.GetRepository schedule.ProjectID repositoryID, .DeserializeSecret repositoryID,
          .GetLastRemoteCommitHash schedule.TemplateID,
          .SetScheduleCommitHash schedule.ProjectID schedule.ID remoteHash] := by
  unfold ScheduleRunner.tryUpdateScheduleCommitHash at h ⊢
  split at h
  · simp at h
  · rename_i repo hrepo
    split at h
    · simp at h
    · rename_i repo1 hrepo1
      split at h
      · simp at h
      · rename_i remoteHash hhash
        split at h
        · simp at h
        · rename_i hne
          split at h
          · simp at h
          · rename_i hset
            exact ⟨repo, repo1, remoteHash, hrepo, hrepo1, hhash, hne, hset, by simp [*]⟩

/-- The calls of `submit`: one `AddTask`, carrying the id of the schedule,
then a log line when it failed, then one `Refresh` for a `run_at` schedule. -/
theorem ScheduleRunner.submit_eq {Repo Tpl : Type} (env : RunEnv Repo Tpl) (schedule : Schedule)
    (scheduleType : String) (tpl : Tpl) :
    ∃ post : List Call,
      ScheduleRunner.submit env schedule scheduleType tpl =
        Call.AddTask (ScheduleRunner.newTask env schedule) schedule.ProjectID
          (env.NeedTaskAlias tpl) :: post ∧
      (∀ c ∈ post, c.isAddTask = false) ∧
      post.count Call.Refresh = (if scheduleType = "run_at" then 1 else 0) := by
  refine ⟨(match env.AddTask (ScheduleRunner.newTask env schedule) schedule.ProjectID
        (env.NeedTaskAlias tpl) with
      | some _ => [Call.Log "error" "failed to add task"]
      | none => []) ++ (if scheduleType = ScheduleTypeRunAt then [Call.Refresh] else []),
    by simp [ScheduleRunner.submit], ?_, ?_⟩
  · intro c hc
    simp only [List.mem_append] at hc
    rcases hc with hc | hc
    · split at hc <;> simp at hc
      subst hc; rfl
    · split at hc <;> simp at hc
      subst hc; rfl
  · by_cases hty : scheduleType = "run_at"
    · simp only [ScheduleTypeRunAt, hty, if_true, List.count_append]
      split <;> simp
    · simp only [ScheduleTypeRunAt, hty, if_false, List.count_append]
      split <;> simp

/-- The task of a firing carries the id of the fetched schedule. -/
theorem ScheduleRunner.newTask_ScheduleID {Repo Tpl : Type} (env : RunEnv Repo Tpl)
    (schedule : Schedule) :
    (ScheduleRunner.newTask env schedule).ScheduleID = some schedule.ID := rfl

/-- When the schedule is fetched and any repository hash check passes, `Run`
goes on to `runFromTemplate`; the calls before it and after it are neither
`AddTask` nor `Refresh`. -/
theorem ScheduleRunner.Run_eq_of_fetched {Repo Tpl : Type} (r : ScheduleRunner)
    (env : RunEnv Repo Tpl) (schedule : Schedule)
    (hs : env.GetSchedule r.projectID r.scheduleID = .ok schedule)
    (hh : ∀ repositoryID, schedule.RepositoryID = some repositoryID →
      (ScheduleRunner.tryUpdateScheduleCommitHash env schedule repositoryID).2.1 = true) :
    ∃ pre post : List Call,
      r.Run env = pre ++ r.runFromTemplate env schedule schedule.Type_ ++ post ∧
      (∀ c ∈ pre, c.isAddTask = false ∧ c ≠ Call.Refresh) ∧
      (∀ c ∈ post, c.isAddTask = false ∧ c ≠ Call.Refresh) := by
  have body : ∃ pre : List Call,
      r.runBody env = pre ++ r.runFromTemplate env schedule schedule.Type_ ∧
      (∀ c ∈ pre, c.isAddTask = false ∧ c ≠ Call.Refresh) := by
    unfold ScheduleRunner.runBody
    simp only [hs, scheduleType_eq]
    cases hrepo : schedule.RepositoryID with
    | none =>
      refine ⟨[Call.GetSchedule r.projectID r.scheduleID], by simp, ?_⟩
      intro c hc
      simp at hc
      subst hc
      simp [Call.isAddTask]
    | some repositoryID =>
      have hu := hh repositoryID hrepo
      have he := ScheduleRunner.tryUpdateScheduleCommitHash_updated env schedule repositoryID hu
      refine ⟨Call.GetSchedule r.projectID r.scheduleID ::
        (ScheduleRunner.tryUpdateScheduleCommitHash env schedule repositoryID).1, ?_, ?_⟩
      · simp [hu, he]
      · intro c hc
        rcases List.mem_cons.1 hc with hc | hc
        · subst hc
          simp [Call.isAddTask]
        · have := ScheduleRunner.tryUpdateScheduleCommitHash_calls env schedule repositoryID c hc
          exact ⟨this.1, this.2.2.1⟩
  obtain ⟨pre, hpre, hno⟩ := body
  unfold ScheduleRunner.Run
  by_cases hp : env.PermanentConnection = true
  · refine ⟨pre, [], ?_, hno, by simp⟩
    simp [hp, hpre]
  · refine ⟨Call.Connect ("schedule " ++ toString r.scheduleID) :: pre,
      [Call.Close ("schedule " ++ toString r.scheduleID)], ?_, ?_, ?_⟩
    · simp [hp, hpre]
    · intro c hc
      rcases List.mem_cons.1 hc with hc | hc
      · subst hc
        simp [Call.isAddTask]
      · exact hno c hc
    · intro c hc
      simp at hc
      subst hc
      simp [Call.isAddTask]

/-- C1: in a firing of `ScheduleRunner.Run` where the schedule and its
template are fetched and any repository hash check reports a change, if a
deduplicator is configured and `TryLockExecution(scheduleID)` returns false,
then `Run` makes no `AddTask` call, and the number of its `Refresh` calls is
one for a `run_at` schedule and zero for every other type, cron included. -/
theorem ScheduleRunner.Run_lock_denied {Repo Tpl : Type} (r : ScheduleRunner)
    (env : RunEnv Repo Tpl) (schedule : Schedule) (tpl : Tpl) (TryLockExecution : Int → Bool)
    (hs : env.GetSchedule r.projectID r.scheduleID = .ok schedule)
    (hh : ∀ repositoryID, schedule.RepositoryID = some repositoryID →
      (ScheduleRunner.tryUpdateScheduleCommitHash env schedule repositoryID).2.1 = true)
    (ht : env.GetTemplate schedule.ProjectID schedule.TemplateID = .ok tpl)
    (hd : env.dedup = some TryLockExecution)
    (hl : TryLockExecution r.scheduleID = false) :
    (∀ c ∈ r.Run env, c.isAddTask = false) ∧
    (r.Run env).count Call.Refresh = (if schedule.Type_ = "run_at" then 1 else 0) := by
  obtain ⟨pre, post, hrun, hpre, hpost⟩ := ScheduleRunner.Run_eq_of_fetched r env schedule hs hh
  have hmid : r.runFromTemplate env schedule schedule.Type_ =
      [Call.GetTemplate schedule.ProjectID schedule.TemplateID,
        Call.TryLockExecution r.scheduleID,
        Call.Log "debug" "schedule already executed by another node"] ++
      (if schedule.Type_ = "run_at" then [Call.Refresh] else []) := by
    simp [ScheduleRunner.runFromTemplate, ht, hd, hl, ScheduleTypeRunAt]
  have hcpre : pre.count Call.Refresh = 0 :=
    List.count_eq_zero.2 (fun hmem => (hpre _ hmem).2 rfl)
  have hcpost : post.count Call.Refresh = 0 :=
    List.count_eq_zero.2 (fun hmem => (hpost _ hmem).2 rfl)
  rw [hrun, hmid]
  constructor
  · intro c hc
    simp only [List.mem_append] at hc
    rcases hc with (hc | hc | hc) | hc
    · exact (hpre c hc).1
    · simp at hc
      rcases hc with hc | hc | hc <;> subst hc <;> rfl
    · split at hc <;> simp at hc
      subst hc; rfl
    · exact (hpost c hc).1
  · simp only [List.count_append, hcpre, hcpost]
    split <;> simp

/-- C2: in a firing of `ScheduleRunner.Run` where the schedule and its
template are fetched and any repository hash check reports a change, if no
deduplicator is configured or `TryLockExecution(scheduleID)` returns true,
then `Run` calls `AddTask` exactly once, with a task whose `ScheduleID` is the
id of the fetched schedule; no `Refresh` precedes that call, and after it
`Run` calls `Refresh` exactly once for a `run_at` schedule and never for
another type, whatever `AddTask` returned. -/
theorem ScheduleRunner.Run_submits_once {Repo Tpl : Type} (r : ScheduleRunner)
    (env : RunEnv Repo Tpl) (schedule : Schedule) (tpl : Tpl)
    (hs : env.GetSchedule r.projectID r.scheduleID = .ok schedule)
    (hh : ∀ repositoryID, schedule.RepositoryID = some repositoryID →
      (ScheduleRunner.tryUpdateScheduleCommitHash env schedule repositoryID).2.1 = true)
    (ht : env.GetTemplate schedule.ProjectID schedule.TemplateID = .ok tpl)
    (hd : ∀ TryLockExecution, env.dedup = some TryLockExecution →
      TryLockExecution r.scheduleID = true) :
    ∃ pre post : List Call,
      r.Run env = pre ++ Call.AddTask (ScheduleRunner.newTask env schedule) schedule.ProjectID
        (env.NeedTaskAlias tpl) :: post ∧
      (ScheduleRunner.newTask env schedule).ScheduleID = some schedule.ID ∧
      (∀ c ∈ pre, c.isAddTask = false ∧ c ≠ Call.Refresh) ∧
      (∀ c ∈ post, c.isAddTask = false) ∧
      post.count Call.Refresh = (if schedule.Type_ = "run_at" then 1 else 0) := by
  obtain ⟨pre, post, hrun, hpre, hpost⟩ := ScheduleRunner.Run_eq_of_fetched r env schedule hs hh
  obtain ⟨rest, hsub, hrest, hcount⟩ := ScheduleRunner.submit_eq env schedule schedule.Type_ tpl
  have hcpost : post.count Call.Refresh = 0 :=
    List.count_eq_zero.2 (fun hmem => (hpost _ hmem).2 rfl)
  have hmid : ∃ mid : List Call,
      r.runFromTemplate env schedule schedule.Type_ =
        mid ++ ScheduleRunner.submit env schedule schedule.Type_ tpl ∧
      (∀ c ∈ mid, c.isAddTask = false ∧ c ≠ Call.Refresh) := by
    cases hdd : env.dedup with
    | none =>
      refine ⟨[Call.GetTemplate schedule.ProjectID schedule.TemplateID], ?_, ?_⟩
      · simp [ScheduleRunner.runFromTemplate, ht, hdd]
      · intro c hc
        simp at hc
        subst hc
        simp [Call.isAddTask]
    | some f =>
      refine ⟨[Call.GetTemplate schedule.ProjectID schedule.TemplateID,
        Call.TryLockExecution r.scheduleID], ?_, ?_⟩
      · simp [ScheduleRunner.runFromTemplate, ht, hdd, hd f hdd]
      · intro c hc
        simp at hc
        rcases hc with hc | hc <;> subst hc <;> simp [Call.isAddTask]
  obtain ⟨mid, hmid, hnomid⟩ := hmid
  refine ⟨pre ++ mid, rest ++ post, ?_, rfl, ?_, ?_, ?_⟩
  · rw [hrun, hmid, hsub]
    simp
  · intro c hc
    rcases List.mem_append.1 hc with hc | hc
    · exact hpre c hc
    · exact hnomid c hc
  · intro c hc
    rcases List.mem_append.1 hc with hc | hc
    · exact hrest c hc
    · exact (hpost c hc).1
  · rw [List.count_append, hcpost, hcount]
    simp

/-- C7: for a fetched schedule with a repository ref, (1) if `Run` makes an
`AddTask` call then the remote head hash was fetched, it differs from the
stored last commit hash (or none is stored), and `Run` has written it with a
successful `SetScheduleCommitHash` call that precedes every `AddTask` call;
(2) if the fetched remote hash equals the stored hash, `Run` makes no store
write, no `TryLockExecution` call, no `AddTask` call and no `Refresh`. -/
theorem ScheduleRunner.Run_repository_hash {Repo Tpl : Type} (r : ScheduleRunner)
    (env : RunEnv Repo Tpl) (schedule : Schedule) (repositoryID : Int)
    (hs : env.GetSchedule r.projectID r.scheduleID = .ok schedule)
    (hr : schedule.RepositoryID = some repositoryID) :
    ((∃ c ∈ r.Run env, c.isAddTask = true) →
      ∃ (repo repo1 : Repo) (remoteHash : String) (pre post : List Call),
        env.GetRepository schedule.ProjectID repositoryID = .ok repo ∧
        env.DeserializeSecret repo = .ok repo1 ∧
        env.GetLastRemoteCommitHash schedule.TemplateID repo1 = .ok remoteHash ∧
        schedule.LastCommitHash ≠ some remoteHash ∧
        env.SetScheduleCommitHash schedule.ProjectID schedule.ID remoteHash = none ∧
        r.Run env =
          pre ++ Call.SetScheduleCommitHash schedule.ProjectID schedule.ID remoteHash :: post ∧
        (∀ c ∈ pre, c.isAddTask = false)) ∧
    (∀ (repo repo1 : Repo) (remoteHash : String),
      env.GetRepository schedule.ProjectID repositoryID = .ok repo →
      env.DeserializeSecret repo = .ok repo1 →
      env.GetLastRemoteCommitHash schedule.TemplateID repo1 = .ok remoteHash →
      schedule.LastCommitHash = some remoteHash →
      ∀ c ∈ r.Run env, c.isStoreWrite = false ∧ c.isTryLock = false ∧ c.isAddTask = false ∧
        c ≠ Call.Refresh) := by
  have hbody : r.runBody env = Call.GetSchedule r.projectID r.scheduleID ::
      (match (ScheduleRunner.tryUpdateScheduleCommitHash env schedule repositoryID).2.2 with
        | some _ => (ScheduleRunner.tryUpdateScheduleCommitHash env schedule repositoryID).1 ++
            [Call.Log "error" "failed to update schedule commit hash"]
        | none =>
          if !(ScheduleRunner.tryUpdateScheduleCommitHash env schedule repositoryID).2.1 then
            (ScheduleRunner.tryUpdateScheduleCommitHash env schedule repositoryID).1
          else (ScheduleRunner.tryUpdateScheduleCommitHash env schedule repositoryID).1 ++
            r.runFromTemplate env schedule schedule.Type_) := by
    unfold ScheduleRunner.runBody
    simp only [hs, hr, scheduleType_eq]
    rfl
  constructor
  · rintro ⟨c, hc, hadd⟩
    by_cases hu : (ScheduleRunner.tryUpdateScheduleCommitHash env schedule repositoryID).2.1 = true
    · obtain ⟨repo, repo1, remoteHash, h1, h2, h3, h4, h5, h6⟩ :=
        ScheduleRunner.tryUpdateScheduleCommitHash_of_updated env schedule repositoryID hu
      have he := ScheduleRunner.tryUpdateScheduleCommitHash_updated env schedule repositoryID hu
      rw [he, hu, h6] at hbody
      simp only [Bool.not_true, Bool.false_eq_true, if_false] at hbody
      by_cases hp : env.PermanentConnection = true
      · refine ⟨repo, repo1, remoteHash, [Call.GetSchedule r.projectID r.scheduleID,
          Call.GetRepository schedule.ProjectID repositoryID, Call.DeserializeSecret repositoryID,
          Call.GetLastRemoteCommitHash schedule.TemplateID],
          r.runFromTemplate env schedule schedule.Type_, h1, h2, h3, h4, h5, ?_, ?_⟩
        · simp [ScheduleRunner.Run, hp, hbody]
        · intro c hc
          simp at hc
          rcases hc with hc | hc | hc | hc <;> subst hc <;> rfl
      · refine ⟨repo, repo1, remoteHash, [Call.Connect ("schedule " ++ toString r.scheduleID),
          Call.GetSchedule r.projectID r.scheduleID,
          Call.GetRepository schedule.ProjectID repositoryID, Call.DeserializeSecret repositoryID,
          Call.GetLastRemoteCommitHash schedule.TemplateID],
          r.runFromTemplate env schedule schedule.Type_ ++
            [Call.Close ("schedule " ++ toString r.scheduleID)], h1, h2, h3, h4, h5, ?_, ?_⟩
        · simp [ScheduleRunner.Run, hp, hbody]
        · intro c hc
          simp at hc
          rcases hc with hc | hc | hc | hc | hc <;> subst hc <;> rfl
    · exfalso
      have hcalls := ScheduleRunner.tryUpdateScheduleCommitHash_calls env schedule repositoryID
      have hmem : c = Call.Connect ("schedule " ++ toString r.scheduleID) ∨
          c = Call.Close ("schedule " ++ toString r.scheduleID) ∨
          c = Call.GetSchedule r.projectID r.scheduleID ∨
          c = Call.Log "error" "failed to update schedule commit hash" ∨
          c ∈ (ScheduleRunner.tryUpdateScheduleCommitHash env schedule repositoryID).1 := by
        unfold ScheduleRunner.Run at hc
        rw [hbody] at hc
        simp only [Bool.not_eq_true] at hu
        rw [hu] at hc
        split at hc <;> split at hc <;> simp at hc <;> tauto
      rcases hmem with h | h | h | h | h
      · subst h; simp [Call.isAddTask] at hadd
      · subst h; simp [Call.isAddTask] at hadd
      · subst h; simp [Call.isAddTask] at hadd
      · subst h; simp [Call.isAddTask] at hadd
      · rw [(hcalls c h).1] at hadd
        exact Bool.false_ne_true hadd
  · intro repo repo1 remoteHash h1 h2 h3 h4 c hc
    have hres : ScheduleRunner.tryUpdateScheduleCommitHash env schedule repositoryID =
        ([.GetRepository schedule.ProjectID repositoryID, .DeserializeSecret repositoryID,
          .GetLastRemoteCommitHash schedule.TemplateID], false, none) := by
      simp [ScheduleRunner.tryUpdateScheduleCommitHash, h1, h2, h3, h4]
    rw [hres] at hbody
    simp only [Bool.not_false, if_true] at hbody
    unfold ScheduleRunner.Run at hc
    rw [hbody] at hc
    split at hc <;> simp at hc
    · rcases hc with hc | hc | hc | hc | hc | hc <;> subst hc <;>
        simp [Call.isStoreWrite, Call.isTryLock, Call.isAddTask]
    · rcases hc with hc | hc | hc | hc <;> subst hc <;>
        simp [Call.isStoreWrite, Call.isTryLock, Call.isAddTask]

/-- C1 on a `run_at` schedule with id 123 whose remote hash changed, with a
deduplicator that refuses: no `AddTask`, one `Refresh`. -/
theorem ScheduleRunner.Run_lock_denied_witness :
    (∀ c ∈ ScheduleRunner.Run ⟨1, 123⟩
        (sampleEnv (sampleSchedule "run_at" (some "a")) (some (fun _ => false))),
      c.isAddTask = false) ∧
    (ScheduleRunner.Run ⟨1, 123⟩
        (sampleEnv (sampleSchedule "run_at" (some "a")) (some (fun _ => false)))).count
      Call.Refresh = 1 :=
  ScheduleRunner.Run_lock_denied ⟨1, 123⟩
    (sampleEnv (sampleSchedule "run_at" (some "a")) (some (fun _ => false)))
    (sampleSchedule "run_at" (some "a")) () (fun _ => false) rfl
    (by intro repositoryID h; obtain rfl := Option.some.inj h; decide) rfl rfl rfl

/-- C2 on a `run_at` schedule with id 123 whose remote hash changed, with a
deduplicator that grants the lock: one `AddTask` for schedule 123, then one
`Refresh`. -/
theorem ScheduleRunner.Run_submits_once_witness :
    ∃ pre post : List Call,
      ScheduleRunner.Run ⟨1, 123⟩
          (sampleEnv (sampleSchedule "run_at" (some "a")) (some (fun _ => true))) =
        pre ++ Call.AddTask ⟨1, 7, some 123, none, none⟩ 1 false :: post ∧
      (some 123 : Option Int) = some 123 ∧
      (∀ c ∈ pre, c.isAddTask = false ∧ c ≠ Call.Refresh) ∧
      (∀ c ∈ post, c.isAddTask = false) ∧
      post.count Call.Refresh = 1 :=
  ScheduleRunner.Run_submits_once ⟨1, 123⟩
    (sampleEnv (sampleSchedule "run_at" (some "a")) (some (fun _ => true)))
    (sampleSchedule "run_at" (some "a")) () rfl
    (by intro repositoryID h; obtain rfl := Option.some.inj h; decide) rfl
    (by intro f h; obtain rfl := Option.some.inj h; rfl)

/-- C7 on schedule 123 with repository 5 and remote hash `b`: with stored hash
`a` the run submits a task and has written `b` before; with stored hash `b`
the run writes nothing, asks for no lock and submits nothing. -/
theorem ScheduleRunner.Run_repository_hash_witness :
    (∃ (repo repo1 : Unit) (remoteHash : String) (pre post : List Call),
      (sampleEnv (sampleSchedule "" (some "a")) none).GetRepository 1 5 = .ok repo ∧
      (sampleEnv (sampleSchedule "" (some "a")) none).DeserializeSecret repo = .ok repo1 ∧
      (sampleEnv (sampleSchedule "" (some "a")) none).GetLastRemoteCommitHash 7 repo1 =
        .ok remoteHash ∧
      (some "a" : Option String) ≠ some remoteHash ∧
      (sampleEnv (sampleSchedule "" (some "a")) none).SetScheduleCommitHash 1 123 remoteHash =
        none ∧
      ScheduleRunner.Run ⟨1, 123⟩ (sampleEnv (sampleSchedule "" (some "a")) none) =
        pre ++ Call.SetScheduleCommitHash 1 123 remoteHash :: post ∧
      (∀ c ∈ pre, c.isAddTask = false)) ∧
    (∀ c ∈ ScheduleRunner.Run ⟨1, 123⟩ (sampleEnv (sampleSchedule "" (some "b")) none),
      c.isStoreWrite = false ∧ c.isTryLock = false ∧ c.isAddTask = false ∧ c ≠ Call.Refresh) :=
  ⟨(ScheduleRunner.Run_repository_hash ⟨1, 123⟩ (sampleEnv (sampleSchedule "" (some "a")) none)
      (sampleSchedule "" (some "a")) 5 rfl rfl).1
      ⟨Call.AddTask ⟨1, 7, some 123, none, none⟩ 1 false, by decide, rfl⟩,
    (ScheduleRunner.Run_repository_hash ⟨1, 123⟩ (sampleEnv (sampleSchedule "" (some "b")) none)
      (sampleSchedule "" (some "b")) 5 rfl rfl).2 () () "b" rfl rfl rfl rfl⟩

/-! ## `SchedulePool.Refresh` -/

/-- What one pass of the loop body of `Refresh` does to the entries: nothing,
or one new entry at the end whose job is the runner of the schedule. -/
theorem SchedulePool.refreshSchedule_entries (env : RefreshEnv) (p : PoolState) (s : Schedule) :
    (SchedulePool.refreshSchedule env p s).entries = p.entries ∨
    ∃ e : Entry, e.Job = CreateScheduleRunner s.ProjectID s.ID ∧
      (SchedulePool.refreshSchedule env p s).entries = p.entries ++ [e] := by
  unfold SchedulePool.refreshSchedule
  simp only [scheduleType_eq]
  split
  · exact Or.inl rfl
  · split
    · split
      · exact Or.inl rfl
      · split
        · split
          · split <;> exact Or.inl rfl
          · split
            · split <;> exact Or.inl rfl
            · exact Or.inl rfl
        · exact Or.inr ⟨_, rfl, rfl⟩
    · split
      · split
        · exact Or.inl rfl
        · unfold SchedulePool.logAddError SchedulePool.addRunner
          cases env.Parse s.CronFormat with
          | some e => exact Or.inl rfl
          | none => exact Or.inr ⟨_, rfl, rfl⟩
      · exact Or.inl rfl

/-- The loop body of `Refresh` adds an entry exactly for a schedule that has a
repository ref or is active, and is either a cron schedule with a non-empty
format that parses or a `run_at` schedule with a run-at after now. -/
theorem SchedulePool.refreshSchedule_entries_iff (env : RefreshEnv) (p : PoolState)
    (s : Schedule) :
    (SchedulePool.refreshSchedule env p s).entries ≠ p.entries ↔
      (s.RepositoryID ≠ none ∨ s.Active = true) ∧
      ((s.Type_ = "" ∧ s.CronFormat ≠ "" ∧ env.Parse s.CronFormat = none) ∨
        (s.Type_ = "run_at" ∧ ∃ runAt, s.RunAt = some runAt ∧ env.now < runAt)) := by
  have hne : ("" : String) ≠ "run_at" := by decide
  have hne' : ("run_at" : String) ≠ "" := by decide
  by_cases hgate : s.RepositoryID = none ∧ s.Active = false
  · simp [SchedulePool.refreshSchedule, hgate.1, hgate.2]
  · have hgate' : s.RepositoryID ≠ none ∨ s.Active = true := by
      by_contra hcon
      push_neg at hcon
      exact hgate ⟨hcon.1, by simpa using hcon.2⟩
    by_cases hty : s.Type_ = "run_at"
    · cases hrun : s.RunAt with
      | none =>
        simp [SchedulePool.refreshSchedule, scheduleType_eq, ScheduleTypeRunAt, hgate, hty, hrun]
      | some runAt =>
        by_cases hafter : env.now < runAt
        · simp [SchedulePool.refreshSchedule, scheduleType_eq, ScheduleTypeRunAt, hgate, hgate',
            hty, hrun, hne', Time.After, hafter, SchedulePool.logAddError,
            SchedulePool.addOneTimeRunner]
        · cases hdel : s.DeleteAfterRun <;> cases hact : s.Active <;>
            cases hde : env.DeleteScheduleErr s.ProjectID s.ID <;>
            cases hse : env.SetScheduleActiveErr s.ProjectID s.ID false <;>
            simp [SchedulePool.refreshSchedule, scheduleType_eq, ScheduleTypeRunAt, hgate,
              hty, hrun, hne', Time.After, hafter, hdel, hact, hde, hse] <;>
            try (split <;> rfl)
    · by_cases hcron : s.Type_ = ""
      · by_cases hfmt : s.CronFormat = ""
        · simp [SchedulePool.refreshSchedule, scheduleType_eq, ScheduleTypeRunAt,
            ScheduleTypeCron, hgate, hcron, hne, hfmt]
        · cases hparse : env.Parse s.CronFormat <;>
            simp [SchedulePool.refreshSchedule, scheduleType_eq, ScheduleTypeRunAt,
              ScheduleTypeCron, hgate, hgate', hcron, hne, hfmt, SchedulePool.logAddError,
              SchedulePool.addRunner, hparse]
      · simp [SchedulePool.refreshSchedule, scheduleType_eq, ScheduleTypeRunAt,
          ScheduleTypeCron, hgate, hty, hcron]

/-- Walking schedules none of which has the runner `k` leaves the number of
entries whose job is `k` as it was. -/
theorem SchedulePool.foldl_refreshSchedule_count_other (env : RefreshEnv) (k : ScheduleRunner)
    (l : List Schedule) (p : PoolState)
    (h : ∀ x ∈ l, CreateScheduleRunner x.ProjectID x.ID ≠ k) :
    (l.foldl (SchedulePool.refreshSchedule env) p).entries.countP (fun e => decide (e.Job = k)) =
      p.entries.countP (fun e => decide (e.Job = k)) := by
  induction l generalizing p with
  | nil => rfl
  | cons x l ih =>
    rw [List.foldl_cons, ih _ (fun y hy => h y (List.mem_cons_of_mem _ hy))]
    rcases SchedulePool.refreshSchedule_entries env p x with heq | ⟨e, hjob, heq⟩
    · rw [heq]
    · have hne : e.Job ≠ k := by
        rw [hjob]
        exact h x (List.mem_cons_self _ _)
      rw [heq, List.countP_append]
      simp [hne]

/-- A table in which project and id identify a schedule splits around each of
its schedules into two parts that hold no schedule with the same runner. -/
theorem SchedulePool.split_at_schedule (table : List Schedule) (s : Schedule) (hs : s ∈ table)
    (hnd : (table.map (fun x => (x.ProjectID, x.ID))).Nodup) :
    ∃ l1 l2 : List Schedule, table = l1 ++ s :: l2 ∧
      (∀ x ∈ l1, ¬ (x.ProjectID = s.ProjectID ∧ x.ID = s.ID)) ∧
      (∀ x ∈ l2, ¬ (x.ProjectID = s.ProjectID ∧ x.ID = s.ID)) := by
  obtain ⟨l1, l2, rfl⟩ := List.append_of_mem hs
  refine ⟨l1, l2, rfl, ?_, ?_⟩
  · intro x hx hkey
    rw [List.map_append, List.map_cons] at hnd
    have hdis := (List.nodup_append.1 hnd).2.2
    exact hdis (List.mem_map_of_mem (fun x => (x.ProjectID, x.ID)) hx)
      (by simp [hkey.1, hkey.2])
  · intro x hx hkey
    rw [List.map_append, List.map_cons] at hnd
    have hcons := (List.nodup_cons.1 (List.nodup_append.1 hnd).2.1).1
    apply hcons
    have := List.mem_map_of_mem (fun x => (x.ProjectID, x.ID)) hx
    simpa [hkey.1, hkey.2] using this

/-- C3: when the store returns its schedules (a table in which project and id
identify a schedule) and the time is `now`, `Refresh` leaves exactly one cron
entry for the runner of a schedule of the table if the schedule has a
repository ref or is active, and either its type is empty (cron) with a
non-empty cron format that the parser accepts, or its type is `run_at` with
a run-at strictly after `now`; for every other schedule of the table it
leaves no entry. -/
theorem SchedulePool.Refresh_entry_iff (env : RefreshEnv) (p : PoolState) (s : Schedule)
    (hget : env.GetSchedulesErr = none) (hs : s ∈ p.store)
    (hnd : (p.store.map (fun x => (x.ProjectID, x.ID))).Nodup) :
    (((s.RepositoryID ≠ none ∨ s.Active = true) ∧
        ((s.Type_ = "" ∧ s.CronFormat ≠ "" ∧ env.Parse s.CronFormat = none) ∨
          (s.Type_ = "run_at" ∧ ∃ runAt, s.RunAt = some runAt ∧ env.now < runAt))) →
      (SchedulePool.Refresh env p).entries.countP
        (fun e => decide (e.Job = CreateScheduleRunner s.ProjectID s.ID)) = 1) ∧
    (¬ ((s.RepositoryID ≠ none ∨ s.Active = true) ∧
        ((s.Type_ = "" ∧ s.CronFormat ≠ "" ∧ env.Parse s.CronFormat = none) ∨
          (s.Type_ = "run_at" ∧ ∃ runAt, s.RunAt = some runAt ∧ env.now < runAt))) →
      (SchedulePool.Refresh env p).entries.countP
        (fun e => decide (e.Job = CreateScheduleRunner s.ProjectID s.ID)) = 0) := by
  obtain ⟨l1, l2, hsplit, h1, h2⟩ := SchedulePool.split_at_schedule p.store s hs hnd
  have hk : ∀ l : List Schedule, (∀ x ∈ l, ¬ (x.ProjectID = s.ProjectID ∧ x.ID = s.ID)) →
      ∀ x ∈ l, CreateScheduleRunner x.ProjectID x.ID ≠ CreateScheduleRunner s.ProjectID s.ID := by
    intro l hl x hx heq
    simp only [CreateScheduleRunner, ScheduleRunner.mk.injEq] at heq
    exact hl x hx heq
  have hrefresh : SchedulePool.Refresh env p =
      l2.foldl (SchedulePool.refreshSchedule env)
        (SchedulePool.refreshSchedule env
          (l1.foldl (SchedulePool.refreshSchedule env)
            (SchedulePool.clear { p with calls := p.calls ++ [Call.GetSchedules] })) s) := by
    simp [SchedulePool.Refresh, hget, hsplit, List.foldl_append]
  have hbefore := SchedulePool.foldl_refreshSchedule_count_other env
    (CreateScheduleRunner s.ProjectID s.ID) l1
    (SchedulePool.clear { p with calls := p.calls ++ [Call.GetSchedules] }) (hk l1 h1)
  rw [hrefresh, SchedulePool.foldl_refreshSchedule_count_other env _ l2 _ (hk l2 h2)]
  have hiff := SchedulePool.refreshSchedule_entries_iff env
    (l1.foldl (SchedulePool.refreshSchedule env)
      (SchedulePool.clear { p with calls := p.calls ++ [Call.GetSchedules] })) s
  constructor
  · intro hcond
    rcases SchedulePool.refreshSchedule_entries env
      (l1.foldl (SchedulePool.refreshSchedule env)
        (SchedulePool.clear { p with calls := p.calls ++ [Call.GetSchedules] })) s
      with heq | ⟨e, hjob, heq⟩
    · exact absurd heq (hiff.2 hcond)
    · rw [heq, List.countP_append, hbefore]
      simp [SchedulePool.clear, hjob]
  · intro hcond
    have heq := not_not.1 (fun hne => hcond (hiff.1 hne))
    rw [heq, hbefore]
    simp [SchedulePool.clear]

/-- What one pass of the loop body of `Refresh` does to the schedule table:
nothing, or it deletes the schedule, or it deactivates the schedule. -/
theorem SchedulePool.refreshSchedule_store (env : RefreshEnv) (p : PoolState) (s : Schedule) :
    (SchedulePool.refreshSchedule env p s).store = p.store ∨
    (SchedulePool.refreshSchedule env p s).store =
      Store.DeleteSchedule p.store s.ProjectID s.ID ∨
    (SchedulePool.refreshSchedule env p s).store =
      Store.SetScheduleActive p.store s.ProjectID s.ID false := by
  unfold SchedulePool.refreshSchedule
  simp only [scheduleType_eq]
  split
  · exact Or.inl rfl
  · split
    · split
      · exact Or.inl rfl
      · split
        · split
          · split
            · exact Or.inl rfl
            · exact Or.inr (Or.inl rfl)
          · split
            · split
              · exact Or.inl rfl
              · exact Or.inr (Or.inr rfl)
            · exact Or.inl rfl
        · exact Or.inl rfl
    · split
      · split
        · exact Or.inl rfl
        · unfold SchedulePool.logAddError SchedulePool.addRunner
          cases env.Parse s.CronFormat <;> exact Or.inl rfl
      · exact Or.inl rfl

/-- One pass of the loop body of `Refresh` keeps the calls made so far. -/
theorem SchedulePool.refreshSchedule_calls (env : RefreshEnv) (p : PoolState) (s : Schedule)
    (c : Call) (hc : c ∈ p.calls) : c ∈ (SchedulePool.refreshSchedule env p s).calls := by
  unfold SchedulePool.refreshSchedule
  simp only [scheduleType_eq]
  split
  · exact hc
  · split
    · split
      · exact List.mem_append_left _ hc
      · split
        · split
          · split <;> exact List.mem_append_left _ hc
          · split
            · split <;> exact List.mem_append_left _ hc
            · exact hc
        · exact hc
    · split
      · split
        · exact hc
        · unfold SchedulePool.logAddError SchedulePool.addRunner
          cases env.Parse s.CronFormat with
          | some e => exact List.mem_append_left _ hc
          | none => exact hc
      · exact List.mem_append_left _ hc

/-- A call made stays in the list while the loop of `Refresh` goes on. -/
theorem SchedulePool.foldl_refreshSchedule_calls (env : RefreshEnv) (l : List Schedule)
    (p : PoolState) (c : Call) (hc : c ∈ p.calls) :
    c ∈ (l.foldl (SchedulePool.refreshSchedule env) p).calls := by
  induction l generalizing p with
  | nil => exact hc
  | cons x l ih => exact ih _ (SchedulePool.refreshSchedule_calls env p x c hc)

/-- A property of the schedule table that deleting and deactivating any
schedule of `l` preserves holds after the loop of `Refresh` over `l`. -/
theorem SchedulePool.foldl_refreshSchedule_store (env : RefreshEnv)
    (P : List Schedule → Prop) (l : List Schedule)
    (hdel : ∀ T, ∀ x ∈ l, P T → P (Store.DeleteSchedule T x.ProjectID x.ID))
    (hset : ∀ T, ∀ x ∈ l, P T → P (Store.SetScheduleActive T x.ProjectID x.ID false))
    (p : PoolState) (h : P p.store) :
    P (l.foldl (SchedulePool.refreshSchedule env) p).store := by
  induction l generalizing p with
  | nil => exact h
  | cons x l ih =>
    rw [List.foldl_cons]
    apply ih (fun T y hy => hdel T y (List.mem_cons_of_mem _ hy))
      (fun T y hy => hset T y (List.mem_cons_of_mem _ hy))
    rcases SchedulePool.refreshSchedule_store env p x with heq | heq | heq
    · rw [heq]; exact h
    · rw [heq]; exact hdel _ x (List.mem_cons_self _ _) h
    · rw [heq]; exact hset _ x (List.mem_cons_self _ _) h

/-- Membership in the table after `DeleteSchedule`. -/
theorem Store.mem_DeleteSchedule (T : List Schedule) (a b : Int) (y : Schedule) :
    y ∈ Store.DeleteSchedule T a b ↔ y ∈ T ∧ ¬ (y.ProjectID = a ∧ y.ID = b) := by
  simp only [Store.DeleteSchedule, List.mem_filter, Bool.not_eq_true', Bool.and_eq_false_iff,
    decide_eq_false_iff_not, not_and_or]

/-- Membership in the table after `SetScheduleActive`. -/
theorem Store.mem_SetScheduleActive (T : List Schedule) (a b : Int) (active : Bool)
    (y : Schedule) :
    y ∈ Store.SetScheduleActive T a b active ↔
      ∃ z ∈ T, (if z.ProjectID = a ∧ z.ID = b then { z with Active := active } else z) = y := by
  simp [Store.SetScheduleActive, List.mem_map]

/-- The loop body of `Refresh` on a `run_at` schedule that is active or has a
repository ref and whose run-at is not after now, when its store call succeeds: the schedule is
deleted when delete-after-run is set, else deactivated when it is active, else
nothing happens; no entry is added. -/
theorem SchedulePool.refreshSchedule_past (env : RefreshEnv) (p : PoolState) (s : Schedule)
    (runAt : Time) (hty : s.Type_ = "run_at")
    (hgate : s.Active = true ∨ s.RepositoryID ≠ none)
    (hrun : s.RunAt = some runAt) (hpast : ¬ env.now < runAt)
    (hdel : env.DeleteScheduleErr s.ProjectID s.ID = none)
    (hset : env.SetScheduleActiveErr s.ProjectID s.ID false = none) :
    SchedulePool.refreshSchedule env p s =
      if s.DeleteAfterRun = true then
        { p with
          store := Store.DeleteSchedule p.store s.ProjectID s.ID
          calls := p.calls ++ [Call.DeleteSchedule s.ProjectID s.ID] }
      else if s.Active = true then
        { p with
          store := Store.SetScheduleActive p.store s.ProjectID s.ID false
          calls := p.calls ++ [Call.SetScheduleActive s.ProjectID s.ID false] }
      else p := by
  have hg : ¬ (s.RepositoryID = none ∧ s.Active = false) := by
    rintro ⟨h1, h2⟩
    rcases hgate with h | h
    · rw [h2] at h
      exact Bool.false_ne_true h
    · exact h h1
  simp [SchedulePool.refreshSchedule, scheduleType_eq, ScheduleTypeRunAt, hg, hty, hrun,
    Time.After, hpast, hdel, hset]

/-- C4: for a schedule of the loaded table (in which project and id identify
a schedule) of type `run_at` that is active or has a repository ref and whose
run-at is not after the current time, when its store call succeeds: `Refresh`
leaves no cron entry for it; with delete-after-run set, `Refresh` calls
`DeleteSchedule` and the table no longer holds the schedule; otherwise
`Refresh` calls `SetScheduleActive(false)` if the schedule was active, and the
schedule is still in the table and inactive. -/
theorem SchedulePool.Refresh_past_run_at (env : RefreshEnv) (p : PoolState) (s : Schedule)
    (runAt : Time) (hget : env.GetSchedulesErr = none) (hs : s ∈ p.store)
    (hnd : (p.store.map (fun x => (x.ProjectID, x.ID))).Nodup)
    (hty : s.Type_ = "run_at") (hgate : s.Active = true ∨ s.RepositoryID ≠ none)
    (hrun : s.RunAt = some runAt) (hpast : ¬ env.now < runAt)
    (hdel : env.DeleteScheduleErr s.ProjectID s.ID = none)
    (hset : env.SetScheduleActiveErr s.ProjectID s.ID false = none) :
    (SchedulePool.Refresh env p).entries.countP
        (fun e => decide (e.Job = CreateScheduleRunner s.ProjectID s.ID)) = 0 ∧
    (s.DeleteAfterRun = true →
      Call.DeleteSchedule s.ProjectID s.ID ∈ (SchedulePool.Refresh env p).calls ∧
      ∀ y ∈ (SchedulePool.Refresh env p).store,
        ¬ (y.ProjectID = s.ProjectID ∧ y.ID = s.ID)) ∧
    (s.DeleteAfterRun = false →
      (s.Active = true →
        Call.SetScheduleActive s.ProjectID s.ID false ∈ (SchedulePool.Refresh env p).calls) ∧
      (∃ y ∈ (SchedulePool.Refresh env p).store, y.ProjectID = s.ProjectID ∧ y.ID = s.ID) ∧
      ∀ y ∈ (SchedulePool.Refresh env p).store,
        y.ProjectID = s.ProjectID ∧ y.ID = s.ID → y.Active = false) := by
  obtain ⟨l1, l2, hsplit, h1, h2⟩ := SchedulePool.split_at_schedule p.store s hs hnd
  have hk : ∀ l : List Schedule, (∀ x ∈ l, ¬ (x.ProjectID = s.ProjectID ∧ x.ID = s.ID)) →
      ∀ x ∈ l, CreateScheduleRunner x.ProjectID x.ID ≠ CreateScheduleRunner s.ProjectID s.ID := by
    intro l hl x hx heq
    simp only [CreateScheduleRunner, ScheduleRunner.mk.injEq] at heq
    exact hl x hx heq
  -- the state when the loop reaches `s`
  generalize hp0 : SchedulePool.clear { p with calls := p.calls ++ [Call.GetSchedules] } = p0
  have hp0s : p0.store = p.store := by rw [← hp0]; rfl
  have hp0e : p0.entries = [] := by rw [← hp0]; rfl
  generalize hq : l1.foldl (SchedulePool.refreshSchedule env) p0 = q
  have hrefresh : SchedulePool.Refresh env p =
      l2.foldl (SchedulePool.refreshSchedule env) (SchedulePool.refreshSchedule env q s) := by
    rw [← hq, ← hp0]
    simp [SchedulePool.Refresh, hget, hsplit, List.foldl_append]
  have hstep := SchedulePool.refreshSchedule_past env q s runAt hty hgate hrun hpast hdel hset
  -- preservation facts
  have keepNoKey : ∀ (l : List Schedule) (r : PoolState),
      (∀ y ∈ r.store, ¬ (y.ProjectID = s.ProjectID ∧ y.ID = s.ID)) →
      ∀ y ∈ (l.foldl (SchedulePool.refreshSchedule env) r).store,
        ¬ (y.ProjectID = s.ProjectID ∧ y.ID = s.ID) := by
    intro l r hr
    refine SchedulePool.foldl_refreshSchedule_store env
      (fun T => ∀ y ∈ T, ¬ (y.ProjectID = s.ProjectID ∧ y.ID = s.ID)) l ?_ ?_ r hr
    · intro T x _ hT y hy
      exact hT y ((Store.mem_DeleteSchedule T _ _ y).1 hy).1
    · intro T x _ hT y hy
      obtain ⟨z, hz, hzy⟩ := (Store.mem_SetScheduleActive T _ _ _ y).1 hy
      have := hT z hz
      split at hzy <;> subst hzy <;> exact this
  have keepInactive : ∀ (l : List Schedule) (r : PoolState),
      (∀ y ∈ r.store, y.ProjectID = s.ProjectID ∧ y.ID = s.ID → y.Active = false) →
      ∀ y ∈ (l.foldl (SchedulePool.refreshSchedule env) r).store,
        y.ProjectID = s.ProjectID ∧ y.ID = s.ID → y.Active = false := by
    intro l r hr
    refine SchedulePool.foldl_refreshSchedule_store env
      (fun T => ∀ y ∈ T, y.ProjectID = s.ProjectID ∧ y.ID = s.ID → y.Active = false) l ?_ ?_ r hr
    · intro T x _ hT y hy
      exact hT y ((Store.mem_DeleteSchedule T _ _ y).1 hy).1
    · intro T x _ hT y hy
      obtain ⟨z, hz, hzy⟩ := (Store.mem_SetScheduleActive T _ _ _ y).1 hy
      have := hT z hz
      split at hzy
      · subst hzy
        intro _
        rfl
      · subst hzy
        exact this
  have keepPresent : ∀ (l : List Schedule) (r : PoolState),
      (∀ x ∈ l, ¬ (x.ProjectID = s.ProjectID ∧ x.ID = s.ID)) →
      (∃ y ∈ r.store, y.ProjectID = s.ProjectID ∧ y.ID = s.ID) →
      ∃ y ∈ (l.foldl (SchedulePool.refreshSchedule env) r).store,
        y.ProjectID = s.ProjectID ∧ y.ID = s.ID := by
    intro l r hl hr
    refine SchedulePool.foldl_refreshSchedule_store env
      (fun T => ∃ y ∈ T, y.ProjectID = s.ProjectID ∧ y.ID = s.ID) l ?_ ?_ r hr
    · rintro T x hx ⟨y, hy, hkey⟩
      refine ⟨y, (Store.mem_DeleteSchedule T _ _ y).2 ⟨hy, ?_⟩, hkey⟩
      rintro ⟨ha, hb⟩
      exact hl x hx ⟨ha.symm.trans hkey.1, hb.symm.trans hkey.2⟩
    · rintro T x _ ⟨y, hy, hkey⟩
      by_cases hm : y.ProjectID = x.ProjectID ∧ y.ID = x.ID
      · exact ⟨{ y with Active := false },
          (Store.mem_SetScheduleActive T _ _ _ _).2 ⟨y, hy, by simp [hm]⟩, hkey⟩
      · exact ⟨y, (Store.mem_SetScheduleActive T _ _ _ _).2 ⟨y, hy, by simp [hm]⟩, hkey⟩
  have present_q : ∃ y ∈ q.store, y.ProjectID = s.ProjectID ∧ y.ID = s.ID := by
    rw [← hq]
    exact keepPresent l1 p0 h1 ⟨s, by rw [hp0s]; exact hs, rfl, rfl⟩
  have unique : ∀ y ∈ p.store, y.ProjectID = s.ProjectID ∧ y.ID = s.ID → y = s := by
    intro y hy hkey
    rw [hsplit] at hy
    rcases List.mem_append.1 hy with hy | hy
    · exact absurd hkey (h1 y hy)
    · rcases List.mem_cons.1 hy with hy | hy
      · exact hy
      · exact absurd hkey (h2 y hy)
  refine ⟨?_, ?_, ?_⟩
  · rw [hrefresh, SchedulePool.foldl_refreshSchedule_count_other env _ l2 _ (hk l2 h2)]
    have hent : (SchedulePool.refreshSchedule env q s).entries = q.entries := by
      rw [hstep]
      split
      · rfl
      · split <;> rfl
    rw [hent, ← hq, SchedulePool.foldl_refreshSchedule_count_other env _ l1 _ (hk l1 h1), hp0e]
    rfl
  · intro hd
    rw [hrefresh, hstep]
    simp only [hd, if_true]
    constructor
    · apply SchedulePool.foldl_refreshSchedule_calls
      simp
    · apply keepNoKey
      intro y hy
      exact ((Store.mem_DeleteSchedule _ _ _ y).1 hy).2
  · intro hd
    rw [hrefresh, hstep]
    simp only [hd, Bool.false_eq_true, if_false]
    refine ⟨?_, ?_, ?_⟩
    · intro ha
      simp only [ha, if_true]
      apply SchedulePool.foldl_refreshSchedule_calls
      simp
    · apply keepPresent l2 _ h2
      split
      · obtain ⟨y, hy, hkey⟩ := present_q
        exact ⟨{ y with Active := false },
          (Store.mem_SetScheduleActive _ _ _ _ _).2 ⟨y, hy, by simp [hkey]⟩, hkey⟩
      · exact present_q
    · apply keepInactive
      split
      · intro y hy hkey
        obtain ⟨z, hz, hzy⟩ := (Store.mem_SetScheduleActive _ _ _ _ y).1 hy
        split at hzy
        · subst hzy
          rfl
        · subst hzy
          rename_i hne
          exact absurd hkey hne
      · rename_i hna
        rw [← hq]
        apply keepInactive
        intro y hy hkey
        rw [hp0s] at hy
        rw [unique y hy hkey]
        simpa using hna

/-- C3 on `sampleTable` at time 50: one entry for the active cron schedule 1,
none for the inactive cron schedule 5. -/
theorem SchedulePool.Refresh_entry_iff_witness :
    (SchedulePool.Refresh sampleRefreshEnv samplePool).entries.countP
        (fun e => decide (e.Job = CreateScheduleRunner 1 1)) = 1 ∧
    (SchedulePool.Refresh sampleRefreshEnv samplePool).entries.countP
        (fun e => decide (e.Job = CreateScheduleRunner 1 5)) = 0 :=
  ⟨(SchedulePool.Refresh_entry_iff sampleRefreshEnv samplePool
      (sampleRow 1 "" "* * 1 * *" true false none) rfl (by decide) (by decide)).1
      ⟨Or.inr rfl, Or.inl ⟨rfl, by decide, rfl⟩⟩,
    (SchedulePool.Refresh_entry_iff sampleRefreshEnv samplePool
      (sampleRow 5 "" "* * 1 * *" false false none) rfl (by decide) (by decide)).2
      (by rintro ⟨h | h, -⟩
          · exact h rfl
          · exact Bool.false_ne_true h)⟩

/-- C4 on `sampleTable` at time 50: schedule 4, due at 10 with
delete-after-run, has no entry, is deleted and is gone from the table. -/
theorem SchedulePool.Refresh_past_run_at_witness :
    (SchedulePool.Refresh sampleRefreshEnv samplePool).entries.countP
        (fun e => decide (e.Job = CreateScheduleRunner 1 4)) = 0 ∧
    Call.DeleteSchedule 1 4 ∈ (SchedulePool.Refresh sampleRefreshEnv samplePool).calls ∧
    ∀ y ∈ (SchedulePool.Refresh sampleRefreshEnv samplePool).store,
      ¬ (y.ProjectID = 1 ∧ y.ID = 4) :=
  ⟨(SchedulePool.Refresh_past_run_at sampleRefreshEnv samplePool
      (sampleRow 4 "run_at" "" true true (some 10)) 10 rfl (by decide) (by decide) rfl
      (Or.inl rfl) rfl (by decide) rfl rfl).1,
    (SchedulePool.Refresh_past_run_at sampleRefreshEnv samplePool
      (sampleRow 4 "run_at" "" true true (some 10)) 10 rfl (by decide) (by decide) rfl
      (Or.inl rfl) rfl (by decide) rfl rfl).2.1 rfl⟩

/-! ## The hub -/

/-- The loop body of a broadcast on an open connection: it does not panic,
touches no other connection, leaves a connection of another user alone,
places the payload on a channel that can accept it, and closes and evicts a
connection whose send would block. -/
theorem hub.deliver_open (m : sendRequest) (h : hub) (conn : Nat)
    (hopen : (h.conns conn).send.closed = false) :
    ∃ h1, hub.deliver m h conn = .ok h1 ∧ ∀ c,
      (c ≠ conn ∨ (m.userID > 0 ∧ m.userID ≠ (h.conns c).userID) →
        h1.conns c = h.conns c ∧ (c ∈ h1.connections ↔ c ∈ h.connections)) ∧
      (c = conn → ¬ (m.userID > 0 ∧ m.userID ≠ (h.conns c).userID) →
        (h.conns c).send.canAccept = true →
        (h1.conns c).send.placed = (h.conns c).send.placed ++ [m.msg] ∧
        (h1.conns c).send.closed = false ∧
        (c ∈ h1.connections ↔ c ∈ h.connections)) ∧
      (c = conn → ¬ (m.userID > 0 ∧ m.userID ≠ (h.conns c).userID) →
        (h.conns c).send.canAccept = false →
        (h1.conns c).send.closed = true ∧
        (h1.conns c).send.placed = (h.conns c).send.placed ∧
        (h1.conns c).send.buf = (h.conns c).send.buf ∧
        c ∉ h1.connections) := by
  unfold hub.deliver
  by_cases hskip : m.userID > 0 ∧ m.userID ≠ (h.conns conn).userID
  · refine ⟨h, by simp [hskip], fun c => ⟨fun _ => ⟨rfl, Iff.rfl⟩, ?_, ?_⟩⟩
    · rintro rfl hns
      exact absurd hskip hns
    · rintro rfl hns
      exact absurd hskip hns
  · simp only [hskip, if_false]
    by_cases hrecv : 0 < (h.conns conn).send.recvq
    · refine ⟨_, by simp [Chan.trySend, hopen, hrecv]; rfl, fun c => ⟨?_, ?_, ?_⟩⟩
      · rintro (hne | hsk)
        · simp [Function.update_noteq hne]
        · by_cases hc : c = conn
          · subst hc
            exact absurd hsk hskip
          · simp [Function.update_noteq hc]
      · rintro rfl _ _
        simp
      · rintro rfl _ hcan
        simp [Chan.canAccept, hrecv] at hcan
    · by_cases hroom : (h.conns conn).send.buf.length < (h.conns conn).send.cap
      · refine ⟨_, by simp [Chan.trySend, hopen, hrecv, hroom]; rfl, fun c => ⟨?_, ?_, ?_⟩⟩
        · rintro (hne | hsk)
          · simp [Function.update_noteq hne]
          · by_cases hc : c = conn
            · subst hc
              exact absurd hsk hskip
            · simp [Function.update_noteq hc]
        · rintro rfl _ _
          simp
        · rintro rfl _ hcan
          simp [Chan.canAccept, hroom] at hcan
      · refine ⟨_, by simp [Chan.trySend, Chan.close, hopen, hrecv, hroom]; rfl,
          fun c => ⟨?_, ?_, ?_⟩⟩
        · rintro (hne | hsk)
          · simp [Function.update_noteq hne, List.mem_filter, hne]
          · by_cases hc : c = conn
            · subst hc
              exact absurd hsk hskip
            · simp [Function.update_noteq hc, List.mem_filter, hc]
        · rintro rfl _ hcan
          simp [Chan.canAccept, hrecv, hroom] at hcan
        · rintro rfl _ _
          simp [List.mem_filter]

/-- The loop of a broadcast over distinct keys whose connections are open: it
does not panic; a connection outside the keys or of another user is left as
it is, a targeted connection that can accept gets the payload, and a targeted
connection whose send would block is closed and evicted. -/
theorem hub.deliverAll_open (m : sendRequest) (keys : List Nat) (h : hub)
    (hnd : keys.Nodup) (hopen : ∀ c ∈ keys, (h.conns c).send.closed = false) :
    ∃ h1, hub.deliverAll m h keys = .ok h1 ∧ ∀ c,
      (c ∉ keys ∨ (m.userID > 0 ∧ m.userID ≠ (h.conns c).userID) →
        h1.conns c = h.conns c ∧ (c ∈ h1.connections ↔ c ∈ h.connections)) ∧
      (c ∈ keys → ¬ (m.userID > 0 ∧ m.userID ≠ (h.conns c).userID) →
        (h.conns c).send.canAccept = true →
        (h1.conns c).send.placed = (h.conns c).send.placed ++ [m.msg] ∧
        (h1.conns c).send.closed = false ∧
        (c ∈ h1.connections ↔ c ∈ h.connections)) ∧
      (c ∈ keys → ¬ (m.userID > 0 ∧ m.userID ≠ (h.conns c).userID) →
        (h.conns c).send.canAccept = false →
        (h1.conns c).send.closed = true ∧
        (h1.conns c).send.placed = (h.conns c).send.placed ∧
        (h1.conns c).send.buf = (h.conns c).send.buf ∧
        c ∉ h1.connections) := by
  induction keys generalizing h with
  | nil =>
    exact ⟨h, rfl, fun c => ⟨fun _ => ⟨rfl, Iff.rfl⟩, fun hc => absurd hc (List.not_mem_nil c),
      fun hc => absurd hc (List.not_mem_nil c)⟩⟩
  | cons conn keys ih =>
    obtain ⟨hconn, hnd'⟩ := List.nodup_cons.1 hnd
    obtain ⟨h1, hd, hspec⟩ := hub.deliver_open m h conn (hopen conn (List.mem_cons_self _ _))
    have hsame : ∀ c ∈ keys, h1.conns c = h.conns c ∧
        (c ∈ h1.connections ↔ c ∈ h.connections) := by
      intro c hc
      have hne : c ≠ conn := fun heq => hconn (heq ▸ hc)
      exact (hspec c).1 (Or.inl hne)
    have hopen1 : ∀ c ∈ keys, (h1.conns c).send.closed = false := by
      intro c hc
      rw [(hsame c hc).1]
      exact hopen c (List.mem_cons_of_mem _ hc)
    obtain ⟨h2, hall, hspec2⟩ := ih h1 hnd' hopen1
    refine ⟨h2, by simp [hub.deliverAll, hd, hall], fun c => ?_⟩
    by_cases hc : c = conn
    · subst hc
      obtain ⟨hkeep, -, -⟩ := hspec2 c
      obtain ⟨e1, e2⟩ := hkeep (Or.inl hconn)
      obtain ⟨s1, s2, s3⟩ := hspec c
      refine ⟨?_, ?_, ?_⟩
      · rintro (hout | hsk)
        · exact absurd (List.mem_cons_self _ _) hout
        · obtain ⟨a, b⟩ := s1 (Or.inr hsk)
          exact ⟨e1.trans a, e2.trans b⟩
      · intro _ hns hcan
        obtain ⟨a, b, d⟩ := s2 rfl hns hcan
        rw [e1]
        exact ⟨a, b, e2.trans d⟩
      · intro _ hns hcan
        obtain ⟨a, b, d, e⟩ := s3 rfl hns hcan
        rw [e1]
        exact ⟨a, b, d, fun hmem => e (e2.1 hmem)⟩
    · obtain ⟨e1, e2⟩ := (hspec c).1 (Or.inl hc)
      obtain ⟨t1, t2, t3⟩ := hspec2 c
      rw [e1] at t1 t2 t3
      refine ⟨?_, ?_, ?_⟩
      · rintro (hout | hsk)
        · have hout' : c ∉ keys := fun hmem => hout (List.mem_cons_of_mem _ hmem)
          obtain ⟨a, b⟩ := t1 (Or.inl hout')
          exact ⟨a, b.trans e2⟩
        · obtain ⟨a, b⟩ := t1 (Or.inr hsk)
          exact ⟨a, b.trans e2⟩
      · intro hmem hns hcan
        have hmem' : c ∈ keys := (List.mem_cons.1 hmem).resolve_left hc
        obtain ⟨a, b, d⟩ := t2 hmem' hns hcan
        exact ⟨a, b, d.trans e2⟩
      · intro hmem hns hcan
        have hmem' : c ∈ keys := (List.mem_cons.1 hmem).resolve_left hc
        exact t3 hmem' hns hcan

/-- C8: when the hub handles a broadcast carrying `(userID, msg)` and the
registered connections have open send channels, the step does not panic; a
registered connection whose send channel can accept a message has the payload
placed on that channel if and only if `userID <= 0` or `userID` equals the
user id of the connection; and every connection that is skipped is unchanged,
queued messages included, and keeps its membership in the connection set. -/
theorem hub.handle_broadcast_delivers (h : hub) (m : sendRequest)
    (hopen : ∀ c ∈ h.connections, (h.conns c).send.closed = false) :
    ∃ h1, h.handle (.broadcast m) = .ok h1 ∧
      (∀ c ∈ h.connections, (h.conns c).send.canAccept = true →
        ((h1.conns c).send.placed = (h.conns c).send.placed ++ [m.msg] ↔
          (m.userID ≤ 0 ∨ m.userID = (h.conns c).userID))) ∧
      (∀ c, ¬ (m.userID ≤ 0 ∨ m.userID = (h.conns c).userID) →
        h1.conns c = h.conns c ∧ (c ∈ h1.connections ↔ c ∈ h.connections)) := by
  obtain ⟨h1, hall, hspec⟩ := hub.deliverAll_open m h.connections.dedup h
    (List.nodup_dedup _) (fun c hc => hopen c (List.mem_dedup.1 hc))
  have hskip : ∀ c, ¬ (m.userID ≤ 0 ∨ m.userID = (h.conns c).userID) ↔
      (m.userID > 0 ∧ m.userID ≠ (h.conns c).userID) := by
    intro c
    rw [not_or, not_le]
  refine ⟨h1, hall, ?_, ?_⟩
  · intro c hc hcan
    by_cases ht : m.userID ≤ 0 ∨ m.userID = (h.conns c).userID
    · have hns : ¬ (m.userID > 0 ∧ m.userID ≠ (h.conns c).userID) :=
        fun hsk => ((hskip c).2 hsk) ht
      exact iff_of_true ((hspec c).2.1 (List.mem_dedup.2 hc) hns hcan).1 ht
    · have hsame := ((hspec c).1 (Or.inr ((hskip c).1 ht))).1
      refine iff_of_false ?_ ht
      rw [hsame]
      intro heq
      have := congrArg List.length heq
      simp at this
  · intro c ht
    exact (hspec c).1 (Or.inr ((hskip c).1 ht))

/-- C8 on `sampleHub` with a broadcast to user 7: connection 0 (user 7, room)
gets the payload, connection 1 (user 8) is unchanged and stays registered. -/
theorem hub.handle_broadcast_delivers_witness :
    ∃ h1, sampleHub.handle (.broadcast ⟨7, [42]⟩) = .ok h1 ∧
      (h1.conns 0).send.placed = [[42]] ∧
      h1.conns 1 = sampleHub.conns 1 ∧ 1 ∈ h1.connections := by
  obtain ⟨h1, hok, hget, hskip⟩ :=
    hub.handle_broadcast_delivers sampleHub ⟨7, [42]⟩ (by decide)
  exact ⟨h1, hok, ((hget 0 (by decide) (by decide)).2 (by decide)),
    (hskip 1 (by decide)).1, (hskip 1 (by decide)).2.2 (by decide)⟩

/-- C9: when the hub handles a broadcast and the registered connections have
open send channels, the step returns without blocking or panicking; every
targeted registered connection whose send would block has its send channel
closed and is removed from the connection set; every other registered
connection stays registered, and no connection is added. -/
theorem hub.handle_broadcast_evicts (h : hub) (m : sendRequest)
    (hopen : ∀ c ∈ h.connections, (h.conns c).send.closed = false) :
    ∃ h1, h.handle (.broadcast m) = .ok h1 ∧
      (∀ c ∈ h.connections, (m.userID ≤ 0 ∨ m.userID = (h.conns c).userID) →
        (h.conns c).send.canAccept = false →
        (h1.conns c).send.closed = true ∧ c ∉ h1.connections) ∧
      (∀ c ∈ h.connections,
        ¬ ((m.userID ≤ 0 ∨ m.userID = (h.conns c).userID) ∧
          (h.conns c).send.canAccept = false) →
        c ∈ h1.connections) ∧
      (∀ c ∈ h1.connections, c ∈ h.connections) := by
  obtain ⟨h1, hall, hspec⟩ := hub.deliverAll_open m h.connections.dedup h
    (List.nodup_dedup _) (fun c hc => hopen c (List.mem_dedup.1 hc))
  have hskip : ∀ c, ¬ (m.userID ≤ 0 ∨ m.userID = (h.conns c).userID) ↔
      (m.userID > 0 ∧ m.userID ≠ (h.conns c).userID) := by
    intro c
    rw [not_or, not_le]
  have hns : ∀ c, (m.userID ≤ 0 ∨ m.userID = (h.conns c).userID) →
      ¬ (m.userID > 0 ∧ m.userID ≠ (h.conns c).userID) :=
    fun c ht hsk => ((hskip c).2 hsk) ht
  refine ⟨h1, hall, ?_, ?_, ?_⟩
  · intro c hc ht hfull
    obtain ⟨a, -, -, d⟩ := (hspec c).2.2 (List.mem_dedup.2 hc) (hns c ht) hfull
    exact ⟨a, d⟩
  · intro c hc hnot
    by_cases ht : m.userID ≤ 0 ∨ m.userID = (h.conns c).userID
    · have hcan : (h.conns c).send.canAccept = true := by
        by_contra hcon
        exact hnot ⟨ht, by simpa using hcon⟩
      exact ((hspec c).2.1 (List.mem_dedup.2 hc) (hns c ht) hcan).2.2.2 hc
    · exact ((hspec c).1 (Or.inr ((hskip c).1 ht))).2.2 hc
  · intro c hc
    by_cases hmem : c ∈ h.connections.dedup
    · exact List.mem_dedup.1 hmem
    · exact ((hspec c).1 (Or.inl hmem)).2.1 hc

/-- C9 on `sampleHub` with a broadcast to user 7: connection 2 (user 7, full
buffer) is closed and evicted, connections 0 and 1 stay registered. -/
theorem hub.handle_broadcast_evicts_witness :
    ∃ h1, sampleHub.handle (.broadcast ⟨7, [42]⟩) = .ok h1 ∧
      (h1.conns 2).send.closed = true ∧ 2 ∉ h1.connections ∧
      0 ∈ h1.connections ∧ 1 ∈ h1.connections := by
  obtain ⟨h1, hok, hevict, hkeep, -⟩ :=
    hub.handle_broadcast_evicts sampleHub ⟨7, [42]⟩ (by decide)
  exact ⟨h1, hok, (hevict 2 (by decide) (by decide) (by decide)).1,
    (hevict 2 (by decide) (by decide) (by decide)).2,
    hkeep 0 (by decide) (by decide), hkeep 1 (by decide) (by decide)⟩

/-- Whatever state the loop body of a broadcast ends in, panic or not: user
ids are untouched, the connections other than the visited one are untouched,
and the visited one has nothing new placed on its channel or, when the
broadcast is addressed to its user or to all, the payload. -/
theorem hub.deliver_placed (m : sendRequest) (h : hub) (conn c : Nat) :
    ((hub.after (hub.deliver m h conn)).conns c).userID = (h.conns c).userID ∧
    (c ≠ conn → (hub.after (hub.deliver m h conn)).conns c = h.conns c) ∧
    (((hub.after (hub.deliver m h conn)).conns c).send.placed = (h.conns c).send.placed ∨
      ((m.userID ≤ 0 ∨ m.userID = (h.conns c).userID) ∧
        ((hub.after (hub.deliver m h conn)).conns c).send.placed =
          (h.conns c).send.placed ++ [m.msg])) := by
  unfold hub.deliver
  by_cases hskip : m.userID > 0 ∧ m.userID ≠ (h.conns conn).userID
  · simp [hskip, hub.after]
  · have htarget : m.userID ≤ 0 ∨ m.userID = (h.conns conn).userID := by
      by_contra hcon
      rw [not_or, not_le] at hcon
      exact hskip hcon
    simp only [hskip, if_false]
    by_cases hc : c = conn
    · subst hc
      unfold Chan.trySend Chan.close
      by_cases hclosed : (h.conns c).send.closed = true
      · simp [hclosed, hub.after]
      · by_cases hrecv : 0 < (h.conns c).send.recvq
        · simp [hclosed, hrecv, hub.after, htarget]
        · by_cases hroom : (h.conns c).send.buf.length < (h.conns c).send.cap
          · simp [hclosed, hrecv, hroom, hub.after, htarget]
          · simp [hclosed, hrecv, hroom, hub.after]
    · unfold Chan.trySend Chan.close
      by_cases hclosed : (h.conns conn).send.closed = true
      · simp [hclosed, hub.after]
      · by_cases hrecv : 0 < (h.conns conn).send.recvq
        · simp [hclosed, hrecv, hub.after, Function.update_noteq hc]
        · by_cases hroom : (h.conns conn).send.buf.length < (h.conns conn).send.cap
          · simp [hclosed, hrecv, hroom, hub.after, Function.update_noteq hc]
          · simp [hclosed, hrecv, hroom, hub.after, Function.update_noteq hc]

/-- Whatever state the loop of a broadcast over distinct keys ends in, panic
or not: every connection keeps its user id and has nothing new placed on its
channel or, when the broadcast is addressed to its user or to all, the
payload, once. -/
theorem hub.deliverAll_placed (m : sendRequest) (keys : List Nat) (h : hub) (hnd : keys.Nodup)
    (c : Nat) :
    ((hub.after (hub.deliverAll m h keys)).conns c).userID = (h.conns c).userID ∧
    (c ∉ keys → (hub.after (hub.deliverAll m h keys)).conns c = h.conns c) ∧
    (((hub.after (hub.deliverAll m h keys)).conns c).send.placed = (h.conns c).send.placed ∨
      ((m.userID ≤ 0 ∨ m.userID = (h.conns c).userID) ∧
        ((hub.after (hub.deliverAll m h keys)).conns c).send.placed =
          (h.conns c).send.placed ++ [m.msg])) := by
  induction keys generalizing h with
  | nil => simp [hub.deliverAll, hub.after]
  | cons conn keys ih =>
    obtain ⟨hconn, hnd'⟩ := List.nodup_cons.1 hnd
    obtain ⟨s1, s2, s3⟩ := hub.deliver_placed m h conn c
    unfold hub.deliverAll
    cases hd : hub.deliver m h conn with
    | error h1 =>
      rw [hd] at s1 s2 s3
      simp only [hub.after] at s1 s2 s3 ⊢
      exact ⟨s1, fun hout => s2 (fun heq => hout (heq ▸ List.mem_cons_self _ _)), s3⟩
    | ok h1 =>
      rw [hd] at s1 s2 s3
      simp only [hub.after] at s1 s2 s3
      obtain ⟨t1, t2, t3⟩ := ih h1 hnd'
      simp only
      refine ⟨t1.trans s1, ?_, ?_⟩
      · intro hout
        rw [t2 (fun hmem => hout (List.mem_cons_of_mem _ hmem))]
        exact s2 (fun heq => hout (heq ▸ List.mem_cons_self _ _))
      · by_cases hc : c = conn
        · subst hc
          rw [t2 hconn]
          exact s3
        · rw [s2 hc] at t3
          exact t3

/-- Whatever state one step of the hub ends in, panic or not: every connection
keeps its user id and has nothing new placed on its channel, or the step was a
broadcast addressed to its user or to all and its payload was placed, once. -/
theorem hub.handle_placed (h : hub) (e : HubEvent) (c : Nat) :
    ((hub.after (h.handle e)).conns c).userID = (h.conns c).userID ∧
    (((hub.after (h.handle e)).conns c).send.placed = (h.conns c).send.placed ∨
      ∃ m, e = .broadcast m ∧ (m.userID ≤ 0 ∨ m.userID = (h.conns c).userID) ∧
        ((hub.after (h.handle e)).conns c).send.placed = (h.conns c).send.placed ++ [m.msg]) := by
  cases e with
  | register k => simp [hub.handle, hub.after]
  | unregister k =>
    unfold hub.handle
    by_cases hk : k ∈ h.connections
    · by_cases hclosed : (h.conns k).send.closed = true
      · simp [hk, Chan.close, hclosed, hub.after]
      · by_cases hc : c = k
        · subst hc
          simp [hk, Chan.close, hclosed, hub.after]
        · simp [hk, Chan.close, hclosed, hub.after, Function.update_noteq hc]
    · simp [hk, hub.after]
  | broadcast m =>
    obtain ⟨s1, -, s3⟩ := hub.deliverAll_placed m h.connections.dedup h (List.nodup_dedup _) c
    refine ⟨s1, ?_⟩
    rcases s3 with s3 | ⟨ht, s3⟩
    · exact Or.inl s3
    · exact Or.inr ⟨m, rfl, ht, s3⟩

/-- C10: for every sequence of register, unregister and broadcast events
handled by the hub, interleaved in any way with receives from the send
channels, and for every connection, the payloads placed on the send channel
of the connection during the run are, in order, a subsequence of the payloads
of the broadcasts addressed to its user or to all users, in the order the
hub received them. -/
theorem hub.runEvents_placed_sublist (h : hub) (events : List WorldEvent) (c : Nat) :
    ((h.runEvents events).conns c).userID = (h.conns c).userID ∧
    ∃ placed : List Payload,
      ((h.runEvents events).conns c).send.placed = (h.conns c).send.placed ++ placed ∧
      placed.Sublist (addressedTo (h.conns c).userID events) := by
  induction events generalizing h with
  | nil => exact ⟨rfl, [], by simp [hub.runEvents], List.Sublist.refl _⟩
  | cons ev rest ih =>
    cases ev with
    | receive k =>
      obtain ⟨u, placed, hp, hsub⟩ := ih (h.receive k)
      have hcu : ((h.receive k).conns c).userID = (h.conns c).userID := by
        unfold hub.receive
        by_cases hc : c = k
        · subst hc; simp
        · simp [Function.update_noteq hc]
      have hcp : ((h.receive k).conns c).send.placed = (h.conns c).send.placed := by
        unfold hub.receive
        by_cases hc : c = k
        · subst hc
          simp only [Function.update_same]
          unfold Chan.recv
          split
          · rfl
          · split <;> rfl
        · simp [Function.update_noteq hc]
      rw [hcu] at u hsub
      rw [hcp] at hp
      exact ⟨by simpa [hub.runEvents] using u, placed, by simpa [hub.runEvents] using hp,
        by simpa [addressedTo] using hsub⟩
    | hub e =>
      obtain ⟨s1, s2⟩ := hub.handle_placed h e c
      cases hh : h.handle e with
      | error h1 =>
        rw [hh] at s1 s2
        simp only [hub.after] at s1 s2
        have hrun : h.runEvents (.hub e :: rest) = h1 := by simp [hub.runEvents, hh]
        rw [hrun]
        refine ⟨s1, ?_⟩
        rcases s2 with s2 | ⟨m, rfl, ht, s2⟩
        · exact ⟨[], by simpa using s2, List.nil_sublist _⟩
        · refine ⟨[m.msg], s2, ?_⟩
          simp [addressedTo, ht]
      | ok h1 =>
        rw [hh] at s1 s2
        simp only [hub.after] at s1 s2
        have hrun : h.runEvents (.hub e :: rest) = h1.runEvents rest := by
          simp [hub.runEvents, hh]
        rw [hrun]
        obtain ⟨u, placed, hp, hsub⟩ := ih h1
        rw [s1] at u hsub
        refine ⟨u, ?_⟩
        rcases s2 with s2 | ⟨m, rfl, ht, s2⟩
        · refine ⟨placed, by rw [hp, s2], ?_⟩
          cases e with
          | register k => simpa [addressedTo] using hsub
          | unregister k => simpa [addressedTo] using hsub
          | broadcast m =>
            simp only [addressedTo]
            split
            · exact List.Sublist.cons _ hsub
            · exact hsub
        · refine ⟨m.msg :: placed, by rw [hp, s2]; simp, ?_⟩
          simp only [addressedTo, ht, if_true]
          exact List.Sublist.cons₂ _ hsub

/-! ## `TerraformApp` -/

/-- The plan stage gets the `plan` entry, or else nothing when there is an
`apply` entry, or else the `default` entry; the apply stage gets the `apply`
entry or else the `default` entry. -/
theorem TerraformApp.stageArgs_eq (CliArgs : GoMap (List String)) :
    (TerraformApp.stageArgs CliArgs).1 =
      (match CliArgs.get? "plan" with
        | some pArgs => pArgs
        | none =>
          match CliArgs.get? "apply" with
          | some _ => []
          | none => (CliArgs.get? "default").getD []) ∧
    (TerraformApp.stageArgs CliArgs).2 =
      (match CliArgs.get? "apply" with
        | some aArgs => aArgs
        | none => (CliArgs.get? "default").getD []) := by
  unfold TerraformApp.stageArgs
  cases CliArgs.get? "plan" <;> cases CliArgs.get? "apply" <;>
    cases CliArgs.get? "default" <;> simp

/-- C14 fails on the code: with the stage map `apply: [-a], default: [-d]`
(no `plan` entry) the plan stage gets no arguments, not the `default` entry,
because the `apply` branch of the first chain shadows the `default` fallback;
the apply stage gets `[-a]`. -/
theorem TerraformApp.stageArgs_plan_misses_default :
    (GoMap.mk [("apply", ["-a"]), ("default", ["-d"])]).get? "plan" = none ∧
    (GoMap.mk [("apply", ["-a"]), ("default", ["-d"])]).get? "default" = some ["-d"] ∧
    TerraformApp.stageArgs ⟨[("apply", ["-a"]), ("default", ["-d"])]⟩ = ([], ["-a"]) := by
  decide

/-- The waiting loop leaves with the first decided status, given fuel for the
passes up to it. -/
theorem awaitDecision_first (observed : Nat → TaskStatus) (n : Nat) :
    ∀ (k fuel : Nat), (∀ j < n, (observed (k + j)).decided = false) →
      (observed (k + n)).decided = true → n < fuel →
      awaitDecision observed fuel k = some (observed (k + n)) := by
  induction n with
  | zero =>
    intro k fuel _ hat hfuel
    obtain ⟨f, rfl⟩ : ∃ f, fuel = f + 1 := ⟨fuel - 1, by omega⟩
    simp only [Nat.add_zero] at hat
    simp [awaitDecision, hat]
  | succ n ih =>
    intro k fuel hbefore hat hfuel
    obtain ⟨f, rfl⟩ : ∃ f, fuel = f + 1 := ⟨fuel - 1, by omega⟩
    have h0 : (observed k).decided = false := by simpa using hbefore 0 (by omega)
    have hrest := ih (k + 1) f
      (fun j hj => by
        have := hbefore (j + 1) (by omega)
        rwa [show k + (j + 1) = k + 1 + j by omega] at this)
      (by rwa [show k + 1 + n = k + (n + 1) by omega])
      (by omega)
    simp only [awaitDecision, h0, Bool.false_eq_true, if_false]
    rw [hrest, show k + 1 + n = k + (n + 1) by omega]

/-- C15: after a successful plan, `TerraformApp.Run` (1) sets status success
and makes no `Apply` call if `No changes.` was logged or the task is
plan-only; (2) otherwise calls `Apply` if the template auto-approves, or
allows auto-approve and the task requests it; (3) otherwise sets status
waiting_confirmation and waits, and with the first decided status that it
observes it calls `Apply` when the status is confirmed, sets status fail
without `Apply` when it is rejected, and does neither when the task has
finished. In (3) the run returns once the loop has fuel for the passes up to
the decision. -/
theorem TerraformApp.Run_after_plan (t : TerraformApp) (w : AppWorld)
    (args : LocalAppRunningArgs) (hplan : w.planErr = none) :
    (((t.PlanHasNoChanges || w.noChangesLogged) = true ∨ args.TaskParams.Plan = true) →
      ∀ fuel, t.Run w args fuel =
        some ([.Plan (TerraformApp.stageArgs args.CliArgs).1,
          .SetStatus .TaskSuccessStatus], none)) ∧
    (¬ ((t.PlanHasNoChanges || w.noChangesLogged) = true ∨ args.TaskParams.Plan = true) →
      (args.TemplateParams.AutoApprove = true ∨
        (args.TemplateParams.AllowAutoApprove = true ∧ args.TaskParams.AutoApprove = true)) →
      ∀ fuel, t.Run w args fuel =
        some ([.Plan (TerraformApp.stageArgs args.CliArgs).1, .SetStatus .TaskRunningStatus,
          .Apply (TerraformApp.stageArgs args.CliArgs).2], w.applyErr)) ∧
    (¬ ((t.PlanHasNoChanges || w.noChangesLogged) = true ∨ args.TaskParams.Plan = true) →
      ¬ (args.TemplateParams.AutoApprove = true ∨
        (args.TemplateParams.AllowAutoApprove = true ∧ args.TaskParams.AutoApprove = true)) →
      ∀ n fuel, (∀ j < n, (w.observed j).decided = false) →
        (w.observed n).decided = true → n < fuel →
        (w.observed n = .TaskConfirmed →
          t.Run w args fuel =
            some ([.Plan (TerraformApp.stageArgs args.CliArgs).1,
              .SetStatus .TaskWaitingConfirmation, .SetStatus .TaskRunningStatus,
              .Apply (TerraformApp.stageArgs args.CliArgs).2], w.applyErr)) ∧
        (w.observed n = .TaskRejected →
          t.Run w args fuel =
            some ([.Plan (TerraformApp.stageArgs args.CliArgs).1,
              .SetStatus .TaskWaitingConfirmation, .SetStatus .TaskFailStatus], none)) ∧
        (w.observed n ≠ .TaskConfirmed → w.observed n ≠ .TaskRejected →
          t.Run w args fuel =
            some ([.Plan (TerraformApp.stageArgs args.CliArgs).1,
              .SetStatus .TaskWaitingConfirmation], none))) := by
  refine ⟨?_, ?_, ?_⟩
  · intro h fuel
    have h' : ((t.PlanHasNoChanges || w.noChangesLogged) || args.TaskParams.Plan) = true := by
      rcases h with h | h <;> simp [h]
    simp only [TerraformApp.Run, hplan, h', if_true]
  · intro h1 h2 fuel
    have h1' : ((t.PlanHasNoChanges || w.noChangesLogged) || args.TaskParams.Plan) = false := by
      cases ha : t.PlanHasNoChanges <;> cases hb : w.noChangesLogged <;>
        cases hc : args.TaskParams.Plan <;> simp_all
    have h2' : (args.TemplateParams.AutoApprove ||
        args.TemplateParams.AllowAutoApprove && args.TaskParams.AutoApprove) = true := by
      rcases h2 with h | ⟨ha, hb⟩ <;> simp [*]
    simp only [TerraformApp.Run, hplan, h1', h2', Bool.false_eq_true, if_false, if_true]
  · intro h1 h2 n fuel hbefore hat hfuel
    have h1' : ((t.PlanHasNoChanges || w.noChangesLogged) || args.TaskParams.Plan) = false := by
      cases ha : t.PlanHasNoChanges <;> cases hb : w.noChangesLogged <;>
        cases hc : args.TaskParams.Plan <;> simp_all
    have h2' : (args.TemplateParams.AutoApprove ||
        args.TemplateParams.AllowAutoApprove && args.TaskParams.AutoApprove) = false := by
      cases ha : args.TemplateParams.AutoApprove <;>
        cases hb : args.TemplateParams.AllowAutoApprove <;>
        cases hc : args.TaskParams.AutoApprove <;> simp_all
    have hwait := awaitDecision_first w.observed n 0 fuel
      (fun j hj => by simpa using hbefore j hj) (by simpa using hat) hfuel
    simp only [Nat.zero_add] at hwait
    refine ⟨?_, ?_, ?_⟩
    · intro hs
      simp only [TerraformApp.Run, hplan, h1', h2', Bool.false_eq_true, if_false, hwait, hs]
    · intro hs
      simp only [TerraformApp.Run, hplan, h1', h2', Bool.false_eq_true, if_false, hwait, hs]
    · intro hc hr
      simp only [TerraformApp.Run, hplan, h1', h2', Bool.false_eq_true, if_false, hwait]

/-- C15 in `sampleWorld`, where the third read sees the decision: confirmed
leads to `Apply`, rejected to status fail, stopped to neither. -/
theorem TerraformApp.Run_after_plan_witness :
    TerraformApp.Run ⟨⟨false, .TaskRunningStatus⟩, false⟩ (sampleWorld .TaskConfirmed)
        sampleRunningArgs 3 =
      some ([.Plan ["-d"], .SetStatus .TaskWaitingConfirmation, .SetStatus .TaskRunningStatus,
        .Apply ["-d"]], none) ∧
    TerraformApp.Run ⟨⟨false, .TaskRunningStatus⟩, false⟩ (sampleWorld .TaskRejected)
        sampleRunningArgs 3 =
      some ([.Plan ["-d"], .SetStatus .TaskWaitingConfirmation, .SetStatus .TaskFailStatus],
        none) ∧
    TerraformApp.Run ⟨⟨false, .TaskRunningStatus⟩, false⟩ (sampleWorld .TaskStoppedStatus)
        sampleRunningArgs 3 =
      some ([.Plan ["-d"], .SetStatus .TaskWaitingConfirmation], none) :=
  ⟨((TerraformApp.Run_after_plan ⟨⟨false, .TaskRunningStatus⟩, false⟩
      (sampleWorld .TaskConfirmed) sampleRunningArgs rfl).2.2 (by decide) (by decide) 2 3
      (by decide) (by decide) (by decide)).1 rfl,
    ((TerraformApp.Run_after_plan ⟨⟨false, .TaskRunningStatus⟩, false⟩
      (sampleWorld .TaskRejected) sampleRunningArgs rfl).2.2 (by decide) (by decide) 2 3
      (by decide) (by decide) (by decide)).2.1 rfl,
    ((TerraformApp.Run_after_plan ⟨⟨false, .TaskRunningStatus⟩, false⟩
      (sampleWorld .TaskStoppedStatus) sampleRunningArgs rfl).2.2 (by decide) (by decide) 2 3
      (by decide) (by decide) (by decide)).2.2 (by decide) (by decide)⟩

/-- C16 fails on the code as stated: a reader that is at end-of-file, as it
is once the log listener of `init` has seen a line with `Error:`, and enters
`Read` while its status is waiting_confirmation, returns 0 bytes and
end-of-file although the status it would observe is confirmed: it leaves the
4 bytes of the buffer alone and does not answer `yes\n`. -/
theorem terraformReader.Read_at_eof_no_answer :
    ∃ res, terraformReader.Read ⟨true, .TaskWaitingConfirmation⟩ (fun _ => .TaskConfirmed)
        [0, 0, 0, 0] 1 = some res ∧
      res.n = 0 ∧ res.err = some "EOF" ∧ res.p = [0, 0, 0, 0] ∧ res.n ≠ 4 ∧ res.p ≠ yesLine :=
  ⟨_, rfl, rfl, rfl, rfl, by decide, by decide⟩

/-- C16, amended: for a `terraformReader` that is not at end-of-file and
enters `Read` while its status is waiting_confirmation, and a buffer of at
least 4 bytes:
once the loop has fuel for the passes up to the first decided status it
observes, `Read` returns; it writes `yes\n` and returns 4 when that status is
confirmed, writes `no\n` and returns 3 when it is rejected, and writes `\n`
and returns 1 when the task finished otherwise; and every later `Read` on the
reader returns 0 bytes with end-of-file and leaves the buffer alone. -/
theorem terraformReader.Read_answers (r : terraformReader) (observed : Nat → TaskStatus)
    (p : List UInt8) (n fuel : Nat) (heof : r.EOF = false)
    (hstatus : r.status = .TaskWaitingConfirmation) (hp : 4 ≤ p.length)
    (hbefore : ∀ j < n, (observed j).decided = false)
    (hat : (observed n).decided = true) (hfuel : n < fuel) :
    ∃ res, r.Read observed p fuel = some res ∧ res.err = none ∧
      (observed n = .TaskConfirmed → res.n = 4 ∧ res.p = yesLine ++ p.drop 4) ∧
      (observed n = .TaskRejected → res.n = 3 ∧ res.p = noLine ++ p.drop 3) ∧
      (observed n ≠ .TaskConfirmed → observed n ≠ .TaskRejected →
        res.n = 1 ∧ res.p = emptyLine ++ p.drop 1) ∧
      ∀ (observed1 : Nat → TaskStatus) (p1 : List UInt8) (fuel1 : Nat),
        ∃ res1, res.reader.Read observed1 p1 fuel1 = some res1 ∧
          res1.n = 0 ∧ res1.err = some "EOF" ∧ res1.p = p1 ∧ res1.reader = res.reader := by
  have hwait := awaitDecision_first observed n 0 fuel
    (fun j hj => by simpa using hbefore j hj) (by simpa using hat) hfuel
  simp only [Nat.zero_add] at hwait
  have hcopy : ∀ src : List UInt8, src.length ≤ 4 → copyBytes p src = src ++ p.drop src.length := by
    intro src hsrc
    unfold copyBytes
    rw [List.take_of_length_le (by omega)]
  have hlater : ∀ status : TaskStatus, ∀ (observed1 : Nat → TaskStatus) (p1 : List UInt8)
      (fuel1 : Nat), ∃ res1,
        terraformReader.Read ⟨true, status⟩ observed1 p1 fuel1 = some res1 ∧
          res1.n = 0 ∧ res1.err = some "EOF" ∧ res1.p = p1 ∧ res1.reader = ⟨true, status⟩ := by
    intro status observed1 p1 fuel1
    exact ⟨{ n := 0, err := some "EOF", p := p1, reader := ⟨true, status⟩, calls := [] },
      by simp [terraformReader.Read], rfl, rfl, rfl, rfl⟩
  cases hst : observed n with
  | TaskConfirmed =>
    rw [hst] at hwait
    refine ⟨_, by simp [terraformReader.Read, heof, hstatus, hwait]; rfl, rfl, ?_, ?_, ?_, ?_⟩
    · intro _
      exact ⟨rfl, hcopy yesLine (by decide)⟩
    · intro h; cases h
    · intro h; exact absurd rfl h
    · exact hlater _
  | TaskRejected =>
    rw [hst] at hwait
    refine ⟨_, by simp [terraformReader.Read, heof, hstatus, hwait]; rfl, rfl, ?_, ?_, ?_, ?_⟩
    · intro h; cases h
    · intro _
      exact ⟨rfl, hcopy noLine (by decide)⟩
    · intro _ h; exact absurd rfl h
    · exact hlater _
  | _ =>
    rw [hst] at hwait
    refine ⟨_, by simp [terraformReader.Read, heof, hstatus, hwait]; rfl, rfl, ?_, ?_, ?_, ?_⟩
    · intro h; cases h
    · intro h; cases h
    · intro _ _
      exact ⟨rfl, hcopy emptyLine (by decide)⟩
    · exact hlater _

/-- C16, amended, for a reader that sees waiting_confirmation twice and then
confirmed, with a buffer of six bytes: it answers `yes\n`, and the next `Read` is at
end-of-file. -/
theorem terraformReader.Read_answers_witness :
    ∃ res, terraformReader.Read ⟨false, .TaskWaitingConfirmation⟩
        (sampleWorld .TaskConfirmed).observed [1, 2, 3, 4, 5, 6] 3 = some res ∧
      res.n = 4 ∧ res.p = [121, 101, 115, 10, 5, 6] ∧
      ∃ res1, res.reader.Read (sampleWorld .TaskConfirmed).observed [1, 2, 3, 4, 5, 6] 0 =
        some res1 ∧ res1.n = 0 ∧ res1.err = some "EOF" := by
  obtain ⟨res, hres, -, hyes, -, -, hlater⟩ :=
    terraformReader.Read_answers ⟨false, .TaskWaitingConfirmation⟩
      (sampleWorld .TaskConfirmed).observed [1, 2, 3, 4, 5, 6] 2 3 rfl rfl (by decide)
      (by decide) (by decide) (by decide)
  obtain ⟨res1, h1, h2, h3, -, -⟩ := hlater (sampleWorld .TaskConfirmed).observed [1, 2, 3, 4, 5, 6] 0
  exact ⟨res, hres, (hyes rfl).1, (hyes rfl).2, res1, h1, h2, h3⟩

/-! ## Go maps -/

/-- Removing the entries of a key does not change what another key finds. -/
theorem GoMap.find_filter_ne {V : Type} (s k : String) (h : s ≠ k) (l : List (String × V)) :
    GoMap.find s (l.filter (fun e => !decide (e.1 = k))) = GoMap.find s l := by
  induction l with
  | nil => rfl
  | cons e rest ih =>
    by_cases hk : e.1 = k
    · have hs : e.1 ≠ s := fun heq => h (heq.symm.trans hk)
      rw [List.filter_cons_of_neg (by simp [hk]), ih]
      simp [GoMap.find, hs]
    · rw [List.filter_cons_of_pos (by simp [hk])]
      simp only [GoMap.find, ih]

/-- Reading a map after an assignment. -/
theorem GoMap.get?_set {V : Type} (m : GoMap V) (k : String) (v : V) (s : String) :
    (m.set k v).get? s = if s = k then some v else m.get? s := by
  unfold GoMap.get? GoMap.set
  by_cases h : s = k
  · subst h
    simp [GoMap.find]
  · have hk : ¬ k = s := fun heq => h heq.symm
    simp only [GoMap.find, hk, h, if_false]
    exact GoMap.find_filter_ne s k h m.entries

/-- Finding a key in two lists of entries one after the other. -/
theorem GoMap.find_append {V : Type} (s : String) (l1 l2 : List (String × V)) :
    GoMap.find s (l1 ++ l2) = (GoMap.find s l1).or (GoMap.find s l2) := by
  induction l1 with
  | nil => simp [GoMap.find]
  | cons e rest ih =>
    by_cases h : e.1 = s
    · simp [GoMap.find, h]
    · simp [GoMap.find, h, ih]

/-- A key finds something exactly when it is among the keys. -/
theorem GoMap.find_eq_none_iff {V : Type} (s : String) (l : List (String × V)) :
    GoMap.find s l = none ↔ s ∉ l.map Prod.fst := by
  induction l with
  | nil => simp [GoMap.find]
  | cons e rest ih =>
    by_cases h : e.1 = s
    · simp [GoMap.find, h]
    · have h' : ¬ s = e.1 := fun heq => h heq.symm
      simp [GoMap.find, h, h', ih]

/-- With distinct keys, a key finds a value exactly when the entry is in the
list. -/
theorem GoMap.find_eq_some_iff {V : Type} (s : String) (v : V) (l : List (String × V))
    (hnd : (l.map Prod.fst).Nodup) :
    GoMap.find s l = some v ↔ (s, v) ∈ l := by
  induction l with
  | nil => simp [GoMap.find]
  | cons e rest ih =>
    rw [List.map_cons] at hnd
    obtain ⟨hnot, hrest⟩ := List.nodup_cons.1 hnd
    by_cases h : e.1 = s
    · subst h
      simp only [GoMap.find, if_true, Option.some.injEq, List.mem_cons]
      constructor
      · intro hv
        exact Or.inl (by rw [← hv])
      · rintro (hv | hv)
        · rw [← hv]
        · exact absurd (List.mem_map_of_mem Prod.fst hv) hnot
    · rw [show GoMap.find s (e :: rest) = GoMap.find s rest by simp [GoMap.find, h], ih hrest,
        List.mem_cons]
      constructor
      · exact Or.inr
      · rintro (hv | hv)
        · exact absurd (by rw [← hv]) h
        · exact hv

/-- The order of the entries does not matter to a lookup when the keys are
distinct. -/
theorem GoMap.find_perm {V : Type} (s : String) (l1 l2 : List (String × V)) (hp : l1.Perm l2)
    (hnd : (l2.map Prod.fst).Nodup) : GoMap.find s l1 = GoMap.find s l2 := by
  have hnd1 : (l1.map Prod.fst).Nodup := ((hp.map Prod.fst).nodup_iff).2 hnd
  cases h2 : GoMap.find s l2 with
  | none =>
    rw [GoMap.find_eq_none_iff] at h2 ⊢
    exact fun hmem => h2 (((hp.map Prod.fst).mem_iff).1 hmem)
  | some v =>
    rw [GoMap.find_eq_some_iff s v l2 hnd] at h2
    rw [GoMap.find_eq_some_iff s v l1 hnd1]
    exact hp.mem_iff.2 h2

/-- Storing a list of entries one by one: a key reads the last entry stored
under it, or what the map held before. -/
theorem GoMap.foldl_set_get? (l : List (String × List String)) (m : GoMap (List String))
    (s : String) :
    (l.foldl (fun m e => m.set e.1 e.2) m).get? s = (GoMap.find s l.reverse).or (m.get? s) := by
  induction l generalizing m with
  | nil => simp [GoMap.find]
  | cons e rest ih =>
    rw [List.foldl_cons, ih, List.reverse_cons, GoMap.find_append, GoMap.get?_set]
    cases GoMap.find s rest.reverse with
    | some v => simp
    | none =>
      by_cases h : e.1 = s
      · simp [GoMap.find, h]
      · have h' : ¬ s = e.1 := fun heq => h heq.symm
        simp [GoMap.find, h, h']

/-- Assignments keep the keys of a map distinct. -/
theorem GoMap.set_nodup {V : Type} (m : GoMap V) (k : String) (v : V)
    (h : (m.entries.map Prod.fst).Nodup) : ((m.set k v).entries.map Prod.fst).Nodup := by
  unfold GoMap.set
  simp only [List.map_cons, List.nodup_cons]
  constructor
  · intro hmem
    obtain ⟨e, he, hk⟩ := List.mem_map.1 hmem
    have := (List.mem_filter.1 he).2
    simp only [Bool.not_eq_true', decide_eq_false_iff_not] at this
    exact this hk
  · exact (List.Nodup.sublist (List.Sublist.map Prod.fst (List.filter_sublist _)) h)

/-! ## `LocalJob.getCLIArgsMap` -/

/-- The loop of lines 102-104 over entries with distinct keys: every key of
the list reads its value, every other key reads what the map held. -/
theorem LocalJob.copyStages_get? (l : List (String × List String)) (m : GoMap (List String))
    (hnd : (l.map Prod.fst).Nodup) (s : String) :
    (l.foldl (fun m e => m.set e.1 ([] ++ e.2)) m).get? s =
      (GoMap.find s l).or (m.get? s) := by
  have hfun : (fun (m : GoMap (List String)) (e : String × List String) =>
      m.set e.1 ([] ++ e.2)) = (fun m e => m.set e.1 e.2) := by
    funext m e
    simp
  rw [hfun, GoMap.foldl_set_get?, GoMap.find_perm s l.reverse l (List.reverse_perm l) hnd]

/-- The loop of lines 108-114 over entries with distinct keys: every key of
the list reads what the map held followed by its value, every other key
reads what the map held. -/
theorem LocalJob.appendStages_get? (l : List (String × List String)) (m : GoMap (List String))
    (hnd : (l.map Prod.fst).Nodup) (s : String) :
    (l.foldl
      (fun m e =>
        match m.get? e.1 with
        | some existing => m.set e.1 (existing ++ e.2)
        | none => m.set e.1 ([] ++ e.2)) m).get? s =
      (match GoMap.find s l with
        | some v => some ((m.get? s).getD [] ++ v)
        | none => m.get? s) := by
  induction l generalizing m with
  | nil => simp [GoMap.find]
  | cons e rest ih =>
    rw [List.map_cons] at hnd
    obtain ⟨hnot, hrest⟩ := List.nodup_cons.1 hnd
    have hstep : (match m.get? e.1 with
        | some existing => m.set e.1 (existing ++ e.2)
        | none => m.set e.1 ([] ++ e.2)) = m.set e.1 ((m.get? e.1).getD [] ++ e.2) := by
      cases m.get? e.1 <;> simp
    rw [List.foldl_cons, hstep, ih _ hrest, GoMap.get?_set]
    by_cases h : s = e.1
    · subst h
      have hnone : GoMap.find e.1 rest = none := (GoMap.find_eq_none_iff e.1 rest).2 hnot
      simp [GoMap.find, hnone]
    · have h' : ¬ e.1 = s := fun heq => h heq.symm
      simp only [h, if_false, GoMap.find, h']

/-- A loop of assignments keeps the keys of a map distinct. -/
theorem GoMap.foldl_nodup {V E : Type} (f : GoMap V → E → GoMap V)
    (hf : ∀ m e, f m e = m ∨ ∃ k v, f m e = m.set k v) (l : List E) (m : GoMap V)
    (h : (m.entries.map Prod.fst).Nodup) : ((l.foldl f m).entries.map Prod.fst).Nodup := by
  induction l generalizing m with
  | nil => exact h
  | cons e rest ih =>
    rw [List.foldl_cons]
    apply ih
    rcases hf m e with heq | ⟨k, v, heq⟩
    · rw [heq]; exact h
    · rw [heq]; exact GoMap.set_nodup m k v h

/-- What a stage reads in the merged map: with both maps empty, the stage
`default` reads the empty list and no other stage exists; otherwise a stage of
the task map reads the template list followed by the task list, and any other
stage reads what the template map holds. The keys of the merged map are
distinct. -/
theorem LocalJob.mergeStageArgs_get? (order : RangeOrder) (T K : GoMap (List String))
    (horder : order.Valid) (hT : (T.entries.map Prod.fst).Nodup)
    (hK : (K.entries.map Prod.fst).Nodup) :
    ((LocalJob.mergeStageArgs order T K).entries.map Prod.fst).Nodup ∧
    ∀ s, (LocalJob.mergeStageArgs order T K).get? s =
      if T.entries = [] ∧ K.entries = [] then (if s = "default" then some [] else none)
      else
        match K.get? s with
        | some k => some ((T.get? s).getD [] ++ k)
        | none => T.get? s := by
  have hpT := horder.2 T.entries
  have hpK := horder.2 K.entries
  have hndT : ((order.stages T.entries).map Prod.fst).Nodup :=
    ((hpT.map Prod.fst).nodup_iff).2 hT
  have hndK : ((order.stages K.entries).map Prod.fst).Nodup :=
    ((hpK.map Prod.fst).nodup_iff).2 hK
  -- the map after the two loops
  generalize hA : (order.stages T.entries).foldl (fun m e => m.set e.1 ([] ++ e.2))
    (GoMap.empty : GoMap (List String)) = A
  generalize hB : (order.stages K.entries).foldl
      (fun m e =>
        match m.get? e.1 with
        | some existing => m.set e.1 (existing ++ e.2)
        | none => m.set e.1 ([] ++ e.2)) A = B
  have hAget : ∀ s, A.get? s = T.get? s := by
    intro s
    rw [← hA, LocalJob.copyStages_get? _ _ hndT, GoMap.find_perm s _ _ hpT hT]
    cases h : GoMap.find s T.entries <;> simp [GoMap.get?, GoMap.empty, GoMap.find, h]
  have hBget : ∀ s, B.get? s =
      (match K.get? s with
        | some k => some ((T.get? s).getD [] ++ k)
        | none => T.get? s) := by
    intro s
    rw [← hB, LocalJob.appendStages_get? _ _ hndK, GoMap.find_perm s _ _ hpK hK, hAget]
    rfl
  have hAnd : (A.entries.map Prod.fst).Nodup := by
    rw [← hA]
    apply GoMap.foldl_nodup
    · intro m e
      exact Or.inr ⟨_, _, rfl⟩
    · simp [GoMap.empty]
  have hBnd : (B.entries.map Prod.fst).Nodup := by
    rw [← hB]
    apply GoMap.foldl_nodup
    · intro m e
      cases m.get? e.1
      · exact Or.inr ⟨_, _, rfl⟩
      · exact Or.inr ⟨_, _, rfl⟩
    · exact hAnd
  have hres : LocalJob.mergeStageArgs order T K =
      if B.len = 0 then B.set "default" [] else B := by
    simp only [LocalJob.mergeStageArgs, hA, hB]
  have hlen : B.len = 0 ↔ T.entries = [] ∧ K.entries = [] := by
    constructor
    · intro h0
      have hBnil : B.entries = [] := List.length_eq_zero.1 h0
      have hnone : ∀ s, B.get? s = none := by
        intro s
        simp [GoMap.get?, hBnil, GoMap.find]
      constructor
      · cases hTe : T.entries with
        | nil => rfl
        | cons e rest =>
          exfalso
          have := hnone e.1
          rw [hBget] at this
          have hTs : T.get? e.1 = some e.2 := by simp [GoMap.get?, hTe, GoMap.find]
          rw [hTs] at this
          cases hk : K.get? e.1 <;> simp [hk] at this
      · cases hKe : K.entries with
        | nil => rfl
        | cons e rest =>
          exfalso
          have := hnone e.1
          rw [hBget] at this
          have hKs : K.get? e.1 = some e.2 := by simp [GoMap.get?, hKe, GoMap.find]
          rw [hKs] at this
          simp at this
    · rintro ⟨hTe, hKe⟩
      rw [hTe] at hpT
      rw [hKe] at hpK
      have h1 : order.stages [] = [] := List.Perm.eq_nil hpT
      rw [← hB, ← hA, hTe, hKe, h1]
      rfl
  rw [hres]
  by_cases hempty : T.entries = [] ∧ K.entries = []
  · have h0 := hlen.2 hempty
    simp only [h0, if_true, hempty, and_self]
    refine ⟨GoMap.set_nodup B _ _ hBnd, fun s => ?_⟩
    rw [GoMap.get?_set]
    by_cases hs : s = "default"
    · simp [hs]
    · have hBnil : B.entries = [] := List.length_eq_zero.1 h0
      simp [hs, GoMap.get?, hBnil, GoMap.find]
  · have h0 : ¬ B.len = 0 := fun h => hempty (hlen.1 h)
    simp only [h0, if_false, hempty]
    exact ⟨hBnd, hBget⟩

/-- C12: for every template stage map `T` and task stage map `K` (each
holding a key once) and every order of the `range` loops, the map
`getTerraformArgs` builds before it adds the common arguments gives each
stage that occurs in `T` or `K` the list `T[s]` followed by `K[s]`, a missing
side counting as empty; it has no other stage, except that with both maps
empty it is the single stage `default` with an empty list. -/
theorem LocalJob.mergeStageArgs_contract (order : RangeOrder) (T K : GoMap (List String))
    (horder : order.Valid) (hT : (T.entries.map Prod.fst).Nodup)
    (hK : (K.entries.map Prod.fst).Nodup) :
    (∀ s, (T.get? s ≠ none ∨ K.get? s ≠ none) →
      (LocalJob.mergeStageArgs order T K).get? s =
        some ((T.get? s).getD [] ++ (K.get? s).getD [])) ∧
    (∀ s, T.get? s = none → K.get? s = none →
      (LocalJob.mergeStageArgs order T K).get? s = none ∨
        (T.entries = [] ∧ K.entries = [] ∧ s = "default")) ∧
    (T.entries = [] → K.entries = [] →
      ∀ s, (LocalJob.mergeStageArgs order T K).get? s =
        if s = "default" then some [] else none) := by
  obtain ⟨-, hget⟩ := LocalJob.mergeStageArgs_get? order T K horder hT hK
  refine ⟨?_, ?_, ?_⟩
  · intro s hs
    have hne : ¬ (T.entries = [] ∧ K.entries = []) := by
      rintro ⟨hTe, hKe⟩
      rcases hs with h | h
      · exact h (by simp [GoMap.get?, hTe, GoMap.find])
      · exact h (by simp [GoMap.get?, hKe, GoMap.find])
    rw [hget, if_neg hne]
    cases hk : K.get? s with
    | some k => simp
    | none =>
      cases ht : T.get? s with
      | some t => simp
      | none => simp [hk, ht] at hs
  · intro s ht hk
    rw [hget]
    by_cases hempty : T.entries = [] ∧ K.entries = []
    · rw [if_pos hempty]
      by_cases hs : s = "default"
      · exact Or.inr ⟨hempty.1, hempty.2, hs⟩
      · exact Or.inl (by simp [hs])
    · rw [if_neg hempty]
      exact Or.inl (by simp [hk, ht])
  · intro hTe hKe s
    rw [hget, if_pos ⟨hTe, hKe⟩]

/-- C12 with the template stages `init: [-upgrade], plan: [-p]` and the task
stages `plan: [-q], apply: [-a]`, ranged over in reverse: `plan` reads
`[-p, -q]`, `init` and `apply` read their one side, `default` does not
exist. -/
theorem LocalJob.mergeStageArgs_contract_witness :
    (LocalJob.mergeStageArgs ⟨List.reverse, List.reverse⟩
      ⟨[("init", ["-upgrade"]), ("plan", ["-p"])]⟩
      ⟨[("plan", ["-q"]), ("apply", ["-a"])]⟩).get? "plan" = some ["-p", "-q"] ∧
    (LocalJob.mergeStageArgs ⟨List.reverse, List.reverse⟩
      ⟨[("init", ["-upgrade"]), ("plan", ["-p"])]⟩
      ⟨[("plan", ["-q"]), ("apply", ["-a"])]⟩).get? "apply" = some ["-a"] ∧
    ((LocalJob.mergeStageArgs ⟨List.reverse, List.reverse⟩
      ⟨[("init", ["-upgrade"]), ("plan", ["-p"])]⟩
      ⟨[("plan", ["-q"]), ("apply", ["-a"])]⟩).get? "default" = none ∨
      (([("init", ["-upgrade"]), ("plan", ["-p"])] : List (String × List String)) = [] ∧
        ([("plan", ["-q"]), ("apply", ["-a"])] : List (String × List String)) = [] ∧
        "default" = "default")) :=
  ⟨(LocalJob.mergeStageArgs_contract ⟨List.reverse, List.reverse⟩
      ⟨[("init", ["-upgrade"]), ("plan", ["-p"])]⟩ ⟨[("plan", ["-q"]), ("apply", ["-a"])]⟩
      ⟨List.reverse_perm, List.reverse_perm⟩ (by decide) (by decide)).1 "plan"
      (Or.inl (by decide)),
    (LocalJob.mergeStageArgs_contract ⟨List.reverse, List.reverse⟩
      ⟨[("init", ["-upgrade"]), ("plan", ["-p"])]⟩ ⟨[("plan", ["-q"]), ("apply", ["-a"])]⟩
      ⟨List.reverse_perm, List.reverse_perm⟩ (by decide) (by decide)).1 "apply"
      (Or.inr (by decide)),
    (LocalJob.mergeStageArgs_contract ⟨List.reverse, List.reverse⟩
      ⟨[("init", ["-upgrade"]), ("plan", ["-p"])]⟩ ⟨[("plan", ["-q"]), ("apply", ["-a"])]⟩
      ⟨List.reverse_perm, List.reverse_perm⟩ (by decide) (by decide)).2.1 "default"
      (by decide) (by decide)⟩

/-- The loop of lines 122-132 over entries with distinct keys: a key of the
list other than `init` reads the common arguments around what it held, every
other key reads what the map held. -/
theorem LocalJob.wrapStages_get? (destroyArgs varArgs secretArgs : List String)
    (l : List (String × List String)) (m : GoMap (List String))
    (hnd : (l.map Prod.fst).Nodup) (s : String) :
    (l.foldl
      (fun m e =>
        if e.1 = "init" then m
        else m.set e.1 ([] ++ destroyArgs ++ (m.get? e.1).getD [] ++ varArgs ++ secretArgs))
      m).get? s =
      if s ≠ "init" ∧ s ∈ l.map Prod.fst then
        some (destroyArgs ++ (m.get? s).getD [] ++ varArgs ++ secretArgs)
      else m.get? s := by
  induction l generalizing m with
  | nil => simp
  | cons e rest ih =>
    rw [List.map_cons] at hnd
    obtain ⟨hnot, hrest⟩ := List.nodup_cons.1 hnd
    rw [List.foldl_cons, ih _ hrest]
    by_cases hinit : e.1 = "init"
    · simp only [hinit, if_true, List.map_cons, List.mem_cons]
      by_cases hs : s = "init"
      · simp [hs]
      · by_cases hmem : s ∈ rest.map Prod.fst
        · rw [if_pos ⟨hs, hmem⟩, if_pos ⟨hs, Or.inr hmem⟩]
        · rw [if_neg (fun h => hmem h.2), if_neg (fun h => h.2.elim hs hmem)]
    · simp only [hinit, if_false, List.map_cons, List.mem_cons, GoMap.get?_set]
      by_cases hs : s = e.1
      · subst hs
        simp [hinit, hnot]
      · by_cases hmem : s ∈ rest.map Prod.fst
        · simp [hs, hmem]
        · simp [hs, hmem]

/-- What a stage reads after the common arguments are added to a map with
distinct keys: `init` reads what it held, any other stage reads the destroy
arguments, what it held, the variable arguments and the secret arguments. -/
theorem LocalJob.addCommonArgs_get? (order : RangeOrder)
    (destroyArgs varArgs secretArgs : List String) (M : GoMap (List String))
    (horder : order.Valid) (hM : (M.entries.map Prod.fst).Nodup) (s : String) :
    (LocalJob.addCommonArgs order destroyArgs varArgs secretArgs M).get? s =
      if s = "init" then M.get? s
      else (M.get? s).map (fun held => destroyArgs ++ held ++ varArgs ++ secretArgs) := by
  have hp := horder.2 M.entries
  have hnd : ((order.stages M.entries).map Prod.fst).Nodup := ((hp.map Prod.fst).nodup_iff).2 hM
  unfold LocalJob.addCommonArgs
  rw [LocalJob.wrapStages_get? _ _ _ _ _ hnd]
  have hmem : s ∈ (order.stages M.entries).map Prod.fst ↔ M.get? s ≠ none := by
    rw [((hp.map Prod.fst).mem_iff), ne_eq, GoMap.get?, GoMap.find_eq_none_iff, not_not]
  by_cases hs : s = "init"
  · simp [hs]
  · cases hget : M.get? s with
    | none =>
      have : s ∉ (order.stages M.entries).map Prod.fst := fun h => (hmem.1 h) hget
      rw [if_neg (fun h => this h.2), if_neg hs]
      rfl
    | some held =>
      have : s ∈ (order.stages M.entries).map Prod.fst := hmem.2 (by simp [hget])
      rw [if_pos ⟨hs, this⟩, if_neg hs]
      rfl

/-- The stage map read from an argument text holds each key once. -/
theorem LocalJob.argsMapOf_nodup (parse : String → Except String JsonValue)
    (arguments : Option String) :
    (((LocalJob.argsMapOf parse arguments).1).entries.map Prod.fst).Nodup := by
  have hempty : (((GoMap.empty : GoMap (List String))).entries.map Prod.fst).Nodup := by
    simp [GoMap.empty]
  have hmap : ∀ text, (((unmarshalStageMap parse text GoMap.empty).1).entries.map
      Prod.fst).Nodup := by
    intro text
    unfold unmarshalStageMap
    cases parse text with
    | error e => exact hempty
    | ok v =>
      cases v with
      | object members =>
        simp only [decodeStageMap]
        exact GoMap.foldl_nodup _ (fun m e => Or.inr ⟨_, _, rfl⟩) _ _ hempty
      | _ => exact hempty
  cases arguments with
  | none => exact hempty
  | some text =>
    simp only [LocalJob.argsMapOf]
    cases (unmarshalStageMap parse text GoMap.empty).2 with
    | none => exact hmap text
    | some e =>
      simp only
      cases (unmarshalStringSlice parse text []).2 with
      | none => exact GoMap.set_nodup _ _ _ (hmap text)
      | some e1 => exact hmap text

/-- The stage maps `getCLIArgsMap` returns hold each key once. -/
theorem LocalJob.getCLIArgsMap_nodup (t : LocalJob) (env : JobEnv) :
    (((t.getCLIArgsMap env).1).entries.map Prod.fst).Nodup ∧
    (((t.getCLIArgsMap env).2.1).entries.map Prod.fst).Nodup := by
  simp only [LocalJob.getCLIArgsMap]
  split
  · exact ⟨LocalJob.argsMapOf_nodup _ _, by simp [GoMap.empty]⟩
  · exact ⟨LocalJob.argsMapOf_nodup _ _, LocalJob.argsMapOf_nodup _ _⟩

/-- What `getTerraformArgs` returns: when the extra vars, the task params and
the stage maps are read without error, it is a map in which (1) every stage
other than `init` holds, in this order: `-destroy` exactly when the task
requests destroy, the merged arguments of the stage, one pair of `-var` and
the name, `=` and what `fmt` prints for the value under `%s`, for every extra
var other than `semaphore_vars` (in the order of the `range` loop), and one
pair `-var`, `NAME=secret` for every environment secret of type var; a
stage exists exactly when it exists in the merged map; (2) the `init` stage
has neither `-destroy` nor any `-var` pair: it is the template's `init`
arguments followed by the task's, when either has any. -/
theorem LocalJob.getTerraformArgs_contract (t : LocalJob) (env : JobEnv)
    (extraVars : GoMap JsonValue) (params : TerraformTaskParams) (horder : env.order.Valid)
    (hvars : t.getEnvironmentExtraVars env = .ok extraVars)
    (hparams : env.ExtractParams = .ok params)
    (hcli : (t.getCLIArgsMap env).2.2 = none) :
    ∃ (argsMap : GoMap (List String)) (vars : List (String × JsonValue)),
      t.getTerraformArgs env = .ok argsMap ∧
      vars.Perm (extraVars.entries.filter (fun e => !decide (e.1 = "semaphore_vars"))) ∧
      (∀ stage, stage ≠ "init" →
        argsMap.get? stage =
          ((LocalJob.mergeStageArgs env.order (t.getCLIArgsMap env).1
              (t.getCLIArgsMap env).2.1).get? stage).map
            (fun merged =>
              (if params.Destroy = true then ["-destroy"] else []) ++ merged ++
                vars.flatMap
                  (fun e => ["-var", e.1 ++ "=" ++ sprintS env.formatComposite e.2]) ++
                (t.Environment.Secrets.filter
                    (fun secret => decide (secret.Type_ = EnvironmentSecretVar))).flatMap
                  (fun secret => ["-var", secret.Name ++ "=" ++ secret.Secret]))) ∧
      argsMap.get? "init" =
        (if (t.getCLIArgsMap env).1.get? "init" = none ∧
            (t.getCLIArgsMap env).2.1.get? "init" = none then none
          else some (((t.getCLIArgsMap env).1.get? "init").getD [] ++
            ((t.getCLIArgsMap env).2.1.get? "init").getD [])) := by
  obtain ⟨hT, hK⟩ := LocalJob.getCLIArgsMap_nodup t env
  obtain ⟨hMnd, hMget⟩ := LocalJob.mergeStageArgs_get? env.order (t.getCLIArgsMap env).1
    (t.getCLIArgsMap env).2.1 horder hT hK
  have hres : t.getTerraformArgs env = .ok
      (LocalJob.addCommonArgs env.order (if params.Destroy = true then [] ++ ["-destroy"] else [])
        (((env.order.vars extraVars.entries).filter
            (fun e => !decide (e.1 = "semaphore_vars"))).flatMap
          (fun e => ["-var", e.1 ++ "=" ++ sprintS env.formatComposite e.2]))
        ((t.Environment.Secrets.filter
            (fun secret => !decide (secret.Type_ ≠ EnvironmentSecretVar))).flatMap
          (fun secret => ["-var", secret.Name ++ "=" ++ secret.Secret]))
        (LocalJob.mergeStageArgs env.order (t.getCLIArgsMap env).1 (t.getCLIArgsMap env).2.1)) := by
    simp only [LocalJob.getTerraformArgs, hvars, hparams, hcli]
  have hsecret : (fun secret : EnvironmentSecret =>
      !decide (secret.Type_ ≠ EnvironmentSecretVar)) =
      (fun secret => decide (secret.Type_ = EnvironmentSecretVar)) := by
    funext secret
    simp
  rw [hsecret] at hres
  refine ⟨_, (env.order.vars extraVars.entries).filter
      (fun e => !decide (e.1 = "semaphore_vars")), hres, (horder.1 _).filter _, ?_, ?_⟩
  · intro stage hstage
    rw [LocalJob.addCommonArgs_get? _ _ _ _ _ horder hMnd, if_neg hstage]
    cases (LocalJob.mergeStageArgs env.order (t.getCLIArgsMap env).1
        (t.getCLIArgsMap env).2.1).get? stage with
    | none => rfl
    | some merged =>
      simp only [Option.map_some', Option.some.injEq]
      cases params.Destroy <;> simp
  · rw [LocalJob.addCommonArgs_get? _ _ _ _ _ horder hMnd, if_pos rfl, hMget]
    have hne : ¬ ("init" : String) = "default" := by decide
    by_cases hempty : (t.getCLIArgsMap env).1.entries = [] ∧ (t.getCLIArgsMap env).2.1.entries = []
    · have h1 : (t.getCLIArgsMap env).1.get? "init" = none := by
        simp [GoMap.get?, hempty.1, GoMap.find]
      have h2 : (t.getCLIArgsMap env).2.1.get? "init" = none := by
        simp [GoMap.get?, hempty.2, GoMap.find]
      rw [if_pos hempty, if_neg hne, if_pos ⟨h1, h2⟩]
    · rw [if_neg hempty]
      cases hk : (t.getCLIArgsMap env).2.1.get? "init" with
      | some k => simp
      | none =>
        cases ht : (t.getCLIArgsMap env).1.get? "init" with
        | none => simp
        | some held => simp

/-- The map of `sampleTerraformJob` with destroy requested: `plan` begins with
`-destroy`, then `-p`, then one `-var` pair for each of `K`, `B`, `S` in
some order, then the pair of the secret `TOKEN`; `init` is `-upgrade`. -/
theorem LocalJob.getTerraformArgs_contract_witness :
    ∃ (argsMap : GoMap (List String)) (vars : List (String × JsonValue)),
      sampleTerraformJob.getTerraformArgs (sampleJobEnv true) = .ok argsMap ∧
      vars.Perm [("S", .string "v"), ("B", .bool true), ("K", .number "3")] ∧
      argsMap.get? "plan" =
        some (["-destroy"] ++ ["-p"] ++
          vars.flatMap (fun e => ["-var", e.1 ++ "=" ++ sprintS (fun _ => "composite") e.2]) ++
          ["-var", "TOKEN=s3cr3t"]) ∧
      argsMap.get? "init" = some ["-upgrade"] := by
  obtain ⟨argsMap, vars, hres, hperm, hstage, hinit⟩ :=
    LocalJob.getTerraformArgs_contract sampleTerraformJob (sampleJobEnv true)
      ⟨[("semaphore_vars", .object []), ("S", .string "v"), ("B", .bool true),
        ("K", .number "3")]⟩
      ⟨false, true, false, false, false⟩ ⟨List.reverse_perm, List.reverse_perm⟩ rfl rfl rfl
  exact ⟨argsMap, vars, hres, hperm, hstage "plan" (by decide), hinit⟩

/-- C13: for `sampleTerraformJob`, whose environment has the number `K: 3`,
the boolean `B: true` and the string `S: "v"`, the `plan` stage of
`getTerraformArgs` holds the pairs `-var`, `K=%!s(float64=3)` and `-var`,
`B=%!s(bool=true)`, and neither `K=3` nor `B=true`; the string variable and
the secret give `S=v` and `TOKEN=s3cr3t`. -/
theorem LocalJob.getTerraformArgs_number_wrong_verb :
    ∃ argsMap, sampleTerraformJob.getTerraformArgs (sampleJobEnv false) = .ok argsMap ∧
      argsMap.get? "plan" =
        some ["-p", "-var", "K=%!s(float64=3)", "-var", "B=%!s(bool=true)", "-var", "S=v",
          "-var", "TOKEN=s3cr3t"] ∧
      "K=3" ∉ (argsMap.get? "plan").getD [] ∧ "B=true" ∉ (argsMap.get? "plan").getD [] :=
  ⟨_, rfl, rfl, by decide, by decide⟩

/-! ## `LocalJob.getShellArgs` -/

/-- C18 fails on the code: with the environment `K: 3, B: true, S: "v"` the
list built by `getShellArgs` holds `K=%!s(float64=3)` and `B=%!s(bool=true)`,
the marker `fmt` prints for the verb `%s` on a number and a boolean, and
neither `K=3` nor `B=true`; the string variable gives `S=v`, and no element
is made for `semaphore_vars`. -/
theorem LocalJob.getShellArgs_number_wrong_verb :
    ∃ args, sampleShellJob.getShellArgs (sampleJobEnv false) = .ok args ∧
      "K=%!s(float64=3)" ∈ args ∧ "B=%!s(bool=true)" ∈ args ∧
      "K=3" ∉ args ∧ "B=true" ∉ args ∧ "S=v" ∈ args ∧
      ∀ a ∈ args, "semaphore_vars=".data.isPrefixOf a.data = false :=
  ⟨["run.sh", "TOKEN=s3cr3t", "-t", "K=%!s(float64=3)", "B=%!s(bool=true)", "S=v", "-k"],
    rfl, by decide, by decide, by decide, by decide, by decide, by decide⟩

/-! ## Environment merge -/

/-- What a key reads after the merge: the task definition's value, or else
the first extracted value under the key. -/
theorem mergeExtractedEnv_get? (extracted : List (String × String)) (env : GoMap JsonValue)
    (k : String) :
    (mergeExtractedEnv env extracted).get? k =
      (env.get? k).or ((GoMap.find k extracted).map JsonValue.string) := by
  unfold mergeExtractedEnv
  induction extracted generalizing env with
  | nil => simp [GoMap.find]
  | cons e rest ih =>
    rw [List.foldl_cons, ih]
    by_cases h : e.1 = k
    · subst h
      cases hget : env.get? e.1 with
      | some v => simp [hget, GoMap.find]
      | none => simp [hget, GoMap.get?_set, GoMap.find]
    · have h' : ¬ k = e.1 := fun heq => h heq.symm
      cases hget : env.get? e.1 with
      | some v => simp [GoMap.find, h]
      | none => simp [GoMap.get?_set, GoMap.find, h, h']

/-- C19: merging extracted variables into a task-definition environment,
(1) a key present in the task-definition environment keeps the
task-definition value, (2) a key absent from it and present in the extracted
map has the extracted value, as a string, and (3) a key absent from both is
absent from the result. -/
theorem mergeExtractedEnv_contract (env : GoMap JsonValue) (extracted : List (String × String))
    (k : String) :
    (∀ v, env.get? k = some v → (mergeExtractedEnv env extracted).get? k = some v) ∧
    (env.get? k = none → ∀ x, GoMap.find k extracted = some x →
      (mergeExtractedEnv env extracted).get? k = some (.string x)) ∧
    (env.get? k = none → GoMap.find k extracted = none →
      (mergeExtractedEnv env extracted).get? k = none) := by
  refine ⟨?_, ?_, ?_⟩
  · intro v hv
    rw [mergeExtractedEnv_get?, hv]
    rfl
  · intro hnone x hx
    rw [mergeExtractedEnv_get?, hnone, hx]
    rfl
  · intro hnone hx
    rw [mergeExtractedEnv_get?, hnone, hx]
    rfl

/-- C19 on the third case of the test: the task definition has `BRANCH_NAME`
and `EXISTING_VAR`, the extracted map has `BRANCH_NAME`, `COMMIT_HASH` and
`EVENT_TYPE`. -/
theorem mergeExtractedEnv_contract_witness :
    (mergeExtractedEnv
      ⟨[("BRANCH_NAME", .string "production"), ("EXISTING_VAR", .string "from_task")]⟩
      [("BRANCH_NAME", "main"), ("COMMIT_HASH", "abc123"), ("EVENT_TYPE", "push")]).get?
        "BRANCH_NAME" = some (.string "production") ∧
    (mergeExtractedEnv
      ⟨[("BRANCH_NAME", .string "production"), ("EXISTING_VAR", .string "from_task")]⟩
      [("BRANCH_NAME", "main"), ("COMMIT_HASH", "abc123"), ("EVENT_TYPE", "push")]).get?
        "COMMIT_HASH" = some (.string "abc123") ∧
    (mergeExtractedEnv
      ⟨[("BRANCH_NAME", .string "production"), ("EXISTING_VAR", .string "from_task")]⟩
      [("BRANCH_NAME", "main"), ("COMMIT_HASH", "abc123"), ("EVENT_TYPE", "push")]).get?
        "OTHER" = none :=
  ⟨(mergeExtractedEnv_contract
      ⟨[("BRANCH_NAME", .string "production"), ("EXISTING_VAR", .string "from_task")]⟩
      [("BRANCH_NAME", "main"), ("COMMIT_HASH", "abc123"), ("EVENT_TYPE", "push")]
      "BRANCH_NAME").1 (.string "production") rfl,
    (mergeExtractedEnv_contract
      ⟨[("BRANCH_NAME", .string "production"), ("EXISTING_VAR", .string "from_task")]⟩
      [("BRANCH_NAME", "main"), ("COMMIT_HASH", "abc123"), ("EVENT_TYPE", "push")]
      "COMMIT_HASH").2.1 rfl "abc123" rfl,
    (mergeExtractedEnv_contract
      ⟨[("BRANCH_NAME", .string "production"), ("EXISTING_VAR", .string "from_task")]⟩
      [("BRANCH_NAME", "main"), ("COMMIT_HASH", "abc123"), ("EVENT_TYPE", "push")]
      "OTHER").2.2 rfl rfl⟩

/-! ## Queue loop: the `Requeued` event -/

/-- A list of length one that holds an element is that element alone. -/
theorem singleton_of_mem_of_length_one {α : Type} (l : List α) (a : α) (hlen : l.length = 1)
    (hmem : a ∈ l) : l = [a] := by
  match l, hlen, hmem with
  | [b], _, hmem =>
    rw [List.mem_singleton] at hmem
    rw [hmem]

/-- C20: for a runner that is the one runner in the running set and in the
active set of its project, that is registered under its alias, and that is the
one runner in the queue, handling one `Requeued` event leaves the running
count at 0, the active count of the project at 0, no runner under the alias
and the queue length at 1, and makes no `TryClaim` call. -/
theorem TaskPool.handleRequeued_contract (s : TaskStateStore) (r : TaskRunner)
    (hrun : r ∈ s.running) (hrunCount : s.RunningCount = 1)
    (hact : (r.ProjectID, r) ∈ s.active) (hactCount : s.ActiveCount r.ProjectID = 1)
    (_halias : s.GetByAlias r.Alias = some r)
    (hqueue : r ∈ s.queue) (hqueueLen : s.QueueLen = 1) :
    (TaskPool.handleRequeued s r).RunningCount = 0 ∧
    (TaskPool.handleRequeued s r).ActiveCount r.ProjectID = 0 ∧
    (TaskPool.handleRequeued s r).GetByAlias r.Alias = none ∧
    (TaskPool.handleRequeued s r).QueueLen = 1 ∧
    (TaskPool.handleRequeued s r).tryClaimCalls = s.tryClaimCalls := by
  have hrunning : s.running = [r] :=
    singleton_of_mem_of_length_one s.running r hrunCount hrun
  have hq : s.queue = [r] := singleton_of_mem_of_length_one s.queue r hqueueLen hqueue
  have hactive : s.active.filter (fun x => decide (x.1 = r.ProjectID)) = [(r.ProjectID, r)] :=
    singleton_of_mem_of_length_one _ _ hactCount
      (List.mem_filter.2 ⟨hact, by simp⟩)
  refine ⟨?_, ?_, ?_, ?_, rfl⟩
  · simp [TaskPool.handleRequeued, TaskStateStore.ClearRunning, TaskStateStore.RemoveActive,
      TaskStateStore.ClearAlias, TaskStateStore.RunningCount, hrunning]
  · have hcomm : (s.active.filter (fun x => !decide (x = (r.ProjectID, r)))).filter
        (fun x => decide (x.1 = r.ProjectID)) =
        (s.active.filter (fun x => decide (x.1 = r.ProjectID))).filter
          (fun x => !decide (x = (r.ProjectID, r))) := by
      rw [List.filter_filter, List.filter_filter]
      congr 1
      funext x
      exact Bool.and_comm _ _
    simp only [TaskPool.handleRequeued, TaskStateStore.ClearRunning,
      TaskStateStore.RemoveActive, TaskStateStore.ClearAlias, TaskStateStore.ActiveCount]
    rw [hcomm, hactive]
    simp
  · simp only [TaskPool.handleRequeued, TaskStateStore.ClearRunning,
      TaskStateStore.RemoveActive, TaskStateStore.ClearAlias, TaskStateStore.GetByAlias,
      GoMap.get?]
    rw [GoMap.find_eq_none_iff]
    intro hmem
    obtain ⟨e, he, hk⟩ := List.mem_map.1 hmem
    have := (List.mem_filter.1 he).2
    simp only [Bool.not_eq_true', decide_eq_false_iff_not] at this
    exact this hk
  · simp [TaskPool.handleRequeued, TaskStateStore.ClearRunning, TaskStateStore.RemoveActive,
      TaskStateStore.ClearAlias, TaskStateStore.QueueLen, hq]

/-- C20 on the store of TaskPool_test.go: after the `Requeued` event for
runner 42 the counts are 0, 0, the alias is free, the queue holds one runner
and no `TryClaim` was made. -/
theorem TaskPool.handleRequeued_contract_witness :
    (TaskPool.handleRequeued sampleStore sampleRunner).RunningCount = 0 ∧
    (TaskPool.handleRequeued sampleStore sampleRunner).ActiveCount 1 = 0 ∧
    (TaskPool.handleRequeued sampleStore sampleRunner).GetByAlias "alias-42" = none ∧
    (TaskPool.handleRequeued sampleStore sampleRunner).QueueLen = 1 ∧
    (TaskPool.handleRequeued sampleStore sampleRunner).tryClaimCalls = 0 :=
  TaskPool.handleRequeued_contract sampleStore sampleRunner (by decide) (by decide) (by decide)
    (by decide) (by decide) (by decide) (by decide)

/-! ## `terraformReader.Read` on a short buffer -/

/-- C28: on a buffer of two bytes, with the status confirmed,
`terraformReader.Read` returns the count 4: `copy` wrote only the two bytes
`ye`, so the count is larger than `len(p)` and is not the number of bytes
copied. -/
theorem terraformReader.Read_short_buffer :
    ∃ res, terraformReader.Read ⟨false, .TaskWaitingConfirmation⟩ (fun _ => .TaskConfirmed)
        [0, 0] 1 = some res ∧
      res.n = 4 ∧ res.p = [121, 101] ∧ res.p.length = 2 ∧ res.p.length < res.n :=
  ⟨_, rfl, rfl, rfl, rfl, by decide⟩

/-! ## `ValueMap.appendValues` -/

/-- C29: after the key `11` is appended under the scope `1`, appending the
key `1` under the scope `11` returns the error `duplicate key 1`, although no
value with that scope and key was appended before: both pairs are stored
under the same string `111`. -/
theorem ValueMap.appendValues_false_duplicate :
    (ValueMap.appendValues id ValueMap.zero ["11"] "1").1 = none ∧
    (ValueMap.appendValues id (ValueMap.appendValues id ValueMap.zero ["11"] "1").2
      ["1"] "11").1 = some "duplicate key 1" ∧
    (ValueMap.appendValues id ValueMap.zero ["11"] "1").2.values =
      some [{ value := "11", scope := "1" }] := by
  refine ⟨by decide, by decide, by decide⟩

/-! ## `getEnvironmentVars` -/

/-- The loop over the allow-list appends one entry for every name whose value
is not empty. -/
theorem foldl_forwarded (Getenv : String → String) (names : List String) (init : List String) :
    names.foldl
      (fun res e =>
        let v := Getenv e
        if v ≠ "" then res ++ [e ++ "=" ++ v] else res)
      init =
    init ++ (names.filter (fun e => decide (Getenv e ≠ ""))).map (fun e => e ++ "=" ++ Getenv e) := by
  induction names generalizing init with
  | nil => simp
  | cons e rest ih =>
    rw [List.foldl_cons, ih]
    by_cases hv : Getenv e = ""
    · simp [hv]
    · simp [hv]

/-- The loop over the static map appends one entry for every pair. -/
theorem foldl_static (pairs : List (String × String)) (init : List String) :
    pairs.foldl (fun res kv => res ++ [kv.1 ++ "=" ++ kv.2]) init =
    init ++ pairs.map (fun kv => kv.1 ++ "=" ++ kv.2) := by
  induction pairs generalizing init with
  | nil => simp
  | cons kv rest ih => rw [List.foldl_cons, ih]; simp

/-- What `getEnvironmentVars` returns, as a list. -/
theorem getEnvironmentVars_eq (Getenv : String → String) (Config : ConfigType)
    (order : List (String × String) → List (String × String)) :
    getEnvironmentVars Getenv Config order =
      ("PATH=" ++ Getenv "PATH") ::
        ((Config.ForwardedEnvVars.filter (fun e => decide (Getenv e ≠ ""))).map
            (fun e => e ++ "=" ++ Getenv e) ++
          (order Config.EnvVars.entries).map (fun kv => kv.1 ++ "=" ++ kv.2)) := by
  unfold getEnvironmentVars
  simp only [foldl_forwarded, foldl_static]
  simp

/-- C25: `getEnvironmentVars` returns the `PATH` entry, then one `NAME=value`
entry for each allow-listed name whose process value is not empty, then one
`K=V` entry for each pair of `env_vars` (in the order of the range loop, a
permutation of the pairs). Two process environments that agree on `PATH` and
on the allow-listed names give the same list, and changing a variable that is
neither `PATH` nor allow-listed changes nothing. -/
theorem getEnvironmentVars_contract (Getenv Getenv2 : String → String) (Config : ConfigType)
    (order : List (String × String) → List (String × String))
    (horder : ∀ l, (order l).Perm l) :
    (∃ static : List (String × String), static.Perm Config.EnvVars.entries ∧
      getEnvironmentVars Getenv Config order =
        ("PATH=" ++ Getenv "PATH") ::
          ((Config.ForwardedEnvVars.filter (fun e => decide (Getenv e ≠ ""))).map
              (fun e => e ++ "=" ++ Getenv e) ++
            static.map (fun kv => kv.1 ++ "=" ++ kv.2))) ∧
    (Getenv "PATH" = Getenv2 "PATH" → (∀ e ∈ Config.ForwardedEnvVars, Getenv e = Getenv2 e) →
      getEnvironmentVars Getenv Config order = getEnvironmentVars Getenv2 Config order) ∧
    (∀ name value, name ≠ "PATH" → name ∉ Config.ForwardedEnvVars →
      getEnvironmentVars (Function.update Getenv name value) Config order =
        getEnvironmentVars Getenv Config order) := by
  have key : ∀ G1 G2 : String → String, G1 "PATH" = G2 "PATH" →
      (∀ e ∈ Config.ForwardedEnvVars, G1 e = G2 e) →
      getEnvironmentVars G1 Config order = getEnvironmentVars G2 Config order := by
    intro G1 G2 hpath hall
    rw [getEnvironmentVars_eq, getEnvironmentVars_eq, hpath]
    congr 2
    have hf : Config.ForwardedEnvVars.filter (fun e => decide (G1 e ≠ "")) =
        Config.ForwardedEnvVars.filter (fun e => decide (G2 e ≠ "")) :=
      List.filter_congr (fun e he => by rw [hall e he])
    rw [hf]
    exact List.map_congr_left (fun e he => by rw [hall e (List.mem_of_mem_filter he)])
  refine ⟨⟨order Config.EnvVars.entries, horder _, getEnvironmentVars_eq _ _ _⟩, key _ _, ?_⟩
  intro name value hpath hname
  apply key
  · exact Function.update_noteq (Ne.symm hpath) _ _
  · intro e he
    exact Function.update_noteq (fun (h : e = name) => hname (h ▸ he)) _ _

/-- C25 on the inputs of LocalApp_test.go: the list is `PATH=`,
`SEMAPHORE_TEST=test123`, `ANSIBLE_FORCE_COLOR=False`, and it is the same
when `PASSWORD` holds another value. -/
theorem getEnvironmentVars_contract_witness :
    getEnvironmentVars sampleGetenv sampleConfig id =
      ["PATH=", "SEMAPHORE_TEST=test123", "ANSIBLE_FORCE_COLOR=False"] ∧
    getEnvironmentVars (Function.update sampleGetenv "PASSWORD" "hunter2") sampleConfig id =
      getEnvironmentVars sampleGetenv sampleConfig id :=
  ⟨by decide,
    (getEnvironmentVars_contract sampleGetenv sampleGetenv sampleConfig id
      (fun l => List.Perm.refl l)).2.2 "PASSWORD" "hunter2" (by decide) (by decide)⟩

/-! ## The hub: no channel is closed twice -/

/-- A receive leaves the channel open or closed as it was. -/
theorem Chan.recv_closed (ch : Chan) : ch.recv.closed = ch.closed := by
  unfold Chan.recv
  split
  · rfl
  · split <;> rfl

/-- One event keeps the invariant: the hub does not panic, the registered
connections are open afterwards, and a connection that is still to be
registered stays unregistered and open. -/
theorem hub.handle_keeps_open (h : hub) (e : HubEvent) (later : List Nat)
    (hopen : ∀ c ∈ h.connections, (h.conns c).send.closed = false)
    (hfresh : ∀ c ∈ registered [.hub e] ++ later,
      c ∉ h.connections ∧ (h.conns c).send.closed = false)
    (honce : (registered [.hub e] ++ later).Nodup) :
    ∃ h1, h.handle e = .ok h1 ∧
      (∀ c ∈ h1.connections, (h1.conns c).send.closed = false) ∧
      (∀ c ∈ later, c ∉ h1.connections ∧ (h1.conns c).send.closed = false) := by
  cases e with
  | register c =>
    simp only [registered, List.cons_append, List.nil_append] at hfresh honce
    obtain ⟨hc, hnd⟩ := List.nodup_cons.1 honce
    refine ⟨_, rfl, ?_, ?_⟩
    · intro c1 hc1
      rcases List.mem_insert_iff.1 hc1 with rfl | hc1
      · exact (hfresh _ (List.mem_cons_self _ _)).2
      · exact hopen c1 hc1
    · intro c1 hc1
      have h1 := hfresh c1 (List.mem_cons_of_mem _ hc1)
      refine ⟨fun hin => ?_, h1.2⟩
      rcases List.mem_insert_iff.1 hin with rfl | hin
      · exact hc hc1
      · exact h1.1 hin
  | unregister c =>
    simp only [registered, List.nil_append] at hfresh honce
    by_cases hc : c ∈ h.connections
    · have hcl : (h.conns c).send.closed = false := hopen c hc
      have hclose : (h.conns c).send.close =
          some { (h.conns c).send with closed := true, recvq := 0 } := by
        simp [Chan.close, hcl]
      refine ⟨_, by simp only [hub.handle, if_pos hc, hclose]; rfl, ?_, ?_⟩
      · intro c1 hc1
        have hmem : c1 ∈ h.connections ∧ c1 ≠ c := by
          simpa [List.mem_filter] using hc1
        simp only [Function.update_noteq hmem.2]
        exact hopen c1 hmem.1
      · intro c1 hc1
        have h1 := hfresh c1 hc1
        have hne : c1 ≠ c := fun heq => h1.1 (heq ▸ hc)
        refine ⟨fun hin => h1.1 (List.mem_of_mem_filter hin), ?_⟩
        simp only [Function.update_noteq hne]
        exact h1.2
    · exact ⟨h, by simp only [hub.handle, if_neg hc], hopen, hfresh⟩
  | broadcast m =>
    simp only [registered, List.nil_append] at hfresh honce
    obtain ⟨h1, hrun, hspec⟩ := hub.deliverAll_open m h.connections.dedup h
      (List.nodup_dedup _) (fun c hc => hopen c (List.mem_dedup.1 hc))
    refine ⟨h1, hrun, ?_, ?_⟩
    · intro c hc
      by_cases hk : c ∈ h.connections.dedup
      · by_cases hskip : m.userID > 0 ∧ m.userID ≠ (h.conns c).userID
        · rw [((hspec c).1 (Or.inr hskip)).1]
          exact hopen c (List.mem_dedup.1 hk)
        · cases hacc : (h.conns c).send.canAccept
          · exact absurd hc ((hspec c).2.2 hk hskip hacc).2.2.2
          · exact ((hspec c).2.1 hk hskip hacc).2.1
      · exact absurd (List.mem_dedup.2 ((((hspec c).1 (Or.inl hk)).2).1 hc)) hk
    · intro c hc
      have hc1 := hfresh c hc
      have hk : c ∉ h.connections.dedup := fun hin => hc1.1 (List.mem_dedup.1 hin)
      have hsame := (hspec c).1 (Or.inl hk)
      exact ⟨fun hin => hc1.1 (hsame.2.1 hin), by rw [hsame.1]; exact hc1.2⟩

/-- C27: from a hub whose registered connections are open, over every
sequence of register, unregister and broadcast events (and receives) in which
each connection is registered at most once and is open and unregistered
before, the hub never panics, so no channel is closed twice, and every
connection in the set at the end has an open send channel; unregistering a
connection that is not in the set leaves the hub as it is. -/
theorem hub.handleAll_no_double_close (h : hub) (events : List WorldEvent)
    (hopen : ∀ c ∈ h.connections, (h.conns c).send.closed = false)
    (hfresh : ∀ c ∈ registered events, c ∉ h.connections ∧ (h.conns c).send.closed = false)
    (honce : (registered events).Nodup) :
    (∃ h1, hub.handleAll h events = .ok h1 ∧
      ∀ c ∈ h1.connections, (h1.conns c).send.closed = false) ∧
    (∀ c, c ∉ h.connections → h.handle (.unregister c) = .ok h) := by
  refine ⟨?_, fun c hc => by simp only [hub.handle, if_neg hc]⟩
  induction events generalizing h with
  | nil => exact ⟨h, rfl, hopen⟩
  | cons ev rest ih =>
    cases ev with
    | hub e =>
      have hsplit : registered (.hub e :: rest) = registered [.hub e] ++ registered rest := by
        cases e <;> simp [registered]
      rw [hsplit] at hfresh honce
      obtain ⟨h1, hstep, hopen1, hfresh1⟩ :=
        hub.handle_keeps_open h e (registered rest) hopen hfresh honce
      obtain ⟨h2, hrun, hfin⟩ := ih h1 hopen1 hfresh1 (List.Nodup.of_append_right honce)
      exact ⟨h2, by simp only [hub.handleAll, hstep, hrun], hfin⟩
    | receive c =>
      have hcl : ∀ c1, ((h.receive c).conns c1).send.closed = (h.conns c1).send.closed := by
        intro c1
        by_cases hc1 : c1 = c
        · subst hc1
          simp [hub.receive, Chan.recv_closed]
        · simp [hub.receive, Function.update_noteq hc1]
      obtain ⟨h2, hrun, hfin⟩ := ih (h.receive c)
        (fun c1 hc1 => by rw [hcl]; exact hopen c1 hc1)
        (fun c1 hc1 => by
          rw [hcl]
          exact hfresh c1 (by simpa [registered] using hc1))
        (by simpa [registered] using honce)
      exact ⟨h2, by simp only [hub.handleAll, hrun], hfin⟩

/-- C27 on two connections that are evicted by a broadcast and unregister
afterwards: the run ends without a panic, in an empty set. -/
theorem hub.handleAll_no_double_close_witness :
    (∃ h1, hub.handleAll emptyHub sampleEvents = .ok h1 ∧
      ∀ c ∈ h1.connections, (h1.conns c).send.closed = false) ∧
    (∀ c, c ∉ emptyHub.connections → emptyHub.handle (.unregister c) = .ok emptyHub) :=
  hub.handleAll_no_double_close emptyHub sampleEvents
    (fun c hc => absurd hc (List.not_mem_nil c))
    (fun c _ => ⟨List.not_mem_nil c, rfl⟩)
    (by decide)

/-! ## `ShellQuote` -/

/-- A character of the safe class is no quote, no blank and not special to
the shell. -/
theorem shellSafeChar_plain (c : Char) (h : shellSafeChar c = true) :
    c ≠ singleQuote ∧ c ≠ doubleQuote ∧ shellBlank c = false ∧ c ∉ shellSpecialChars := by
  refine ⟨?_, ?_, ?_, ?_⟩
  · rintro rfl
    revert h
    decide
  · rintro rfl
    revert h
    decide
  · cases hb : shellBlank c
    · rfl
    · simp only [shellBlank, Bool.or_eq_true, decide_eq_true_eq] at hb
      rcases hb with (rfl | rfl) | rfl <;> revert h <;> decide
  · intro hmem
    simp only [shellSpecialChars, List.mem_cons, List.mem_singleton, List.not_mem_nil,
      or_false] at hmem
    rcases hmem with rfl | rfl | rfl | rfl | rfl | rfl | rfl | rfl | rfl | rfl | rfl | rfl | rfl |
      rfl | rfl | rfl | rfl | rfl <;> revert h <;> decide

/-- Outside quotes, a run of safe characters is read as part of one word. -/
theorem shellWords_safe (l : List Char) (hsafe : ∀ c ∈ l, shellSafeChar c = true)
    (w : List Char) : shellWords .plain (some w) l = some [w ++ l] := by
  induction l generalizing w with
  | nil => simp [shellWords]
  | cons c rest ih =>
    obtain ⟨h1, h2, h3, h4⟩ := shellSafeChar_plain c (hsafe c (List.mem_cons_self _ _))
    have hrest : ∀ x ∈ rest, shellSafeChar x = true :=
      fun x hx => hsafe x (List.mem_cons_of_mem _ hx)
    simp only [shellWords, if_neg h1, if_neg h2, h3, if_neg h4, Option.getD_some]
    rw [if_neg (by simp), ih hrest]
    simp

/-- Inside single quotes, the text that `ReplaceAll` made of `d`, followed by
the closing quote, is read as the characters of `d`. -/
theorem shellWords_replaceQuotes (d w : List Char) :
    shellWords .single (some w) (replaceQuotes d ++ [singleQuote]) = some [w ++ d] := by
  induction d generalizing w with
  | nil => simp [replaceQuotes, shellWords]
  | cons c rest ih =>
    by_cases hc : c = singleQuote
    · subst hc
      have hdq : singleQuote ≠ doubleQuote := by decide
      have hdq2 : doubleQuote ≠ singleQuote := by decide
      have hnot : ¬ (singleQuote = '$' ∨ singleQuote = Char.ofNat 96 ∨
          singleQuote = Char.ofNat 92) := by decide
      simp only [replaceQuotes, if_true, List.cons_append, List.nil_append, shellWords,
        if_neg hdq, if_neg hdq2, if_neg hnot, Option.getD_some]
      refine (ih (w ++ [singleQuote])).trans ?_
      simp
    · simp only [replaceQuotes, if_neg hc, List.cons_append, shellWords, Option.getD_some, ih]
      simp

/-- C26: a POSIX shell reads `ShellQuote(s)` as exactly one word, whose
characters are those of `s`. The empty string gives two single quotes, a
string of safe characters only is returned as it is, and any other string is
put between single quotes with each single quote replaced by the five
characters quote, double quote, quote, double quote, quote. -/
theorem ShellQuote_contract (s : String) :
    shellWords .plain none (ShellQuote s).data = some [s.data] ∧
    (s = "" → ShellQuote s = "''") ∧
    (s ≠ "" → (∀ c ∈ s.data, shellSafeChar c = true) → ShellQuote s = s) ∧
    (s ≠ "" → (∃ c ∈ s.data, shellSafeChar c = false) →
      ShellQuote s = String.mk ([singleQuote] ++ replaceQuotes s.data ++ [singleQuote])) := by
  have hlen : s.length = 0 ↔ s = "" := by
    constructor
    · intro h
      have hd : s.data = [] := List.length_eq_zero.1 h
      exact String.ext hd
    · rintro rfl
      rfl
  by_cases hempty : s = ""
  · subst hempty
    refine ⟨by decide, fun _ => by decide, fun h => absurd rfl h, fun h => absurd rfl h⟩
  · have hl : ¬ s.length = 0 := fun h => hempty (hlen.1 h)
    cases hm : shellQuotePattern.MatchString s
    · have hq : ShellQuote s = s := by simp only [ShellQuote, if_neg hl, hm]; rfl
      have hsafe : ∀ c ∈ s.data, shellSafeChar c = true := by
        intro c hc
        simp only [shellQuotePattern.MatchString, List.any_eq_false, Bool.not_eq_true,
          Bool.not_eq_false_eq_eq_true] at hm
        simpa using hm c hc
      refine ⟨?_, fun h => absurd h hempty, fun _ _ => hq, ?_⟩
      · rw [hq]
        cases hd : s.data with
        | nil => exact absurd (String.ext hd) hempty
        | cons c rest =>
          rw [hd] at hsafe
          obtain ⟨h1, h2, h3, h4⟩ := shellSafeChar_plain c (hsafe c (List.mem_cons_self _ _))
          simp only [shellWords, if_neg h1, if_neg h2, h3, if_neg h4, Option.getD_none]
          rw [if_neg (by simp), shellWords_safe rest (fun x hx => hsafe x (List.mem_cons_of_mem _ hx))]
          simp
      · rintro _ ⟨c, hc, hbad⟩
        rw [hsafe c hc] at hbad
        exact absurd hbad (by decide)
    · have hq : ShellQuote s =
          String.mk ([singleQuote] ++ replaceQuotes s.data ++ [singleQuote]) := by
        simp only [ShellQuote, if_neg hl, hm, if_true]
      refine ⟨?_, fun h => absurd h hempty, ?_, fun _ _ => hq⟩
      · rw [hq]
        show shellWords .plain none (singleQuote :: (replaceQuotes s.data ++ [singleQuote])) = _
        simp only [shellWords, if_true, Option.getD_none, shellWords_replaceQuotes,
          List.nil_append]
      · intro _ hall
        simp only [shellQuotePattern.MatchString, List.any_eq_true, Bool.not_eq_true'] at hm
        obtain ⟨c, hc, hbad⟩ := hm
        rw [hall c hc] at hbad
        exact absurd hbad (by decide)

/-- C26 on the string `it's a; b`: the quoted text is read back as the one
word `it's a; b`, and a string of safe characters stays as it is. -/
theorem ShellQuote_contract_witness :
    shellWords .plain none (ShellQuote "it's a; b").data = some ["it's a; b".data] ∧
    ShellQuote "it's a; b" = "'it'\"'\"'s a; b'" ∧
    ShellQuote "a-b/c.d" = "a-b/c.d" :=
  ⟨(ShellQuote_contract "it's a; b").1, by decide,
    (ShellQuote_contract "a-b/c.d").2.2.1 (by decide) (by decide)⟩

/-! ## `LocalJob.Kill` -/

/-- C24: when the SSH key of the inventory is installed (agent 1) and the
become key is not found, `Run` returns the error without closing agent 1; and
when the password file of the vault `a` is written and the key of the vault
`b` is not found, `Run` returns the error without removing that file. -/
theorem LocalJob.Run_leaks_on_install_error :
    ((LocalJob.Run sampleJobState sampleJobWorldNoBecomeKey).err = some "key not found" ∧
      JobEvent.Install 1 .AccessKeyRoleGit ∈
        (LocalJob.Run sampleJobState sampleJobWorldNoBecomeKey).events ∧
      (LocalJob.Run sampleJobState sampleJobWorldNoBecomeKey).job.sshKeyInstallation.SSHAgent =
        some 1 ∧
      JobEvent.Close 1 ∉ (LocalJob.Run sampleJobState sampleJobWorldNoBecomeKey).events) ∧
    ((LocalJob.Run sampleJobState sampleJobWorldNoVaultKey).err = some "key not found" ∧
      JobEvent.WriteFile "/tmp/task_1/vault_a_password" ∈
        (LocalJob.Run sampleJobState sampleJobWorldNoVaultKey).events ∧
      JobEvent.Remove "/tmp/task_1/vault_a_password" ∉
        (LocalJob.Run sampleJobState sampleJobWorldNoVaultKey).events) := by
  decide

/-! ## `TaskRunner.run` -/

/-- Events that are no logger calls pass through the runner unchanged. -/
theorem TaskRunner.forward_quiet (t : TaskRunnerState) (l : List JobEvent)
    (h : ∀ e ∈ l, e.loggerCall? = none) : TaskRunner.forward t l = (t, l.map .job) := by
  induction l with
  | nil => rfl
  | cons e rest ih =>
    have he := h e (List.mem_cons_self _ _)
    have hrest := ih (fun x hx => h x (List.mem_cons_of_mem _ hx))
    simp only [TaskRunner.forward, he, hrest, List.map_cons]

/-- The runner handles the events of its job one after the other. -/
theorem TaskRunner.forward_append (t : TaskRunnerState) (a b : List JobEvent) :
    TaskRunner.forward t (a ++ b) =
      ((TaskRunner.forward (TaskRunner.forward t a).1 b).1,
        (TaskRunner.forward t a).2 ++ (TaskRunner.forward (TaskRunner.forward t a).1 b).2) := by
  induction a generalizing t with
  | nil => rfl
  | cons e rest ih =>
    rw [List.cons_append]
    cases he : e.loggerCall? with
    | none => simp only [TaskRunner.forward, he, ih, List.cons_append]
    | some call => simp only [TaskRunner.forward, he, ih, List.append_assoc]

/-- Closing the agent of an installation is no logger call. -/
theorem AccessKeyInstallation.closeAgent_quiet (installation : AccessKeyInstallation) :
    ∀ e ∈ installation.closeAgent, e.loggerCall? = none := by
  intro e he
  unfold AccessKeyInstallation.closeAgent at he
  split at he
  · simp only [List.mem_singleton] at he
    subst he
    rfl
  · simp at he

/-- The method `clearSSHKeys` makes no logger call. -/
theorem LocalJob.clearSSHKeys_quiet (t : LocalJobState) (w : JobWorld) :
    ∀ e ∈ LocalJob.clearSSHKeys t w, e.loggerCall? = none := by
  intro e he
  simp only [LocalJob.clearSSHKeys, List.mem_append, List.mem_flatMap] at he
  rcases he with (he | he) | ⟨x, _, he⟩
  · exact AccessKeyInstallation.closeAgent_quiet _ e he
  · exact AccessKeyInstallation.closeAgent_quiet _ e he
  · exact AccessKeyInstallation.closeAgent_quiet _ e he

/-- The method `clearVaultKeyFiles` makes no logger call. -/
theorem LocalJob.clearVaultKeyFiles_quiet (t : LocalJobState) (w : JobWorld) :
    ∀ e ∈ LocalJob.clearVaultKeyFiles t w, e.loggerCall? = none := by
  intro e he
  simp only [LocalJob.clearVaultKeyFiles, List.mem_flatMap] at he
  obtain ⟨x, _, he⟩ := he
  split at he
  · simp only [List.mem_singleton] at he
    subst he
    rfl
  · simp at he

/-- The phases after the installations: when they return no error their
events end with the status success and the line `Job completed
successfully`. -/
theorem LocalJob.runPhases_success (t : LocalJobState) (w : JobWorld)
    (hok : (LocalJob.runPhases t w).1 = none) :
    ∃ pre, (LocalJob.runPhases t w).2 =
      pre ++ [.logger (.SetStatus .TaskSuccessStatus),
        .logger (.Log "Job completed successfully")] := by
  unfold LocalJob.runPhases at hok ⊢
  split
  · rename_i h
    simp [h] at hok
  · rename_i h1
    split
    · rename_i h
      simp [h1, h] at hok
    · rename_i h2
      split
      · rename_i h
        simp [h1, h2, h] at hok
      · rename_i h3
        split
        · rename_i h
          simp [h1, h2, h3, h] at hok
        · exact ⟨_, rfl⟩

/-- The job: when `Run` returns no error, its events end with the status
success, the line `Job completed successfully` and the deferred calls, which
make no logger call. -/
theorem LocalJob.Run_success (t : LocalJobState) (w : JobWorld)
    (hok : (LocalJob.Run t w).err = none) :
    ∃ pre cleanup, (LocalJob.Run t w).events =
      pre ++ [.logger (.SetStatus .TaskSuccessStatus),
        .logger (.Log "Job completed successfully")] ++ cleanup ∧
      ∀ e ∈ cleanup, e.loggerCall? = none := by
  unfold LocalJob.Run at hok ⊢
  cases hs : (LocalJob.installSSHKeys t w).err with
  | some err => simp [hs] at hok
  | none =>
    cases hv : (LocalJob.installVaultKeyFiles (LocalJob.installSSHKeys t w).job w).err with
    | some err => simp [hs, hv] at hok
    | none =>
      simp only [hs, hv] at hok ⊢
      obtain ⟨pre, hpre⟩ := LocalJob.runPhases_success
        (LocalJob.installVaultKeyFiles (LocalJob.installSSHKeys t w).job w).job w hok
      refine ⟨[.logger (.SetStatus .TaskStartingStatus), .logger (.Log "Starting job...")] ++
          (LocalJob.installSSHKeys t w).events ++
          (LocalJob.installVaultKeyFiles (LocalJob.installSSHKeys t w).job w).events ++ pre,
        LocalJob.clearVaultKeyFiles
            (LocalJob.installVaultKeyFiles (LocalJob.installSSHKeys t w).job w).job w ++
          LocalJob.clearSSHKeys
            (LocalJob.installVaultKeyFiles (LocalJob.installSSHKeys t w).job w).job w, ?_, ?_⟩
      · rw [hpre]
        simp only [List.append_assoc]
      · intro e he
        rcases List.mem_append.1 he with he | he
        · exact LocalJob.clearVaultKeyFiles_quiet _ w e he
        · exact LocalJob.clearSSHKeys_quiet _ w e he

/-- The runner on the events of a job that end with the status `status`, the
line `msg` and calls that are no logger calls. -/
theorem TaskRunner.forward_tail (t : TaskRunnerState) (pre cleanup : List JobEvent)
    (status : TaskStatus) (msg : String) (hq : ∀ e ∈ cleanup, e.loggerCall? = none) :
    TaskRunner.forward t (pre ++ [.logger (.SetStatus status), .logger (.Log msg)] ++ cleanup) =
      ({ (TaskRunner.forward t pre).1 with Status := status },
        (TaskRunner.forward t pre).2 ++
          (.StatusSet status ::
            TaskRunner.saveStatus { (TaskRunner.forward t pre).1 with Status := status }) ++
          TaskRunner.Log { (TaskRunner.forward t pre).1 with Status := status } msg ++
          cleanup.map .job) := by
  rw [TaskRunner.forward_append, TaskRunner.forward_append, TaskRunner.forward_quiet _ _ hq]
  simp [TaskRunner.forward, JobEvent.loggerCall?, TaskRunner.logger, TaskRunner.SetStatus]

/-- The part of `run` that runs the job, when the job returns no error. -/
theorem TaskRunner.runJob_success (t : TaskRunnerState) (w : RunnerWorld)
    (hok : (TaskRunner.runJob t w).err = none) :
    (TaskRunner.runJob t w).runner.Status = .TaskSuccessStatus ∧
    ∃ (pre : List RunnerEvent) (cleanup : List JobEvent), (TaskRunner.runJob t w).events =
      pre ++ (.StatusSet .TaskSuccessStatus ::
          TaskRunner.saveStatus (TaskRunner.runJob t w).runner) ++
        TaskRunner.Log (TaskRunner.runJob t w).runner "Job completed successfully" ++
        cleanup.map .job ++
        TaskRunner.Log (TaskRunner.runJob t w).runner "Task completed successfully" ++
        [.CreateEvent .TaskSuccessStatus] ∧
      ∀ e ∈ cleanup, e.loggerCall? = none := by
  unfold TaskRunner.runJob at hok ⊢
  simp only [] at hok ⊢
  obtain ⟨pre, cleanup, hev, hq⟩ := LocalJob.Run_success _ _ hok
  rw [hok, hev, TaskRunner.forward_tail _ _ _ _ _ hq]
  exact ⟨rfl, (TaskRunner.forward
      { t with job := some (LocalJob.Run (TaskRunner.newJob t w) w.job).job } pre).2,
    cleanup, rfl, hq⟩

/-- C22 fails on the code as stated: in a run in which every phase succeeds,
the log listener is called after the status success has been written. -/
theorem TaskRunner.run_logs_after_success :
    forwardedAfterTerminal
      (TaskRunner.run sampleRunnerState (sampleRunnerWorld false sampleJobWorld)).events = true := by
  decide

/-- C22, amended: `Log` calls every log listener whatever the status of the
task is, and in a run in which every phase succeeds the runner ends in the
status success and its events end with: the status success is written and
published, the line `Job completed successfully` goes to the store and to
every log listener, the deferred calls of the job run, the line `Task
completed successfully` goes to the store and to every log listener, and the
task event is created. -/
theorem TaskRunner.run_success_tail (t : TaskRunnerState) (w : RunnerWorld)
    (hok : (TaskRunner.run t w).err = none) :
    (∀ status msg, TaskRunner.Log { t with Status := status } msg =
      .CreateTaskOutput msg :: t.logListeners.map (fun l => .logListener l msg)) ∧
    (TaskRunner.run t w).runner.Status = .TaskSuccessStatus ∧
    ∃ (pre : List RunnerEvent) (cleanup : List JobEvent), (TaskRunner.run t w).events =
      pre ++ (.StatusSet .TaskSuccessStatus :: TaskRunner.saveStatus (TaskRunner.run t w).runner) ++
        TaskRunner.Log (TaskRunner.run t w).runner "Job completed successfully" ++
        cleanup.map .job ++
        TaskRunner.Log (TaskRunner.run t w).runner "Task completed successfully" ++
        [.CreateEvent .TaskSuccessStatus] ∧
      ∀ e ∈ cleanup, e.loggerCall? = none := by
  refine ⟨fun _ _ => rfl, ?_⟩
  unfold TaskRunner.run at hok ⊢
  cases hd : (TaskRunner.populateDetails t w).1 with
  | some err => simp [hd] at hok
  | none =>
    cases he : (TaskRunner.populateTaskEnvironment (TaskRunner.populateDetails t w).2 w).1 with
    | some err => simp [hd, he] at hok
    | none =>
      simp only [hd, he] at hok ⊢
      obtain ⟨hs, pre, cleanup, hev, hq⟩ := TaskRunner.runJob_success _ w hok
      refine ⟨hs, TaskRunner.Log t "Task started" ++ pre, cleanup, ?_, hq⟩
      rw [hev]
      simp only [List.append_assoc]

/-- C22, amended, on the sample run: its events end with the two completion
lines, each of them sent to the log listener 0 after the status success. -/
theorem TaskRunner.run_success_tail_witness :
    (TaskRunner.run sampleRunnerState (sampleRunnerWorld false sampleJobWorld)).runner.Status =
      .TaskSuccessStatus ∧
    ∃ (pre : List RunnerEvent) (cleanup : List JobEvent),
      (TaskRunner.run sampleRunnerState (sampleRunnerWorld false sampleJobWorld)).events =
        pre ++ (.StatusSet .TaskSuccessStatus :: TaskRunner.saveStatus
            (TaskRunner.run sampleRunnerState (sampleRunnerWorld false sampleJobWorld)).runner) ++
          TaskRunner.Log
            (TaskRunner.run sampleRunnerState (sampleRunnerWorld false sampleJobWorld)).runner
            "Job completed successfully" ++
          cleanup.map .job ++
          TaskRunner.Log
            (TaskRunner.run sampleRunnerState (sampleRunnerWorld false sampleJobWorld)).runner
            "Task completed successfully" ++
          [.CreateEvent .TaskSuccessStatus] ∧
        ∀ e ∈ cleanup, e.loggerCall? = none :=
  (TaskRunner.run_success_tail sampleRunnerState (sampleRunnerWorld false sampleJobWorld)
    (by decide)).2

/-- C23: when the become key is not found, the key installation returns an
error and the run ends in the status `starting`, which is neither fail nor
stopped; it does so too when a kill was requested before the job started: the
job is then marked as killed and the status is still `starting`. -/
theorem TaskRunner.run_error_leaves_starting :
    (TaskRunner.run sampleRunnerState (sampleRunnerWorld false sampleJobWorldNoBecomeKey)).err =
      some "key not found" ∧
    (TaskRunner.run sampleRunnerState
      (sampleRunnerWorld false sampleJobWorldNoBecomeKey)).runner.Status = .TaskStartingStatus ∧
    ((TaskRunner.run sampleRunnerState
      (sampleRunnerWorld true sampleJobWorldNoBecomeKey)).runner.job.map (fun j => j.killed)) =
      some true ∧
    (TaskRunner.run sampleRunnerState
      (sampleRunnerWorld true sampleJobWorldNoBecomeKey)).runner.Status = .TaskStartingStatus ∧
    ¬ ((TaskRunner.run sampleRunnerState
        (sampleRunnerWorld false sampleJobWorldNoBecomeKey)).runner.Status = .TaskFailStatus ∨
      (TaskRunner.run sampleRunnerState
        (sampleRunnerWorld true sampleJobWorldNoBecomeKey)).runner.Status =
        .TaskStoppedStatus) := by
  decide

/-! ## `getSortedKeys` -/

/-- In a chain of names each of which is related to the one before it, every
name reaches the first one. -/
theorem chain_reaches_head {r : String → String → Prop} (V : List String) :
    ∀ top, List.Chain' (fun x y => r y x) (top :: V) →
      ∀ x ∈ top :: V, Relation.ReflTransGen r x top := by
  induction V with
  | nil =>
    intro top _ x hx
    rw [List.mem_singleton] at hx
    subst hx
    exact Relation.ReflTransGen.refl
  | cons y V ih =>
    intro top hchain x hx
    rw [List.chain'_cons] at hchain
    rcases List.mem_cons.1 hx with rfl | hx
    · exact Relation.ReflTransGen.refl
    · exact Relation.ReflTransGen.tail (ih y hchain.2 x hx) hchain.1

/-- In a list without repetitions, the first name of a sublist of two names
has the smaller index. -/
theorem sublist_pair_indexOf (l : List String) (hnd : l.Nodup) (b a : String)
    (h : [b, a].Sublist l) : l.indexOf b < l.indexOf a := by
  induction l with
  | nil => cases h
  | cons x rest ih =>
    obtain ⟨hx, hrest⟩ := List.nodup_cons.1 hnd
    cases h with
    | cons _ h1 =>
      have hb : b ∈ rest := h1.subset (by simp)
      have ha : a ∈ rest := h1.subset (by simp)
      have hxb : x ≠ b := fun heq => hx (heq ▸ hb)
      have hxa : x ≠ a := fun heq => hx (heq ▸ ha)
      rw [List.indexOf_cons_ne _ hxb, List.indexOf_cons_ne _ hxa]
      exact Nat.succ_lt_succ (ih hrest h1)
    | cons₂ _ h1 =>
      have ha : a ∈ rest := h1.subset (by simp)
      have hba : b ≠ a := fun heq => hx (heq ▸ ha)
      rw [List.indexOf_cons_eq _ rfl, List.indexOf_cons_ne _ hba]
      exact Nat.succ_pos _

/-- A name that the map holds is one of its keys. -/
theorem GoMap.mem_keys_of_isSome {V : Type} (m : GoMap V) (k : String)
    (h : (m.get? k).isSome = true) : k ∈ m.entries.map Prod.fst := by
  by_contra hk
  have hnone : m.get? k = none := (GoMap.find_eq_none_iff k m.entries).2 hk
  simp [hnone] at h

/-- A key of the map is a name that the map holds. -/
theorem GoMap.isSome_of_mem_keys {V : Type} (m : GoMap V) (k : String)
    (h : k ∈ m.entries.map Prod.fst) : (m.get? k).isSome = true := by
  cases hg : m.get? k with
  | some v => rfl
  | none => exact absurd h ((GoMap.find_eq_none_iff k m.entries).1 hg)

/-- The names being visited are no more than the exporters. -/
theorem SortState.Inv.visiting_le {E : Type} {exporters : GoMap E}
    {dependsOn : E → List String} {st : SortState}
    (hinv : SortState.Inv exporters dependsOn st) : st.visiting.length ≤ exporters.len := by
  have hsub : st.visiting ⊆ exporters.entries.map Prod.fst :=
    fun x hx => GoMap.mem_keys_of_isSome exporters x (hinv.2.1 x hx)
  have hle := (hinv.1.subperm hsub).length_le
  simpa [GoMap.len] using hle

/-- A loop of calls of `visit` keeps the invariant when each call does. -/
theorem visitEach_spec {E : Type} (exporters : GoMap E) (dependsOn : E → List String)
    (guard : String → Bool) (v : String → SortState → Option (Except String SortState))
    (W : List String) (names : List String)
    (hv : ∀ name ∈ names, guard name = true → ∀ st, SortState.Inv exporters dependsOn st →
      st.visiting = W → SortState.Step exporters dependsOn [name] st (v name st)) :
    ∀ st, SortState.Inv exporters dependsOn st → st.visiting = W →
      SortState.Step exporters dependsOn (names.filter guard) st
        (visitEach guard v names st) := by
  induction names with
  | nil =>
    intro st hinv _
    exact Or.inl ⟨st, rfl, hinv, rfl, fun x hx => absurd hx (List.not_mem_nil x), fun x hx => hx⟩
  | cons name rest ih =>
    intro st hinv hW
    have ih1 := ih (fun n hn => hv n (List.mem_cons_of_mem _ hn))
    cases hg : guard name with
    | false =>
      simp only [visitEach, hg, List.filter_cons_of_neg, Bool.false_eq_true, not_false_eq_true,
        if_false]
      exact ih1 st hinv hW
    | true =>
      simp only [visitEach, hg, if_true, List.filter_cons_of_pos]
      rcases hv name (List.mem_cons_self _ _) hg st hinv hW with
        ⟨st1, hres, hinv1, hvis1, hnames1, hmono1⟩ | ⟨e, hres, hcyc⟩
      · rw [hres]
        simp only []
        rcases ih1 st1 hinv1 (hvis1.trans hW) with
          ⟨st2, hres2, hinv2, hvis2, hnames2, hmono2⟩ | ⟨e, hres2, hcyc⟩
        · refine Or.inl ⟨st2, hres2, hinv2, hvis2.trans hvis1, ?_, fun x hx => hmono2 x (hmono1 x hx)⟩
          intro x hx
          rcases List.mem_cons.1 hx with rfl | hx
          · exact hmono2 _ (hnames1 _ (List.mem_singleton_self _))
          · exact hnames2 x hx
        · exact Or.inr ⟨e, hres2, hcyc⟩
      · rw [hres]
        exact Or.inr ⟨e, rfl, hcyc⟩

/-- The closure `visit` keeps the invariant: called with enough fuel on a
present name that is a dependency of the name visited last, it returns, with
the name visited, or it returns an error and the dependency relation has a
cycle. -/
theorem visit_spec {E : Type} (exporters : GoMap E) (dependsOn : E → List String) :
    ∀ (fuel : Nat) (name : String) (st : SortState),
      SortState.Inv exporters dependsOn st → (exporters.get? name).isSome = true →
      (∀ top ∈ st.visiting.head?, DependsOn exporters dependsOn top name) →
      exporters.len < fuel + st.visiting.length →
      SortState.Step exporters dependsOn [name] st (visit exporters dependsOn fuel name st) := by
  intro fuel
  induction fuel with
  | zero =>
    intro name st hinv _ _ hfuel
    have hle := hinv.visiting_le
    omega
  | succ fuel ih =>
    intro name st hinv hpres htop hfuel
    obtain ⟨hnd, hvpres, hdisj, hchain, hsnd, hsv, hvis, htopo⟩ := hinv
    have hinv0 : SortState.Inv exporters dependsOn st :=
      ⟨hnd, hvpres, hdisj, hchain, hsnd, hsv, hvis, htopo⟩
    unfold visit
    by_cases h1 : name ∈ st.visiting
    · rw [if_pos h1]
      refine Or.inr ⟨_, rfl, name, ?_⟩
      cases hV : st.visiting with
      | nil =>
        rw [hV] at h1
        exact absurd h1 (List.not_mem_nil _)
      | cons top V =>
        rw [hV] at h1 hchain htop
        exact Relation.TransGen.tail' (chain_reaches_head V top hchain name h1)
          (htop top (by simp))
    · rw [if_neg h1]
      by_cases h2 : name ∈ st.visited
      · rw [if_pos h2]
        refine Or.inl ⟨st, rfl, hinv0, rfl, ?_, fun x hx => hx⟩
        intro x hx
        rw [List.mem_singleton] at hx
        subst hx
        exact h2
      · rw [if_neg h2]
        obtain ⟨exporter, hex⟩ := Option.isSome_iff_exists.1 hpres
        have hinv1 : SortState.Inv exporters dependsOn
            { st with visiting := name :: st.visiting } := by
          refine ⟨List.nodup_cons.2 ⟨h1, hnd⟩, ?_, ?_, ?_, hsnd, hsv, hvis, htopo⟩
          · intro x hx
            rcases List.mem_cons.1 hx with rfl | hx
            · exact hpres
            · exact hvpres x hx
          · intro x hx
            rcases List.mem_cons.1 hx with rfl | hx
            · exact h2
            · exact hdisj x hx
          · exact List.chain'_cons'.2 ⟨htop, hchain⟩
        have hstep := visitEach_spec exporters dependsOn (fun dep => (exporters.get? dep).isSome)
          (visit exporters dependsOn fuel) (name :: st.visiting) (dependsOn exporter)
          (fun dep hdep hpd st' hinv' hW' =>
            ih dep st' hinv' hpd
              (fun top htop' => by
                rw [hW'] at htop'
                simp only [List.head?_cons, Option.mem_def, Option.some.injEq] at htop'
                subst htop'
                exact ⟨exporter, hex, hdep, hpd⟩)
              (by
                rw [hW', List.length_cons]
                omega))
          { st with visiting := name :: st.visiting } hinv1 rfl
        simp only [hex]
        rcases hstep with ⟨st2, hres, hinv2, hvis2, hdeps, hmono⟩ | ⟨e, hres, hcyc⟩
        · rw [hres]
          simp only []
          obtain ⟨hnd2, hvpres2, hdisj2, hchain2, hsnd2, hsv2, hvisp2, htopo2⟩ := hinv2
          have hvis2' : st2.visiting = name :: st.visiting := hvis2
          have hname2 : name ∉ st2.visited :=
            hdisj2 name (by rw [hvis2']; exact List.mem_cons_self _ _)
          have hfilter : st2.visiting.filter (fun x => !decide (x = name)) = st.visiting := by
            rw [hvis2', List.filter_cons_of_neg (by simp)]
            exact List.filter_eq_self.2 (fun a ha => by
              have hne : a ≠ name := fun heq => h1 (heq ▸ ha)
              simp [hne])
          rw [hfilter]
          refine Or.inl ⟨_, rfl, ⟨hnd, hvpres, ?_, hchain, ?_, ?_, ?_, ?_⟩, rfl, ?_, ?_⟩
          · intro x hx hmem
            rcases List.mem_cons.1 hmem with rfl | hmem
            · exact h1 hx
            · exact hdisj2 x (by rw [hvis2']; exact List.mem_cons_of_mem _ hx) hmem
          · exact List.Nodup.append hsnd2 (List.nodup_singleton _)
              (by
                intro x hx1 hx2
                rw [List.mem_singleton] at hx2
                subst hx2
                exact hname2 ((hsv2 x).1 hx1))
          · intro x
            simp only [List.mem_append, List.mem_singleton, List.mem_cons, List.not_mem_nil,
              or_false]
            rw [hsv2 x]
            exact or_comm
          · intro x hx
            rcases List.mem_cons.1 hx with rfl | hx
            · exact hpres
            · exact hvisp2 x hx
          · intro a ha b hab
            rcases List.mem_cons.1 ha with rfl | ha
            · obtain ⟨exporter2, hex2, hb, hpb⟩ := hab
              rw [hex] at hex2
              cases hex2
              have hbv : b ∈ st2.visited :=
                hdeps b (List.mem_filter.2 ⟨hb, hpb⟩)
              have hbs : [b].Sublist st2.sorted :=
                List.singleton_sublist.2 ((hsv2 b).2 hbv)
              exact hbs.append (List.Sublist.refl [a])
            · exact (htopo2 a ha b hab).trans (List.sublist_append_left _ _)
          · intro x hx
            rw [List.mem_singleton] at hx
            subst hx
            exact List.mem_cons_self _ _
          · intro x hx
            exact List.mem_cons_of_mem _ (hmono x hx)
        · rw [hres]
          exact Or.inr ⟨e, rfl, hcyc⟩

/-- C30: for exporters with distinct names, visited by the final loop in any
order, and any dependency function, `getSortedKeys` returns as soon as the
fuel exceeds the number of exporters. If the dependency relation restricted
to the exporters present has no cycle, it returns a list that holds every
exporter name exactly once, in which every present dependency of a name
stands before the name; if the relation has a cycle, it returns an error. -/
theorem getSortedKeys_contract {E : Type} (exporters : GoMap E) (dependsOn : E → List String)
    (order : List String) (fuel : Nat)
    (hkeys : (exporters.entries.map Prod.fst).Nodup)
    (horder : order.Perm (exporters.entries.map Prod.fst))
    (hfuel : exporters.len < fuel) :
    (∃ res, getSortedKeys exporters dependsOn order fuel = some res) ∧
    ((∀ a, ¬ Relation.TransGen (DependsOn exporters dependsOn) a a) →
      ∃ sorted, getSortedKeys exporters dependsOn order fuel = some (.ok sorted) ∧
        sorted.Perm (exporters.entries.map Prod.fst) ∧
        ∀ a b, DependsOn exporters dependsOn a b → [b, a].Sublist sorted) ∧
    ((∃ a, Relation.TransGen (DependsOn exporters dependsOn) a a) →
      ∃ e, getSortedKeys exporters dependsOn order fuel = some (.error e)) := by
  have hinv0 : SortState.Inv exporters dependsOn ⟨[], [], []⟩ :=
    ⟨List.nodup_nil, fun x hx => absurd hx (List.not_mem_nil x),
      fun x hx => absurd hx (List.not_mem_nil x), List.chain'_nil, List.nodup_nil,
      fun x => Iff.rfl, fun x hx => absurd hx (List.not_mem_nil x),
      fun a ha => absurd ha (List.not_mem_nil a)⟩
  have hstep := visitEach_spec exporters dependsOn (fun _ => true)
    (visit exporters dependsOn fuel) [] order
    (fun name hname _ st hinv hW =>
      visit_spec exporters dependsOn fuel name st hinv
        (GoMap.isSome_of_mem_keys exporters name (horder.subset hname))
        (fun top htop => by
          rw [hW] at htop
          simp at htop)
        (by
          rw [hW]
          simpa using hfuel))
    ⟨[], [], []⟩ hinv0 rfl
  have hall : order.filter (fun _ => true) = order := List.filter_eq_self.2 (fun _ _ => rfl)
  rw [hall] at hstep
  rcases hstep with ⟨st1, hres, hinv1, _, hnames, _⟩ | ⟨e, hres, hcyc⟩
  · obtain ⟨_, _, _, _, hsnd, hsv, hvisp, htopo⟩ := hinv1
    have hget : getSortedKeys exporters dependsOn order fuel = some (.ok st1.sorted) := by
      simp only [getSortedKeys, hres]
    have hperm : st1.sorted.Perm (exporters.entries.map Prod.fst) := by
      refine (List.perm_ext_iff_of_nodup hsnd hkeys).2 (fun x => ⟨fun hx => ?_, fun hx => ?_⟩)
      · exact GoMap.mem_keys_of_isSome exporters x (hvisp x ((hsv x).1 hx))
      · exact (hsv x).2 (hnames x (horder.symm.subset hx))
    have hbefore : ∀ a b, DependsOn exporters dependsOn a b → [b, a].Sublist st1.sorted := by
      intro a b hab
      have ha : a ∈ exporters.entries.map Prod.fst := by
        obtain ⟨exporter, hex, _, _⟩ := hab
        exact GoMap.mem_keys_of_isSome exporters a (by rw [hex]; rfl)
      exact htopo a (hnames a (horder.symm.subset ha)) b hab
    refine ⟨⟨_, hget⟩, fun _ => ⟨st1.sorted, hget, hperm, hbefore⟩, ?_⟩
    rintro ⟨a, hcyc⟩
    exfalso
    have hidx : ∀ x y, Relation.TransGen (DependsOn exporters dependsOn) x y →
        st1.sorted.indexOf y < st1.sorted.indexOf x := by
      intro x y hxy
      induction hxy with
      | single h => exact sublist_pair_indexOf _ hsnd _ _ (hbefore _ _ h)
      | tail _ h ih => exact lt_trans (sublist_pair_indexOf _ hsnd _ _ (hbefore _ _ h)) ih
    exact lt_irrefl _ (hidx a a hcyc)
  · have hget : getSortedKeys exporters dependsOn order fuel = some (.error e) := by
      simp only [getSortedKeys, hres]
    refine ⟨⟨_, hget⟩, fun hacyclic => ?_, fun _ => ⟨e, hget⟩⟩
    obtain ⟨a, ha⟩ := hcyc
    exact absurd ha (hacyclic a)

/-- C30 on three exporters, of which `Template` depends on `Project`,
`Inventory` and an absent name, and `Inventory` on `Project`: the call
returns, the names come out as `Project`, `Inventory`, `Template`, and two
exporters that depend on each other give an error. -/
theorem getSortedKeys_contract_witness :
    (∃ res, getSortedKeys sampleExporters id ["Template", "Project", "Inventory"] 4 = some res) ∧
    getSortedKeys sampleExporters id ["Template", "Project", "Inventory"] 4 =
      some (.ok ["Project", "Inventory", "Template"]) ∧
    getSortedKeys sampleCyclicExporters id ["Inventory", "Template"] 3 =
      some (.error "cyclic dependency detected involving Inventory") :=
  ⟨(getSortedKeys_contract sampleExporters id ["Template", "Project", "Inventory"] 4
      (by decide) (by decide) (by decide)).1, rfl, rfl⟩

end Semaphore
